import Mathlib

/-!
Verification of facil.io core (single-header `fio-stl.h`) claims.

This file gives a shallow embedding, in Lean 4, of the parts of
`src/lib/facil/fio-stl.h` that the claims C1..C10 talk about:

* the reference-counted binary-safe string template (`FIO_STRING_NAME`),
  including its Base64 codec;
* the ordered open-addressed hash-map template (`FIO_MAP_NAME`);
* the dynamic-array template (`FIO_ARRAY_NAME`);
* the streaming JSON parser (`fio_json_parse` and friends);
* the FIOBJ JSON serializer (`fiobj___json_format_internal__`).

Modelling conventions:

* machine integers are `Nat` (or `Int` where the C uses signed types), with
  `% 256` applied at every byte-buffer store (a C `char` store truncates) and
  `% 2^32` / sentinel values written out explicitly where uint32 wrap matters;
* heap buffers are `List Nat`; a store through `List.set` outside the list
  bounds is a no-op, which models the fact that such a C store writes memory
  outside the object tracked by the model (C undefined behaviour);
* reads past the end of a C buffer (which return unspecified memory) are
  modelled with `List.getD _ _ 0` and noted at each site;
* allocation is assumed to succeed (the slab layer aborts on failure);
* loops whose C termination depends on heap-shape invariants (the hash-map
  ring walk) take an explicit fuel argument and return `Option`, with `none`
  modelling divergence of the C loop.
-/

namespace Facil

/- ************************************************************************
   String template (fio-stl.h lines 5061-6712), 64-bit layout,
   FIO_STRING_NO_ALIGN unset: sizeof(fio_string_s) = 48, small capa = 46.
   ************************************************************************ -/

/-- Identity of the pointer returned in `fio_string_info_s.data`:
NULL, the inline (small-string) bytes of the struct, or a heap buffer
(whose generation number changes whenever the string (re)allocates). -/
inductive PtrV where
  | null : PtrV
  | small : PtrV
  | heap (g : Nat) : PtrV
deriving DecidableEq, Repr

/-- Model of `fio_string_info_s`: reported capacity, length and data pointer. -/
structure SInfo where
  capa : Nat
  len : Nat
  data : PtrV
deriving DecidableEq, Repr

/-- The `dealloc` function pointer of a string: NULL (static/borrowed),
the template's `_default_dealloc`, or a user-supplied deallocator. -/
inductive DeallocK where
  | nullPtr : DeallocK
  | default : DeallocK
  | other : DeallocK
deriving DecidableEq, Repr

/-- Model of `fio_string_s`.  `special` is the flag byte
(bit 0 = small, bit 1 = frozen, bits 2..7 = small length).
`capa`, `len`, `dealloc` are the large-mode struct fields.
`gen`/`buf` model the heap buffer behind `data` (`dataNull` records a NULL
`data` pointer); `small` models the 47 inline bytes following `special`.
The physical aliasing of the inline bytes with the `capa`/`len`/`data`
fields in small mode is not representable in a record model; the single
code path that observes it (negative `start_pos` in `replace` on a small
string) is outside every claim and noted where translated. -/
structure StrS where
  special : Nat
  capa : Nat
  len : Nat
  dealloc : DeallocK
  dataNull : Bool
  gen : Nat
  buf : List Nat
  small : List Nat
deriving DecidableEq, Repr

/-- FIO_STRING_SMALL_CAPA: sizeof(fio_string_s) - 2 = 46 on the 64-bit layout. -/
def SMALL_CAPA : Nat := 46

/-- FIO_STRING_CAPA2WORDS(num) = ((num) + 1) | (sizeof(long double) - 1). -/
def CAPA2WORDS (n : Nat) : Nat := (n + 1) ||| 15

/-- FIO_STRING_IS_SMALL: (special & 1) || !data. -/
def StrS.isSmall (s : StrS) : Bool := s.special % 2 = 1 || s.dataNull

/-- FIO_STRING_IS_FROZEN: special & 2. -/
def StrS.isFrozen (s : StrS) : Bool := s.special / 2 % 2 = 1

/-- FIO_STRING_SMALL_LEN: special >> 2. -/
def StrS.smallLen (s : StrS) : Nat := s.special / 4

/-- FIO_STRING_SMALL_LEN_SET: special = ((special & 2) | (l << 2) | 1) & 0xFF,
with the C uint8_t cast of `l` applied first. -/
def smallLenSet (s : StrS) (l : Nat) : StrS :=
  { s with special := ((s.special &&& 2) ||| (l % 256 * 4) ||| 1) &&& 255 }

/-- fio_string_freeze: special |= 2. -/
def freeze (s : StrS) : StrS := { s with special := s.special ||| 2 }

/-- fio_string_info (lines 5531-5547). -/
def StrS.info (s : StrS) : SInfo :=
  if s.isSmall then
    { capa := if s.isFrozen then 0 else SMALL_CAPA
      len := s.smallLen
      data := PtrV.small }
  else
    { capa := if s.isFrozen then 0 else s.capa
      len := s.len
      data := if s.dataNull then PtrV.null else PtrV.heap s.gen }

/-- fio_string_len (lines 5550-5553). -/
def strLen (s : StrS) : Nat := if s.isSmall then s.smallLen else s.len

/-- The current data pointer of the string, as `fio_string_data` returns it. -/
def strData (s : StrS) : PtrV :=
  if s.isSmall then PtrV.small
  else if s.dataNull then PtrV.null else PtrV.heap s.gen

/-- The logical byte content of the string (the first `len` bytes behind the
data pointer). -/
def contents (s : StrS) : List Nat :=
  if s.isSmall then s.small.take s.smallLen else s.buf.take s.len

/-- A single byte store through an info pointer `p` at offset `i`.
Stores through NULL or through a stale heap generation, and stores beyond
the tracked buffer, touch memory outside the object and are dropped. -/
def bwrite (s : StrS) (p : PtrV) (i : Nat) (v : Nat) : StrS :=
  match p with
  | PtrV.small => { s with small := s.small.set i (v % 256) }
  | PtrV.heap g => if g = s.gen then { s with buf := s.buf.set i (v % 256) } else s
  | PtrV.null => s

/-- Sequential byte stores (memcpy of `l` through pointer `p` at offset `i`). -/
def bwriteList (s : StrS) (p : PtrV) (i : Nat) (l : List Nat) : StrS :=
  match l with
  | [] => s
  | v :: rest => bwriteList (bwrite s p i v) p (i + 1) rest

/-- A byte read through an info pointer (reads of untracked memory yield 0). -/
def bread (s : StrS) (p : PtrV) (i : Nat) : Nat :=
  match p with
  | PtrV.small => s.small.getD i 0
  | PtrV.heap g => if g = s.gen then s.buf.getD i 0 else 0
  | PtrV.null => 0

/-- fio_string_reserve (lines 5698-5759).  Allocation is assumed to succeed
(the `no_mem` paths are unreachable in the model). -/
def reserve (s : StrS) (amount : Nat) : StrS × SInfo :=
  if s.isFrozen then (s, s.info)
  else if s.isSmall then
    if amount ≤ SMALL_CAPA then
      (s, { capa := SMALL_CAPA, len := s.smallLen, data := PtrV.small })
    else
      -- is_small: move the inline data into a fresh heap buffer
      let amount2 := CAPA2WORDS amount
      let tmp : List Nat := List.replicate (amount2 + 1) 0
      let tmp :=
        if s.smallLen ≠ 0 then
          (s.small.take (s.smallLen + 1)) ++ tmp.drop (s.smallLen + 1)
        else tmp -- tmp[0] = 0 already holds in the calloc model
      let s2 : StrS :=
        { special := 0
          capa := amount2
          len := s.smallLen
          dealloc := DeallocK.default
          dataNull := false
          gen := s.gen + 1
          buf := tmp
          small := s.small }
      -- the C return re-reads FIO_STRING_SMALL_LEN(s) after *s was overwritten;
      -- the new `special` is 0, so the reported length is always 0
      (s2, { capa := amount2, len := s2.special / 4, data := PtrV.heap s2.gen })
  else
    if amount < s.capa then
      (s, { capa := s.capa, len := s.len, data := PtrV.heap s.gen })
    else
      let amount2 := CAPA2WORDS amount
      if s.dealloc = DeallocK.default then
        -- FIO_MEM_REALLOC_ keeps the first len+1 bytes; fresh space unspecified
        -- (modelled as zero), final NUL store at [amount2] is inside the list
        let tmp := (s.buf.take (s.len + 1)) ++
          List.replicate (amount2 + 1 - min (s.len + 1) s.buf.length) 0
        let s2 := { s with capa := amount2
                           gen := s.gen + 1
                           buf := tmp.set amount2 0 }
        (s2, { capa := amount2, len := s.len, data := PtrV.heap s2.gen })
      else
        let tmp : List Nat := List.replicate (amount2 + 1) 0
        let tmp :=
          if ¬ s.dataNull ∧ s.len ≠ 0 then
            (s.buf.take (s.len + 1)) ++ tmp.drop (s.len + 1)
          else tmp
        let s2 := { s with capa := amount2
                           gen := s.gen + 1
                           dealloc := DeallocK.default
                           buf := tmp.set amount2 0
                           dataNull := false }
        (s2, { capa := amount2, len := s.len, data := PtrV.heap s2.gen })

/-- fio_string_resize (lines 5630-5658). -/
def resize (s : StrS) (size : Nat) : StrS × SInfo :=
  if s.isFrozen then (s, s.info)
  else if s.isSmall then
    if size ≤ SMALL_CAPA then
      let s2 := smallLenSet s size
      let s2 := { s2 with small := s2.small.set size 0 }
      (s2, { capa := SMALL_CAPA, len := size, data := PtrV.small })
    else
      let s2 := smallLenSet s SMALL_CAPA
      let s2 := (reserve s2 size).1
      -- big:
      let s2 := { s2 with len := size, buf := s2.buf.set size 0 }
      (s2, { capa := s2.capa, len := size, data := PtrV.heap s2.gen })
  else
    let s2 :=
      if size ≥ s.capa then
        let s1 :=
          if s.dealloc ≠ DeallocK.nullPtr ∧ s.capa ≠ 0 then { s with len := s.capa } else s
        (reserve s1 size).1
      else s
    let s2 := { s2 with len := size, buf := s2.buf.set size 0 }
    (s2, { capa := s2.capa, len := size, data := PtrV.heap s2.gen })

/-- fio_string_write (lines 5993-6003). -/
def write (s : StrS) (src : List Nat) : StrS × SInfo :=
  if src.length = 0 ∨ s.isFrozen then (s, s.info)
  else
    let st := resize s (src.length + strLen s)
    (bwriteList st.1 st.2.data (st.2.len - src.length) src, st.2)

/-- The decimal digits of `n` (least significant first) as ASCII codes;
this is the result left in `buf` by the digit loop of `write_i`. -/
def decDigitsRev (n : Nat) : List Nat :=
  if n = 0 then [] else (48 + n % 10) :: decDigitsRev (n / 10)
decreasing_by exact Nat.div_lt_self (Nat.pos_of_ne_zero (by assumption)) (by omega)

/-- fio_string_write_i (lines 6008-6043).  `negGarbage` models the
uninitialized local `neg` (read when `num > 0`); the two's-complement wrap of
`0 - INT64_MIN` is not modelled (no claim exercises it). -/
def write_i (s : StrS) (num : Int) (negGarbage : Bool) : StrS × SInfo :=
  if s.isFrozen then (s, s.info)
  else if num = 0 then
    let st := resize s (strLen s + 1)
    (bwrite st.1 st.2.data (st.2.len - 1) 48, st.2)
  else
    let neg := if num < 0 then true else negGarbage
    let chars := decDigitsRev num.natAbs ++ (if neg then [45] else [])
    let l := chars.length
    let st := resize s (strLen s + l)
    (bwriteList st.1 st.2.data (st.2.len - l) chars.reverse, st.2)

/-- fio_string_concat (lines 6050-6067). -/
def concat (dest src : StrS) : StrS × SInfo :=
  if dest.isFrozen then (dest, dest.info)
  else
    let srcState := src.info
    if srcState.len = 0 then (dest, dest.info)
    else
      let oldLen := strLen dest
      let st := resize dest (srcState.len + oldLen)
      (bwriteList st.1 st.2.data oldLen (contents src), st.2)

/-- memmove through pointer `p`: copy `count` bytes from offset `src` to
offset `dst` (reads are taken before any write, as memmove requires). -/
def bmemmove (s : StrS) (p : PtrV) (dst src count : Nat) : StrS :=
  bwriteList s p dst ((List.range count).map (fun k => bread s p (src + k)))

/-- fio_string_replace (lines 6081-6125).  See the `StrS` note about the
negative `start_pos` small-string aliasing. -/
def replace (s : StrS) (start_pos : Int) (old_len : Nat) (src : List Nat) :
    StrS × SInfo :=
  let state := s.info
  if s.isFrozen ∨ (old_len = 0 ∧ src.length = 0) then (s, state)
  else
    let sp : Nat :=
      if start_pos < 0 then (max 0 (start_pos + (s.len : Int) + 1)).toNat
      else start_pos.toNat
    if sp + old_len ≥ state.len then
      let s2 := if s.isSmall then smallLenSet s sp else { s with len := sp }
      write s2 src
    else
      let new_size := state.len + src.length - old_len
      let step :=
        if old_len ≠ src.length then
          let st :=
            if old_len < src.length then resize s (state.len + (src.length - old_len))
            else (s, state)
          (bmemmove st.1 st.2.data (sp + src.length) (sp + old_len)
            (st.2.len - sp - old_len), st.2)
        else (s, state)
      let s3 := if src.length ≠ 0 then bwriteList step.1 step.2.data sp src else step.1
      resize s3 new_size

/-- fio_string_vprintf (lines 6132-6145).  `fmtLen` and `fmtBytes` stand for
the return value and output of the platform `vsnprintf` (an external
collaborator).  When the string is frozen and shorter than the formatted
output, the C computes a wildly out-of-range store address (size_t wrap);
such stores are outside the model. -/
def vprintf (s : StrS) (fmtLen : Int) (fmtBytes : List Nat) : StrS × SInfo :=
  if fmtLen ≤ 0 then (s, s.info)
  else
    let l := fmtLen.toNat
    let st := resize s (l + strLen s)
    let s2 :=
      if l ≤ st.2.len then
        bwriteList st.1 st.2.data (st.2.len - l) (fmtBytes.take l ++ [0])
      else st.1
    (s2, st.2)

/-- fio_string_printf (lines 6152-6159): forwards to vprintf. -/
def printf (s : StrS) (fmtLen : Int) (fmtBytes : List Nat) : StrS × SInfo :=
  vprintf s fmtLen fmtBytes

/- ************************************************************************
   String codecs: JSON escape / unescape, Base64  (lines 6161-6712)
   ************************************************************************ -/

/-- fio__string_utf8_map (line 5784). -/
def utf8Map (i : Nat) : Nat :=
  [1, 1, 1, 1, 1, 1, 1, 1, 1, 1, 1, 1, 1, 1, 1, 1, 5, 5, 5, 5,
   5, 5, 5, 5, 2, 2, 2, 2, 3, 3, 4, 0].getD i 0

/-- escape_hex_chars (line 6180). -/
def escapeHexChar (i : Nat) : Nat :=
  [48, 49, 50, 51, 52, 53, 54, 55, 56, 57, 65, 66, 67, 68, 69, 70].getD i 0


/-- The first scan loop of `write_escape` (lines 6187-6229): returns
`(extra_len, at)`.  The C switch falls through case 4 to case 3 to case 2,
checking the continuation bytes; reads past the end of `src` (unspecified C
memory next to the buffer) are modelled as 0. -/
def escScan (src : List Nat) (i : Nat) (extra at0 : Nat) : Nat × Nat :=
  if h : i < src.length then
    let c := src.getD i 0
    if (34 < c ∧ c < 127 ∧ c ≠ 92) ∨ c = 33 ∨ c = 32 then
      escScan src (i + 1) extra at0
    else
      let u1 := utf8Map (src.getD (i + 1) 0 / 8) = 5
      let u2 := utf8Map (src.getD (i + 2) 0 / 8) = 5
      let u3 := utf8Map (src.getD (i + 3) 0 / 8) = 5
      let cls := utf8Map (c / 8)
      if (cls = 2 ∧ u1) ∨ (cls = 3 ∧ u2 ∧ u1) ∨ (cls = 4 ∧ u3 ∧ u2 ∧ u1) then
        escScan src (i + cls) extra at0
      else
        let at1 := if at0 ≠ 0 then at0 else i + 1
        let extra1 :=
          if c = 8 ∨ c = 12 ∨ c = 10 ∨ c = 13 ∨ c = 9 ∨ c = 34 ∨ c = 92 ∨ c = 47
          then extra + 1 else extra + 5
        escScan src (i + 1) extra1 at1
  else (extra, at0)
termination_by src.length - i
decreasing_by
  · omega
  · rename_i hcase
    have : utf8Map (src.getD i 0 / 8) = 2 ∨ utf8Map (src.getD i 0 / 8) = 3 ∨
        utf8Map (src.getD i 0 / 8) = 4 := by
      rcases hcase with h1 | h1 | h1
      · exact Or.inl h1.1
      · exact Or.inr (Or.inl h1.1)
      · exact Or.inr (Or.inr h1.1)
    omega
  · omega

/-- The writing loop of `write_escape` (lines 6246-6334): writes escaped
bytes through `p` starting at buffer offset `base + at`, returning the final
state and `at`. -/
def escWrite (src : List Nat) (i : Nat) (s : StrS) (p : PtrV) (base at0 : Nat) :
    StrS × Nat :=
  if h : i < src.length then
    let c := src.getD i 0
    if (34 < c ∧ c < 127 ∧ c ≠ 92) ∨ c = 33 ∨ c = 32 then
      escWrite src (i + 1) (bwrite s p (base + at0) c) p base (at0 + 1)
    else
      let u1 := utf8Map (src.getD (i + 1) 0 / 8) = 5
      let u2 := utf8Map (src.getD (i + 2) 0 / 8) = 5
      let u3 := utf8Map (src.getD (i + 3) 0 / 8) = 5
      let cls := utf8Map (c / 8)
      if (cls = 2 ∧ u1) ∨ (cls = 3 ∧ u2 ∧ u1) ∨ (cls = 4 ∧ u3 ∧ u2 ∧ u1) then
        -- the nested switch copies the cls bytes of the UTF-8 character
        let s2 := bwriteList s p (base + at0)
          ((List.range cls).map (fun k => src.getD (i + k) 0))
        escWrite src (i + cls) s2 p base (at0 + cls)
      else
        let out : List Nat :=
          if c = 8 then [92, 98]
          else if c = 12 then [92, 102]
          else if c = 10 then [92, 110]
          else if c = 13 then [92, 114]
          else if c = 9 then [92, 116]
          else if c = 34 then [92, 34]
          else if c = 92 then [92, 92]
          else if c = 47 then [92, 47]
          else if c < 127 then
            [92, 117, 48, 48, escapeHexChar (c / 16), escapeHexChar (c % 16)]
          else
            [92, 120, escapeHexChar (c / 16), escapeHexChar (c % 16)]
        escWrite src (i + 1) (bwriteList s p (base + at0) out) p base
          (at0 + out.length)
  else (s, at0)
termination_by src.length - i
decreasing_by
  · omega
  · rename_i hcase
    have : utf8Map (src.getD i 0 / 8) = 2 ∨ utf8Map (src.getD i 0 / 8) = 3 ∨
        utf8Map (src.getD i 0 / 8) = 4 := by
      rcases hcase with h1 | h1 | h1
      · exact Or.inl h1.1
      · exact Or.inr (Or.inl h1.1)
      · exact Or.inr (Or.inr h1.1)
    omega
  · omega

/-- fio_string_write_escape (lines 6177-6336). -/
def write_escape (s : StrS) (src : List Nat) : StrS × SInfo :=
  let scan := escScan src 0 0 0
  if scan.1 = 0 then write s src
  else
    let st := reserve s (strLen s + scan.1 + src.length)
    -- dest.data += dest.len; --at; the valid head is copied only when at >= 8
    let at1 := scan.2 - 1
    let step :=
      if at1 ≥ 8 then (bwriteList st.1 st.2.data st.2.len (src.take at1), at1)
      else (st.1, 0)
    let w := escWrite src step.2 step.1 st.2.data st.2.len step.2
    resize w.1 (st.2.len + w.2)

/-- The is_hex table of `write_unescape` (lines 6344-6357). -/
def isHexT (i : Nat) : Nat :=
  ([0, 0, 0, 0, 0, 0, 0, 0, 0, 0, 0, 0, 0, 0, 0, 0, 0, 0, 0, 0,
    0, 0, 0, 0, 0, 0, 0, 0, 0, 0, 0, 0, 0, 0, 0, 0, 0, 0, 0, 0,
    0, 0, 0, 0, 0, 0, 0, 0, 1, 2, 3, 4, 5, 6, 7, 8, 9, 10, 0, 0,
    0, 0, 0, 0, 0, 11, 12, 13, 14, 15, 16, 0, 0, 0, 0, 0, 0, 0, 0, 0,
    0, 0, 0, 0, 0, 0, 0, 0, 0, 0, 0, 0, 0, 0, 0, 0, 0, 11, 12, 13,
    14, 15, 16, 0, 0, 0, 0, 0, 0, 0, 0, 0, 0, 0, 0, 0, 0, 0, 0, 0] :
    List Nat).getD i 0

/-- UTF-8 re-encoding of a code point, as written by the `u` escape case of
`write_unescape` (lines 6445-6459). -/
def utf8Encode (u : Nat) : List Nat :=
  if u ≤ 127 then [u]
  else if u ≤ 2047 then [192 ||| (u / 64), 128 ||| (u &&& 63)]
  else if u ≤ 65535 then
    [224 ||| (u / 4096), 128 ||| (u / 64 &&& 63), 128 ||| (u &&& 63)]
  else
    [240 ||| (u / 262144 &&& 7), 128 ||| (u / 4096 &&& 63),
     128 ||| (u / 64 &&& 63), 128 ||| (u &&& 63)]

/-- One escape dispatch of the `write_unescape` loop (lines 6404-6495):
`pos` points at the backslash; returns the bytes written and the number of
input bytes consumed (backslash included).  Reads past the end of `src`
are modelled as 0 (hence `is_hex[0] = 0`: invalid escape). -/
def unescStep (src : List Nat) (pos : Nat) : List Nat × Nat :=
  let q := pos + 1
  let c := src.getD q 0
  if c = 98 then ([8], 2)
  else if c = 102 then ([12], 2)
  else if c = 110 then ([10], 2)
  else if c = 114 then ([13], 2)
  else if c = 116 then ([9], 2)
  else if c = 117 then
    let h1 := isHexT (src.getD (q + 1) 0)
    let h2 := isHexT (src.getD (q + 2) 0)
    let h3 := isHexT (src.getD (q + 3) 0)
    let h4 := isHexT (src.getD (q + 4) 0)
    if h1 ≠ 0 ∧ h2 ≠ 0 ∧ h3 ≠ 0 ∧ h4 ≠ 0 then
      let u := ((((h1 - 1) * 16) ||| (h2 - 1)) * 256) |||
               (((h3 - 1) * 16) ||| (h4 - 1))
      let g1 := isHexT (src.getD (q + 7) 0)
      let g2 := isHexT (src.getD (q + 8) 0)
      let g3 := isHexT (src.getD (q + 9) 0)
      let g4 := isHexT (src.getD (q + 10) 0)
      if ((h1 - 1) * 16) ||| (h2 - 1) = 216 ∧ src.getD (q + 5) 0 = 92 ∧
          src.getD (q + 6) 0 = 117 ∧ g1 ≠ 0 ∧ g2 ≠ 0 ∧ g3 ≠ 0 ∧ g4 ≠ 0 then
        -- surrogate pair
        let u2 := ((((g1 - 1) * 16) ||| (g2 - 1)) * 256) |||
                  (((g3 - 1) * 16) ||| (g4 - 1))
        let u3 := ((u &&& 1023) * 1024 ||| (u2 &&& 1023)) + 65536
        (utf8Encode u3, 12)
      else (utf8Encode u, 6)
    else ([c], 2) -- invalid_escape
  else if c = 120 then
    let h1 := isHexT (src.getD (q + 1) 0)
    let h2 := isHexT (src.getD (q + 2) 0)
    if h1 ≠ 0 ∧ h2 ≠ 0 then ([((h1 - 1) * 16) ||| (h2 - 1)], 4)
    else ([c], 2) -- invalid_escape
  else if 48 ≤ c ∧ c ≤ 55 then
    let c2 := src.getD (q + 1) 0
    if 48 ≤ c2 ∧ c2 ≤ 55 then ([(c - 48) * 8 ||| (c2 - 48)], 3)
    else ([c], 2) -- invalid_escape
  else ([c], 2) -- '"', backslash, '/', default: copy the escaped byte

/-- The loop of `write_unescape` (lines 6365-6496), fuel-based: each C
iteration consumes at least one input byte, so `fuel = src.length` suffices;
exhausted fuel (unreachable when so called) returns the current state. -/
def unescLoop (src : List Nat) (fuel pos : Nat) (s : StrS) (p : PtrV)
    (base at0 : Nat) : StrS × Nat :=
  match fuel with
  | 0 => (s, at0)
  | fuel + 1 =>
    if pos < src.length then
      let c := src.getD pos 0
      if c ≠ 92 then
        -- copy the run up to the next backslash (memchr + memmove)
        let run := (src.drop pos).takeWhile (fun b => b ≠ 92)
        let s2 := bwriteList s p (base + at0) run
        let pos2 := pos + run.length
        let at2 := at0 + run.length
        if pos2 < src.length then
          if src.length - pos2 = 1 then
            -- a single remaining byte is copied verbatim (lines 6399-6401)
            (bwrite s2 p (base + at2) (src.getD pos2 0), at2 + 1)
          else
            let e := unescStep src pos2
            unescLoop src fuel (pos2 + e.2) (bwriteList s2 p (base + at2) e.1)
              p base (at2 + e.1.length)
        else (s2, at2)
      else
        if src.length - pos = 1 then
          (bwrite s p (base + at0) c, at0 + 1)
        else
          let e := unescStep src pos
          unescLoop src fuel (pos + e.2) (bwriteList s p (base + at0) e.1)
            p base (at0 + e.1.length)
    else (s, at0)

/-- fio_string_write_unescape (lines 6341-6498). -/
def write_unescape (s : StrS) (src : List Nat) : StrS × SInfo :=
  let st := reserve s (strLen s + src.length)
  let w := unescLoop src src.length 0 st.1 st.2.data st.2.len 0
  resize w.1 (st.2.len + w.2)

/- ************************************************************************
   Base64 (lines 6502-6712)
   ************************************************************************ -/

/-- The Base64 encoding alphabet (lines 6517-6524), standard or URL-safe. -/
def b64EncTable (url : Bool) (i : Nat) : Nat :=
  if url then
    ([65, 66, 67, 68, 69, 70, 71, 72, 73, 74, 75, 76, 77, 78, 79, 80, 81, 82,
      83, 84, 85, 86, 87, 88, 89, 90, 97, 98, 99, 100, 101, 102, 103, 104,
      105, 106, 107, 108, 109, 110, 111, 112, 113, 114, 115, 116, 117, 118,
      119, 120, 121, 122, 48, 49, 50, 51, 52, 53, 54, 55, 56, 57, 45, 95,
      61] : List Nat).getD i 0
  else
    ([65, 66, 67, 68, 69, 70, 71, 72, 73, 74, 75, 76, 77, 78, 79, 80, 81, 82,
      83, 84, 85, 86, 87, 88, 89, 90, 97, 98, 99, 100, 101, 102, 103, 104,
      105, 106, 107, 108, 109, 110, 111, 112, 113, 114, 115, 116, 117, 118,
      119, 120, 121, 122, 48, 49, 50, 51, 52, 53, 54, 55, 56, 57, 43, 47,
      61] : List Nat).getD i 0

/-- The base64_decodes table of `write_b64dec` (lines 6586-6604), all 256
entries. -/
def b64DecTable (i : Nat) : Nat :=
  ([0, 0, 0, 0, 0, 0, 0, 0, 0, 0, 0, 0, 0, 0, 0, 0, 0, 0, 0, 0,
    0, 0, 0, 0, 0, 0, 0, 0, 0, 0, 0, 0, 0, 0, 0, 0, 0, 0, 0, 0,
    0, 0, 0, 125, 127, 125, 0, 127, 105, 107, 109, 111, 113, 115, 117, 119, 121, 123, 0, 0,
    0, 129, 0, 0, 0, 1, 3, 5, 7, 9, 11, 13, 15, 17, 19, 21, 23, 25, 27, 29,
    31, 33, 35, 37, 39, 41, 43, 45, 47, 49, 51, 0, 0, 0, 0, 127, 0, 53, 55, 57,
    59, 61, 63, 65, 67, 69, 71, 73, 75, 77, 79, 81, 83, 85, 87, 89, 91, 93, 95, 97,
    99, 101, 103, 0, 0, 0, 0, 0, 0, 0, 0, 0, 0, 0, 0, 0, 0, 0, 0, 0,
    0, 0, 0, 0, 0, 0, 0, 0, 0, 0, 0, 0, 0, 0, 0, 0, 0, 0, 0, 0,
    0, 0, 0, 0, 0, 0, 0, 0, 0, 0, 0, 0, 0, 0, 0, 0, 0, 0, 0, 0,
    0, 0, 0, 0, 0, 0, 0, 0, 0, 0, 0, 0, 0, 0, 0, 0, 0, 0, 0, 0,
    0, 0, 0, 0, 0, 0, 0, 0, 0, 0, 0, 0, 0, 0, 0, 0, 0, 0, 0, 0,
    0, 0, 0, 0, 0, 0, 0, 0, 0, 0, 0, 0, 0, 0, 0, 0, 0, 0, 0, 0,
    0, 0, 0, 0, 0, 0, 0, 0, 0, 0, 0, 0, 0, 0, 0, 0] : List Nat).getD i 0

/-- FIO_BASE64_BITVAL(x) = ((base64_decodes[(x)] >> 1) & 63). -/
def b64BitVal (x : Nat) : Nat := b64DecTable x / 2 &&& 63

/-- The C locale `isspace` for the ASCII range, as used by `write_b64dec`. -/
def isspace (c : Nat) : Bool :=
  c = 32 ∨ c = 9 ∨ c = 10 ∨ c = 11 ∨ c = 12 ∨ c = 13

/-- The group loop of `write_b64enc` (lines 6536-6545): three reader bytes
become four alphabet bytes per iteration. -/
def b64encLoop (url : Bool) (p : PtrV) (reader : List Nat) (g : Nat)
    (s : StrS) (wpos : Nat) : StrS × List Nat × Nat :=
  match g with
  | 0 => (s, reader, wpos)
  | g + 1 =>
    let t1 := reader.getD 0 0
    let t2 := reader.getD 1 0
    let t3 := reader.getD 2 0
    let s := bwriteList s p wpos
      [b64EncTable url ((t1 >>> 2) &&& 63),
       b64EncTable url (((t1 &&& 3) <<< 4) ||| ((t2 >>> 4) &&& 15)),
       b64EncTable url (((t2 &&& 15) <<< 2) ||| ((t3 >>> 6) &&& 3)),
       b64EncTable url (t3 &&& 63)]
    b64encLoop url p (reader.drop 3) g s (wpos + 4)

/-- fio_string_write_b64enc (lines 6510-6566). -/
def write_b64enc (s : StrS) (data : List Nat) (url : Bool) : StrS × SInfo :=
  if data.length = 0 then (s, s.info)
  else
    let groups := data.length / 3
    let md := data.length - groups * 3
    let target := (groups + (if md ≠ 0 then 1 else 0)) * 4
    let orgLen := strLen s
    let st := resize s (orgLen + target)
    let lp := b64encLoop url st.2.data data groups st.1 orgLen
    let s2 :=
      if md = 2 then
        let t1 := lp.2.1.getD 0 0
        let t2 := lp.2.1.getD 1 0
        bwriteList lp.1 st.2.data lp.2.2
          [b64EncTable url ((t1 >>> 2) &&& 63),
           b64EncTable url (((t1 &&& 3) <<< 4) ||| ((t2 >>> 4) &&& 15)),
           b64EncTable url ((t2 &&& 15) <<< 2), 61]
      else if md = 1 then
        let t1 := lp.2.1.getD 0 0
        bwriteList lp.1 st.2.data lp.2.2
          [b64EncTable url ((t1 >>> 2) &&& 63),
           b64EncTable url ((t1 &&& 3) <<< 4), 61, 61]
      else lp.1
    (s2, st.2)

/-- The group-decoding loop of `write_b64dec` (lines 6626-6651), fuel-based
(every C iteration consumes input, so `fuel = remaining length` suffices).
The second component is `none` on an invalid group byte (the C `return
(fio_string_info_s){.data = NULL}` path, with the bytes already decoded
left in the buffer), otherwise the remaining input, the write position and
the `written` count. -/
def b64decLoop (s : StrS) (p : PtrV) (fuel : Nat) (rem : List Nat)
    (wpos written : Nat) : StrS × Option (List Nat × Nat × Nat) :=
  match fuel with
  | 0 => (s, some (rem, wpos, written))
  | fuel + 1 =>
    if rem.length ≥ 4 then
      if isspace (rem.getD 0 0) then
        b64decLoop s p fuel (rem.dropWhile (fun c => isspace c)) wpos written
      else
        let t1 := rem.getD 0 0
        let t2 := rem.getD 1 0
        let t3 := rem.getD 2 0
        let t4 := rem.getD 3 0
        if b64DecTable t1 = 0 ∨ b64DecTable t2 = 0 ∨ b64DecTable t3 = 0 ∨
            b64DecTable t4 = 0 then (s, none)
        else
          let s := bwriteList s p wpos
            [(b64BitVal t1 <<< 2) ||| (b64BitVal t2 >>> 4),
             (b64BitVal t2 <<< 4) ||| (b64BitVal t3 >>> 2),
             (b64BitVal t3 <<< 6) ||| b64BitVal t4]
          b64decLoop s p fuel (rem.drop 4) (wpos + 3) (written + 3)
    else (s, some (rem, wpos, written))

/-- fio_string_write_b64dec (lines 6571-6712).  `oob` gives the two bytes
that physically precede the input buffer: the final padding test reads
`encoded[-1]` (and possibly `encoded[-2]`), which is an out-of-bounds read
whenever fewer than two input bytes were consumed; its result is
unspecified C memory, modelled by `oob`. -/
def write_b64dec (s : StrS) (encoded : List Nat) (oob : Nat → Nat) :
    StrS × SInfo :=
  if encoded.length = 0 then (s, s.info)
  else
    -- skip unknown data at end
    let enc := ((encoded.reverse.dropWhile (fun c => b64DecTable c = 0)).reverse)
    let orgLen := strLen s
    let st := reserve s (orgLen + enc.length / 4 * 3 + 3)
    match b64decLoop st.1 st.2.data enc.length enc orgLen 0 with
    | (s1, none) => (s1, { capa := 0, len := 0, data := PtrV.null })
    | (s1, some (rem1, wpos1, written1)) =>
      -- skip white spaces, then decode the 1-3 byte tail
      let rem2 := rem1.dropWhile (fun c => isspace c)
      let tail : StrS × Option Nat :=
        if rem2.length = 1 then
          let t1 := rem2.getD 0 0
          if b64DecTable t1 = 0 then (s1, none)
          else (bwriteList s1 st.2.data wpos1 [b64BitVal t1],
                some (written1 + 1))
        else if rem2.length = 2 then
          let t1 := rem2.getD 0 0
          let t2 := rem2.getD 1 0
          if b64DecTable t1 = 0 ∨ b64DecTable t2 = 0 then (s1, none)
          else (bwriteList s1 st.2.data wpos1
                  [(b64BitVal t1 <<< 2) ||| (b64BitVal t2 >>> 6),
                   b64BitVal t2 <<< 4],
                some (written1 + 2))
        else if rem2.length = 3 then
          let t1 := rem2.getD 0 0
          let t2 := rem2.getD 1 0
          let t3 := rem2.getD 2 0
          if b64DecTable t1 = 0 ∨ b64DecTable t2 = 0 ∨ b64DecTable t3 = 0 then
            (s1, none)
          else (bwriteList s1 st.2.data wpos1
                  [(b64BitVal t1 <<< 2) ||| (b64BitVal t2 >>> 6),
                   (b64BitVal t2 <<< 4) ||| (b64BitVal t3 >>> 2),
                   b64BitVal t3 <<< 6],
                some (written1 + 3))
        else (s1, some written1)
      match tail with
      | (s2, none) => (s2, { capa := 0, len := 0, data := PtrV.null })
      | (s2, some written2) =>
        -- on these paths the whole of enc has been consumed (the 1-3 byte
        -- tail always consumes rem2 entirely), so encoded[-k] is the k-th
        -- byte from the end of enc, or untracked memory just before the
        -- buffer when enc is shorter than k
        let back : Nat → Nat := fun k =>
          if k ≤ enc.length then enc.getD (enc.length - k) 0 else oob k
        let w2 : Int := written2
        let w3 : Int :=
          if back 1 = 61 then
            let w := w2 - 1
            let w := if back 2 = 61 then w - 1 else w
            if w < 0 then 0 else w
          else w2
        resize s2 (orgLen + w3.toNat)

/- ************************************************************************
   Hash map / set template (fio-stl.h lines 4105-4637), instantiated as a
   map (FIO_MAP_KEY set): the object is a (key, value) couplet, keys and
   values are modelled as Nat, FIO_MAP_OBJ_COMPARE is key equality (a real
   comparison, so FIO_MAP_OBJ_COMPARE_SIMPLE = 0), FIO_MAP_HASH is a 64-bit
   integer with FIO_MAP_HASH_INVALID = 0, FIO_MAP_TYPE_INVALID = 0.
   ************************************************************************ -/

/-- FIO_MAP_MAX_SEEK. -/
def MAX_SEEK : Nat := 96

/-- FIO_MAP_MAX_FULL_COLLISIONS. -/
def MAX_FULL_COLLISIONS : Nat := 96

/-- FIO_MAP_CUCKOO_STEPS (0x43F82D0B). -/
def CUCKOO_STEPS : Nat := 1140337931

/-- The (uint32_t)-1 sentinel used for ring indices and tombstones. -/
def U32NIL : Nat := 4294967295

/-- The 64-bit all-ones hash substituted for FIO_MAP_HASH_INVALID. -/
def U64MAX : Nat := 18446744073709551615

/-- One slot of the probe table (`_map_s`): ring indices, stored full hash
and the stored couplet. -/
structure MapEntry where
  prev : Nat
  next : Nat
  hash : Nat
  key : Nat
  value : Nat
deriving DecidableEq, Repr

/-- The all-zero slot produced by calloc. -/
def zeroEntry : MapEntry := { prev := 0, next := 0, hash := 0, key := 0, value := 0 }

/-- The map struct (`FIO_NAME(FIO_MAP_NAME, s)`).  The calloc-ed probe array
is modelled as a total function from slot index to entry (the C only ever
indexes it inside the mask). -/
structure MapS where
  mapNull : Bool
  map : Nat → MapEntry
  head : Nat
  count : Nat
  used_bits : Nat
  has_collisions : Nat
  under_attack : Nat

/-- Write one probe-table slot. -/
def mapSet (f : Nat → MapEntry) (i : Nat) (e : MapEntry) : Nat → MapEntry :=
  fun j => if j = i then e else f j

/-- FIO_MAP_HASH_OFFSET (lines 4043-4049): rotate-left by `offset & 63`,
xor with the hash, on 64 bits. -/
def hashOffset (h bits : Nat) : Nat :=
  let r := bits &&& 63
  ((((h <<< r) % (2 ^ 64)) ||| (h >>> ((64 - r) % 64))) ^^^ h) % (2 ^ 64)

/-- The probe loop of `_find_map_pos` (lines 4428-4452).  The C loop runs
`attempts` from 0 to `max_seek`; the final Nat argument is the number of
rounds left (`max_seek + 1 - attempts`), so 0 is loop exhaustion.  Returns
the final map state (the loop may set `has_collisions` bit 0 and
`under_attack`), the found slot (`none` models the C NULL return) and the
final value of the local `full_attack_counter` (at most 97, so its uint8
type cannot wrap). -/
def seekLoop (key hash mask : Nat) (m : MapS) (pos_key counter : Nat) :
    Nat → MapS × Option Nat × Nat
  | 0 => (m, none, counter)
  | rem + 1 =>
    let e := m.map pos_key
    if e.hash = 0 then (m, some pos_key, counter)
    else if e.hash = hash then
      if e.next = U32NIL ∨ m.under_attack ≠ 0 ∨ e.key = key then
        (m, some pos_key, counter)
      else
        let m := { m with has_collisions := m.has_collisions ||| 1 }
        let counter := counter + 1
        let m := if counter ≥ MAX_FULL_COLLISIONS then { m with under_attack := 1 }
                 else m
        seekLoop key hash mask m ((pos_key + CUCKOO_STEPS) &&& mask) counter rem
    else
      seekLoop key hash mask m ((pos_key + CUCKOO_STEPS) &&& mask) counter rem

/-- The body of `_find_map_pos` after the initial remap check (lines
4412-4452): fix an invalid hash, fail on a NULL probe table, then probe. -/
def findSeek (m : MapS) (key hash : Nat) : MapS × Option Nat × Nat :=
  let hash := if hash = 0 then U64MAX else hash
  if m.mapNull then (m, none, 0)
  else
    let mask := 2 ^ m.used_bits - 1
    let max_seek := if mask > MAX_SEEK then MAX_SEEK else mask
    -- the C for-loop runs for attempts = 0 .. max_seek: max_seek+1 rounds
    seekLoop key hash mask m (hashOffset hash m.used_bits &&& mask) 0
      (max_seek + 1)

/-- ___link_node (lines 4457-4470): link slot `n` at the ring tail.
The C chained assignment `r->prev = (map + n->prev)->next = n` stores
right-to-left; the sequential stores below reproduce it (including the
aliased case where the old tail is the head). -/
def linkNode (m : MapS) (n : Nat) : MapS :=
  if m.head = U32NIL then
    { m with map := mapSet m.map n { m.map n with prev := n, next := n }, head := n }
  else
    let r := m.map m.head
    let m1 := { m with map := mapSet m.map n { m.map n with next := m.head, prev := r.prev } }
    let m2 := { m1 with map := mapSet m1.map r.prev { m1.map r.prev with next := n } }
    { m2 with map := mapSet m2.map m2.head { m2.map m2.head with prev := n } }

/-- ___unlink_node (lines 4472-4487); stores are performed in program
order with fresh reads, reproducing the aliased one- and two-element ring
cases. -/
def unlinkNode (m : MapS) (n : Nat) : MapS :=
  let e0 := m.map n
  let m1 := { m with map := mapSet m.map e0.next { m.map e0.next with prev := e0.prev } }
  let e1 := m1.map n
  let m2 := { m1 with map := mapSet m1.map e1.prev { m1.map e1.prev with next := e1.next } }
  let m3 :=
    if (m2.map n).next = m2.head then
      { m2 with map := mapSet m2.map n { m2.map n with hash := 0 } }
    else m2
  let m4 :=
    if m3.head = n then
      { m3 with head := if (m3.map n).next = n then U32NIL else (m3.map n).next }
    else m3
  { m4 with map := mapSet m4.map n { m4.map n with next := U32NIL, prev := U32NIL } }

/-- The ring-walk of `_remap2bits` (lines 4503-4519): re-insert each ring
node of `src` into `dest`.  The C `for(;;)` walk terminates only by
returning to `src.head`; `none` models divergence on a malformed ring
(`fuel` bounds the walk).  On a failed placement the freshly built table is
freed and the source map is returned unchanged with -1. -/
def remapLoop (src : MapS) (dest : MapS) (i : Nat) (fuel : Nat) :
    Option (MapS × Int) :=
  match fuel with
  | 0 => none
  | fuel + 1 =>
    let e := src.map i
    -- the embedded _find_map_pos call: dest.has_collisions stays within
    -- bit 0 during a rebuild, so its initial remap test never fires and the
    -- call reduces to findSeek (with the invalid-hash fix done there)
    match findSeek dest e.key e.hash with
    | (_, none, _) => some (src, -1)
    | (dest1, some pos, _) =>
      let dest2 := { dest1 with
        map := mapSet dest1.map pos
          { dest1.map pos with hash := e.hash, key := e.key, value := e.value } }
      let dest3 := linkNode dest2 pos
      let dest4 := { dest3 with count := dest3.count + 1 }
      if e.next = src.head then some (dest4, 0)
      else remapLoop src dest4 e.next fuel

/-- _remap2bits (lines 4489-4523). -/
def remap2bits (m : MapS) (bits : Nat) (fuel : Nat) : Option (MapS × Int) :=
  let dest : MapS :=
    { mapNull := false -- FIO_MEM_CALLOC_ assumed to succeed
      map := fun _ => zeroEntry
      head := U32NIL
      count := 0
      used_bits := bits
      has_collisions := 0
      under_attack := m.under_attack }
  if m.mapNull ∨ m.head = U32NIL then some (dest, 0)
  else remapLoop m dest m.head fuel

/-- _find_map_pos (lines 4409-4455): hash fix, NULL check, the
has_collisions bit 1 same-size remap (the instantiation has a real key
comparison, so FIO_MAP_OBJ_COMPARE_SIMPLE = 0 and the test is live), then
the probe loop.  Returns `none` if the embedded remap ring-walk diverges;
otherwise the state, the found slot and the probe loop's
full-collision counter. -/
def findMapPos (m : MapS) (key hash : Nat) (fuel : Nat) :
    Option (MapS × Option Nat × Nat) :=
  let hash := if hash = 0 then U64MAX else hash
  if m.mapNull then some (m, none, 0)
  else
    let pre :=
      if m.has_collisions &&& 2 ≠ 0 then remap2bits m m.used_bits fuel
      else some (m, 0)
    match pre with
    | none => none
    | some (m1, _) => some (findSeek m1 key hash)

/-- The part of `_remove` (lines 4607-4637) before the shrink test: the
lookup, the miss paths, the value copy through `old` (`none` = NULL, 0 =
FIO_MAP_TYPE_INVALID on a miss), the unlink and the counter updates.
`count` is uint32 and `count << 3` cannot wrap for any reachable count
(< 2^31); `has_collisions` is uint8, hence the explicit truncation.
The outer `none` models divergence of an embedded ring walk. -/
def removePhase1 (m : MapS) (key hash : Nat) (withOld : Bool) (fuel : Nat) :
    Option (MapS × Int × Option Nat) :=
  let hash := if hash = 0 then U64MAX else hash
  match findMapPos m key hash fuel with
  | none => none
  | some (m1, posOpt, _) =>
    match posOpt with
    | none => some (m1, -1, if withOld then some 0 else none)
    | some pos =>
      if (m1.map pos).hash = 0 ∨ (m1.map pos).next = U32NIL then
        some (m1, -1, if withOld then some 0 else none)
      else
        let old := if withOld then some (m1.map pos).value else none
        -- FIO_MAP_OBJ_DESTROY is a no-op for the plain instantiation
        let m2 := unlinkNode m1 pos
        let m3 := { m2 with count := m2.count - 1,
                            has_collisions :=
                              (m2.has_collisions ||| (m2.has_collisions <<< 1)) % 256 }
        some (m3, 0, old)

/-- The shrink test and rebuild at the tail of `_remove` (lines 4631-4634);
the rebuild result is ignored. -/
def removeShrink (m : MapS) (fuel : Nat) : Option MapS :=
  if m.used_bits ≥ 8 ∧ m.count <<< 3 < 2 ^ m.used_bits then
    -- usage below 12.5 percent: try to shrink (return value ignored)
    match remap2bits m (m.used_bits - 1) fuel with
    | none => none
    | some (m4, _) => some m4
  else some m

/-- _remove, assembled from the two phases above. -/
def mapRemove (m : MapS) (key hash : Nat) (withOld : Bool) (fuel : Nat) :
    Option (MapS × Int × Option Nat) :=
  match removePhase1 m key hash withOld fuel with
  | none => none
  | some (m3, ret, old) =>
    if ret = 0 then
      match removeShrink m3 fuel with
      | none => none
      | some m4 => some (m4, 0, old)
    else some (m3, ret, old)

/-- The key/value couplets on the insertion ring starting at slot `i`,
following `next` until the walk returns to `m.head` (`none` when `fuel`
runs out, i.e. the ring is malformed).  This is the iteration order of
FIO_MAP_EACH (lines 4383-4388). -/
def ringList (m : MapS) (fuel i : Nat) : Option (List (Nat × Nat)) :=
  match fuel with
  | 0 => none
  | fuel + 1 =>
    let e := m.map i
    if e.next = m.head then some [(e.key, e.value)]
    else
      match ringList m fuel e.next with
      | none => none
      | some l => some ((e.key, e.value) :: l)

/-- The logical content of a map: the insertion-ordered key/value pairs
reachable from the ring head (empty when the map is empty). -/
def mapContents (m : MapS) (fuel : Nat) : Option (List (Nat × Nat)) :=
  if m.mapNull ∨ m.head = U32NIL then some [] else ringList m fuel m.head

/- ************************************************************************
   Dynamic array template (fio-stl.h lines 3179-3847), instantiated at an
   8-byte element type (as the FIOBJ array is): elements are Nat,
   FIO_ARRAY_TYPE_INVALID = 0, copy is assignment, destroy is a no-op,
   FIO_ARRAY_EXPONENTIAL = 0, FIO_ARRAY_PADDING = 4.
   ************************************************************************ -/

/-- FIO_ARRAY_SIZE2WORDS for an 8-byte element: ((size) & (~1)) + 2. -/
def SIZE2WORDS (size : Nat) : Nat := (size - size % 2) + 2

/-- The array struct: buffer (length `capa` in the model), capacity and the
live region [start, endI). -/
structure ArrS where
  ary : List Nat
  capa : Nat
  start : Nat
  endI : Nat
deriving DecidableEq, Repr

/-- Fill `count` slots with the invalid sentinel starting at `i`
(the memset of the FIO_ARRAY_TYPE_INVALID_SIMPLE paths). -/
def aryFill (l : List Nat) (i count : Nat) : List Nat :=
  match count with
  | 0 => l
  | c + 1 => aryFill (l.set i 0) (i + 1) c

/-- fio_array_set (lines 3535-3625).  Returns the updated array, the value
copied to `*old` when requested, and the absolute index written (standing
for the returned element pointer).  FIO_MEM_REALLOC_ keeps the first `end`
elements (fresh space unspecified, modelled 0); FIO_MEM_CALLOC_ zeroes.
Allocation is assumed to succeed. -/
def arrSet (a : ArrS) (index : Int) (data : Nat) (withOld : Bool) :
    ArrS × Option Nat × Nat :=
  if index ≥ 0 then
    -- zero based (look forward)
    let idx := index.toNat + a.start
    let a1 :=
      if idx ≥ a.capa then
        let new_capa := SIZE2WORDS (idx + 4)
        let tmp := (a.ary.take a.endI) ++
          List.replicate (new_capa - min a.endI a.ary.length) 0
        { a with ary := tmp, capa := new_capa }
      else a
    -- ary->ary[ary->end++] = FIO_ARRAY_TYPE_INVALID
    let a2 := { a1 with ary := a1.ary.set a1.endI 0, endI := a1.endI + 1 }
    let a3 :=
      if idx ≥ a2.endI then
        { a2 with ary := aryFill a2.ary a2.endI (idx - a2.endI), endI := idx + 1 }
      else a2
    let pre_existing := ¬ idx ≥ a2.endI
    let old := if withOld then some (a3.ary.getD idx 0) else none
    -- destroy (no-op when pre_existing), write INVALID, then copy data
    let _ := pre_existing
    ({ a3 with ary := (a3.ary.set idx 0).set idx (data) }, old, idx)
  else
    -- -1 based (look backwards)
    let index1 : Int := index + a.endI
    if index1 < 0 then
      -- more memory at the head: allocate, copy live data to the tail
      let new_capa := SIZE2WORDS (a.capa + 4 + (0 - index1).toNat)
      let valid_data := a.endI - a.start
      let tmp := List.replicate new_capa 0
      let tmp := (tmp.take (new_capa - valid_data)) ++
        ((a.ary.drop a.start).take valid_data) ++
        (tmp.drop (new_capa - valid_data + valid_data))
      let idx := (index1 - a.endI + new_capa).toNat
      let a1 := { a with ary := tmp, endI := new_capa, capa := new_capa, start := idx }
      -- (index is not below start after the relocation)
      let old := if withOld then some (a1.ary.getD idx 0) else none
      ({ a1 with ary := (a1.ary.set idx 0).set idx data }, old, idx)
    else
      let idx := index1.toNat
      let a1 :=
        if idx < a.start then
          { a with ary := aryFill a.ary idx (a.start - idx), start := idx }
        else a
      let old := if withOld then some (a1.ary.getD idx 0) else none
      ({ a1 with ary := (a1.ary.set idx 0).set idx data }, old, idx)

/-- fio_array_push (lines 3770-3784). -/
def push (a : ArrS) (data : Nat) : ArrS × Nat :=
  if a.endI ≥ a.capa then
    let r := arrSet a (a.endI : Int) data false
    (r.1, r.2.2)
  else
    (({ a with ary := (a.ary.set a.endI 0).set a.endI data, endI := a.endI + 1 }),
     a.endI)

/-- fio_array_pop (lines 3794-3806).  The error path stores the invalid
sentinel through `old` unconditionally; the success path stores the last
live element.  Returns the int result and the stored value. -/
def pop (a : ArrS) : ArrS × Int × Nat :=
  if a.start = a.endI then (a, -1, 0)
  else
    let a1 := { a with endI := a.endI - 1 }
    (a1, 0, a1.ary.getD a1.endI 0)

/-- fio_array_unshift (lines 3813-3825). -/
def unshift (a : ArrS) (data : Nat) : ArrS × Nat :=
  if a.start ≠ 0 then
    let st := a.start - 1
    ({ a with ary := (a.ary.set st 0).set st data, start := st }, st)
  else
    let r := arrSet a (-1 - (a.endI : Int)) data false
    (r.1, r.2.2)

/-- fio_array_shift (lines 3835-3847). -/
def shift (a : ArrS) : ArrS × Int × Nat :=
  if a.start = a.endI then (a, -1, 0)
  else
    ({ a with start := a.start + 1 }, 0, a.ary.getD a.start 0)

/-- The live contents of an array: the elements of [start, end). -/
def arrContents (a : ArrS) : List Nat := (a.ary.drop a.start).take (a.endI - a.start)

/- ************************************************************************
   Streaming JSON parser (fio-stl.h lines 7954-8351).
   ************************************************************************ -/

/-- JSON_MAX_DEPTH: not defined anywhere in the repository, so the default
branch at lines 7971-7974 applies and the cap is 31. -/
def JSON_MAX_DEPTH : Nat := 31

/-- fio_json_parser_s: 32-bit nesting bitmap, 8-bit depth, 8-bit expect. -/
structure JParser where
  nesting : Nat
  depth : Nat
  expect : Nat
deriving DecidableEq, Repr

/-- FIO_JSON_INIT: zeroed state. -/
def jInit : JParser := { nesting := 0, depth := 0, expect := 0 }

/-- The callbacks fired on the user (fio_json_on_xxx).  Numeric payloads
are carried only as far as the claims need. -/
inductive JEvent where
  | onNull : JEvent
  | onTrue : JEvent
  | onFalse : JEvent
  | onNumber : JEvent
  | onFloat : JEvent
  | onString (start len : Nat) : JEvent
  | onStartObject : JEvent
  | onEndObject : JEvent
  | onStartArray : JEvent
  | onEndArray : JEvent
  | onJson : JEvent
  | onError : JEvent
deriving DecidableEq, Repr

/-- The number-reading externals `fio_atol` and `fio_atof` (integer and
float parsing are out-of-scope external collaborators per the spec):
each maps the remaining input to the number of bytes it consumes. -/
structure NumOracle where
  atolAdv : List Nat → Nat
  atofAdv : List Nat → Nat

/-- fio_json_____consume_string (lines 8045-8062): find the closing quote
whose preceding backslash run has even length (scanning from the byte
after the opening quote); returns the index of the closing quote. -/
def findQuote (src : List Nat) (j : Nat) : Option Nat :=
  if h : j < src.length then
    if src.getD j 0 = 34 then
      -- count the backslashes immediately before j (the walk stops at the
      -- opening quote at the latest, so it stays inside the buffer)
      let bs := ((src.take j).reverse.takeWhile (fun b => b = 92)).length
      if bs % 2 = 0 then some j else findQuote src (j + 1)
    else findQuote src (j + 1)
  else none
termination_by src.length - j

/-- fio_json_____consume_number (lines 8064-8080): `fio_atol` first; when
the stop byte is one of . e x p i (case-insensitive) the number is re-read
as a float with `fio_atof`.  Only the consumed length and the float/int
choice are modelled (the values go to callbacks the claims ignore). -/
def consumeNumber (o : NumOracle) (src : List Nat) (pos : Nat) :
    Nat × Bool :=
  let adv := o.atolAdv (src.drop pos)
  let p2 := pos + adv
  let c := src.getD p2 0
  if p2 < src.length ∧
      (c = 46 ∨ (c ||| 32) = 101 ∨ (c ||| 32) = 120 ∨ (c ||| 32) = 112 ∨
       (c ||| 32) = 105) then
    (pos + o.atofAdv (src.drop pos), true)
  else (p2, false)

/-- fio_json_____skip_comments (lines 8028-8043).  Returns the new position
(`none` = the C NULL return).  The block-comment loop reads `buffer[-2]`,
which on the very first iteration is the byte before the comment opener
(position `pos - 1`; at `pos = 0` it is unspecified memory, modelled 0). -/
def skipComments (src : List Nat) (pos : Nat) : Option Nat :=
  let c := src.getD pos 0
  if c = 35 ∨ (src.length - pos > 2 ∧ c = 47 ∧ src.getD (pos + 1) 0 = 47) then
    match (src.drop (pos + 1)).findIdx? (fun b => b = 10) with
    | some k => some (pos + 1 + k)
    | none => none
  else if src.length - pos > 3 ∧ c = 47 ∧ src.getD (pos + 1) 0 = 42 then
    -- while ((buffer = memchr(buffer, '/', ...)) && ++buffer && buffer[-2] != '*')
    let rec blockLoop (p fuel : Nat) : Option Nat :=
      match fuel with
      | 0 => none
      | fuel + 1 =>
        match (src.drop p).findIdx? (fun b => b = 47) with
        | none => none
        | some k =>
          let q := p + k + 1
          let before := if q ≥ 2 then src.getD (q - 2) 0 else 0
          if before = 42 then some q else blockLoop q fuel
    blockLoop pos (src.length + 1)
  else none

/-- fio_json_____identify (lines 8082-8319).  Returns the updated parser,
the fired callbacks, and the new position (`none` = the C NULL return;
the error labels fire on_error first, the literal-mismatch and
unrecognized-byte returns do not).  The whitespace case models the
portable path (one byte); the 8-byte SWAR fast path only skips further
whitespace bytes and never touches the parser state. -/
def identify (o : NumOracle) (p : JParser) (src : List Nat) (pos : Nat) :
    JParser × List JEvent × Option Nat :=
  let c := src.getD pos 0
  if c = 9 ∨ c = 10 ∨ c = 13 ∨ c = 32 then (p, [], some (pos + 1))
  else if c = 44 then -- comma
    if p.depth = 0 ∨ p.expect &&& 4 = 0 then (p, [JEvent.onError], none)
    else ({ p with expect := (p.nesting &&& 1) <<< 1 }, [], some (pos + 1))
  else if c = 58 then -- colon
    if p.depth = 0 ∨ p.expect &&& 1 = 0 then (p, [JEvent.onError], none)
    else ({ p with expect := 2 }, [], some (pos + 1))
  else if c = 34 then -- string
    if p.depth ≠ 0 ∧ p.expect &&& 5 ≠ 0 then (p, [JEvent.onError], none)
    else
      match findQuote src (pos + 1) with
      | none => (p, [JEvent.onError], none) -- unterminated_string
      | some j =>
        ({ p with expect := ((p.expect <<< 1) + ((p.expect ^^^ 2) >>> 1)) % 256 },
         [JEvent.onString (pos + 1) (j - (pos + 1))], some (j + 1))
  else if c = 123 then -- open object
    if p.depth ≠ 0 ∧ p.expect &&& 2 = 0 then (p, [JEvent.onError], none)
    else
      let p := { p with expect := 0, nesting := (p.nesting <<< 1) % 2 ^ 32 }
      if p.depth = JSON_MAX_DEPTH then (p, [JEvent.onError], none) -- too_deep
      else ({ p with depth := p.depth + 1 }, [JEvent.onStartObject], some (pos + 1))
  else if c = 125 then -- close object
    if p.nesting &&& 1 ≠ 0 ∨ p.depth = 0 ∨ p.expect &&& 3 ≠ 0 then
      (p, [JEvent.onError], none)
    else
      ({ p with nesting := p.nesting >>> 1, expect := 4, depth := p.depth - 1 },
       [JEvent.onEndObject], some (pos + 1))
  else if c = 91 then -- open array
    if p.depth ≠ 0 ∧ p.expect &&& 2 = 0 then (p, [JEvent.onError], none)
    else
      -- on_start_array fires before the depth check
      let p := { p with expect := 2, nesting := ((p.nesting <<< 1) ||| 1) % 2 ^ 32 }
      if p.depth = JSON_MAX_DEPTH then
        (p, [JEvent.onStartArray, JEvent.onError], none) -- too_deep
      else ({ p with depth := p.depth + 1 }, [JEvent.onStartArray], some (pos + 1))
  else if c = 93 then -- close array
    if p.nesting &&& 1 = 0 ∨ p.depth = 0 then (p, [JEvent.onError], none)
    else
      ({ p with nesting := p.nesting >>> 1, expect := 4, depth := p.depth - 1 },
       [JEvent.onEndArray], some (pos + 1))
  else if c = 78 ∨ c = 110 then -- null / NaN
    if p.depth ≠ 0 ∧ p.expect &&& 2 = 0 then (p, [JEvent.onError], none)
    else if pos + 4 ≤ src.length ∧ src.getD (pos + 1) 0 = 117 ∧
        src.getD (pos + 2) 0 = 108 ∧ src.getD (pos + 3) 0 = 108 then
      ({ p with expect := ((p.expect <<< 1) + ((p.expect ^^^ 2) >>> 1)) % 256 },
       [JEvent.onNull], some (pos + 4))
    else if pos + 3 ≤ src.length ∧ (src.getD (pos + 1) 0 ||| 32) = 97 ∧
        (src.getD (pos + 2) 0 ||| 32) = 110 then
      -- NaN: best-effort atof on a static literal, no callback here
      ({ p with expect := ((p.expect <<< 1) + ((p.expect ^^^ 2) >>> 1)) % 256 },
       [], some (pos + 3))
    else (p, [], none)
  else if c = 116 then -- true
    if p.depth ≠ 0 ∧ p.expect &&& 2 = 0 then (p, [JEvent.onError], none)
    else if pos + 4 ≤ src.length ∧ src.getD (pos + 1) 0 = 114 ∧
        src.getD (pos + 2) 0 = 117 ∧ src.getD (pos + 3) 0 = 101 then
      ({ p with expect := ((p.expect <<< 1) + ((p.expect ^^^ 2) >>> 1)) % 256 },
       [JEvent.onTrue], some (pos + 4))
    else (p, [], none)
  else if c = 102 then -- false
    if p.depth ≠ 0 ∧ p.expect &&& 2 = 0 then (p, [JEvent.onError], none)
    else if pos + 5 ≤ src.length ∧ src.getD (pos + 1) 0 = 97 ∧
        src.getD (pos + 2) 0 = 108 ∧ src.getD (pos + 3) 0 = 115 ∧
        src.getD (pos + 4) 0 = 101 then
      ({ p with expect := ((p.expect <<< 1) + ((p.expect ^^^ 2) >>> 1)) % 256 },
       [JEvent.onFalse], some (pos + 5))
    else (p, [], none)
  else if c = 43 ∨ c = 45 ∨ (48 ≤ c ∧ c ≤ 57) ∨ c = 120 ∨ c = 46 ∨
      c = 101 ∨ c = 69 ∨ c = 105 ∨ c = 73 then -- number
    if p.depth ≠ 0 ∧ p.expect &&& 2 = 0 then (p, [JEvent.onError], none)
    else
      let r := consumeNumber o src pos
      ({ p with expect := ((p.expect <<< 1) + ((p.expect ^^^ 2) >>> 1)) % 256 },
       [if r.2 then JEvent.onFloat else JEvent.onNumber], some r.1)
  else if c = 35 ∨ c = 47 then -- comments
    match skipComments src pos with
    | none => (p, [], none)
    | some q => (p, [], some q)
  else (p, [], none) -- unrecognized byte

/-- The first do-while loop of fio_json_parse (lines 8330-8335); returns
the final parser, events, position and `none`-position on failure (with
`last` as the consumed count).  Fuel-based: an `identify` step may consume
no input (an empty number token), in which case the C loops forever;
`none` overall models that divergence. -/
def jparseLoop1 (o : NumOracle) (p : JParser) (src : List Nat)
    (pos fuel : Nat) (evs : List JEvent) :
    Option (JParser × List JEvent × Nat × Bool) :=
  match fuel with
  | 0 => none
  | fuel + 1 =>
    let last := pos
    match identify o p src pos with
    | (p1, e, none) => some (p1, evs ++ e, last, false)
    | (p1, e, some pos1) =>
      if p1.expect = 0 ∧ pos1 < src.length then
        jparseLoop1 o p1 src pos1 fuel (evs ++ e)
      else some (p1, evs ++ e, pos1, true)

/-- The second loop of fio_json_parse (lines 8336-8341). -/
def jparseLoop2 (o : NumOracle) (p : JParser) (src : List Nat)
    (pos fuel : Nat) (evs : List JEvent) :
    Option (JParser × List JEvent × Nat × Bool) :=
  match fuel with
  | 0 => none
  | fuel + 1 =>
    if p.depth ≠ 0 ∧ pos < src.length then
      let last := pos
      match identify o p src pos with
      | (p1, e, none) => some (p1, evs ++ e, last, false)
      | (p1, e, some pos1) => jparseLoop2 o p1 src pos1 fuel (evs ++ e)
    else some (p, evs, pos, true)

/-- fio_json_parse (lines 8325-8351).  Returns the final parser, the fired
events and the byte count consumed; `none` models divergence (an identify
step that consumes nothing, looping forever in the C). -/
def jsonParse (o : NumOracle) (p : JParser) (src : List Nat) (fuel : Nat) :
    Option (JParser × List JEvent × Nat) :=
  match jparseLoop1 o p src 0 fuel [] with
  | none => none
  | some (p1, evs, pos1, ok1) =>
    if ¬ ok1 then some (p1, evs, pos1) -- goto failed: return last - start
    else
      match jparseLoop2 o p1 src pos1 fuel evs with
      | none => none
      | some (p2, evs2, pos2, ok2) =>
        if ¬ ok2 then some (p2, evs2, pos2)
        else if p2.depth = 0 then
          some ({ p2 with expect := 0 }, evs2 ++ [JEvent.onJson], pos2)
        else some (p2, evs2, pos2)

/- ************************************************************************
   FIOBJ JSON serializer (fio-stl.h lines 8824-8831, 9548-9671, 9017-9056).
   ************************************************************************ -/

/-- FIOBJ_JSON_MAX_NESTING (lines 8828-8831). -/
def FIOBJ_JSON_MAX_NESTING : Nat := 28

/-- A soft (FIOBJ) value.  Arrays carry their elements in order; hashes
carry their couplets in ring (insertion) order, which is the iteration
order of FIO_MAP_EACH.  Number and float payloads reach the output only
through the external integer/float-to-string conversions, so floats are
identified by an opaque tag. -/
inductive Fiobj where
  | fnull : Fiobj
  | ftrue : Fiobj
  | ffalse : Fiobj
  | num (i : Int) : Fiobj
  | flt (tag : Nat) : Fiobj
  | str (bytes : List Nat) : Fiobj
  | arr (elems : List Fiobj) : Fiobj
  | hashObj (pairs : List (Fiobj × Fiobj)) : Fiobj


/-- The external number-to-string conversions consumed by fiobj2cstr
(fio_ltoa / fio_ftoa are out-of-scope collaborators per the spec). -/
structure NumToS where
  numS : Int → List Nat
  fltS : Nat → List Nat

/-- FIO_STRING_INIT: the empty small string (fresh `fiobj_string_new`). -/
def strInit : StrS :=
  { special := 1, capa := 0, len := 0, dealloc := DeallocK.nullPtr
    dataNull := true, gen := 0, buf := [], small := List.replicate 47 0 }

/-- fiobj___json_format_internal_beauty_pad (lines 9548-9556). -/
def beautyPad (json : StrS) (level : Nat) : StrS :=
  let pos := strLen json
  let st := resize json (level + pos + 2)
  bwriteList st.1 st.2.data pos ([13, 10] ++ List.replicate level 9)

/-- FIOBJ2CSTR_BUFFER_LIMIT (line 9012). -/
def FIOBJ2CSTR_BUFFER_LIMIT : Nat := 4096

mutual

/-- fiobj___json_format_internal__ (lines 9558-9637). -/
def fiobjFormat (o : NumToS) (json : StrS) (v : Fiobj) (level : Nat)
    (beautify : Bool) : StrS :=
  match v with
  | Fiobj.fnull => (write json [110, 117, 108, 108]).1
  | Fiobj.ftrue => (write json [116, 114, 117, 101]).1
  | Fiobj.ffalse => (write json [102, 97, 108, 115, 101]).1
  | Fiobj.num i => (write json (o.numS i)).1
  | Fiobj.flt t => (write json (o.fltS t)).1
  | Fiobj.str b =>
    let json := (write json [34]).1
    let json := (write_escape json b).1
    (write json [34]).1
  | Fiobj.arr elems =>
    if level = FIOBJ_JSON_MAX_NESTING then (write json [91, 32, 93]).1
    else
      let lvl := level + 1
      let json := (write json [91]).1
      let len := elems.length
      let json := (elems.attach.foldl
        (fun (acc : StrS × Nat) x =>
          let js := acc.1
          let js := if beautify then beautyPad js lvl else js
          let js := fiobjFormat o js x.1 lvl beautify
          let js := if acc.2 + 1 < len then (write js [44]).1 else js
          (js, acc.2 + 1))
        (json, 0)).1
      let json := if beautify then beautyPad json level else json
      (write json [93]).1
  | Fiobj.hashObj pairs =>
    if level = FIOBJ_JSON_MAX_NESTING then (write json [123, 32, 125]).1
    else
      let lvl := level + 1
      let json := (write json [123]).1
      let len := pairs.length
      let json := (pairs.attach.foldl
        (fun (acc : StrS × Nat) x =>
          let js := acc.1
          let js := if beautify then beautyPad js lvl else js
          let info := fiobj2cstrM o x.1.1
          let js := (write js [34]).1
          let js := (write_escape js info).1
          let js := (write js [34, 58]).1
          let js := fiobjFormat o js x.1.2 lvl beautify
          let js := if acc.2 + 1 < len then (write js [44]).1 else js
          (js, acc.2 + 1))
        (json, 0)).1
      let json := if beautify then beautyPad json level else json
      (write json [125]).1

termination_by (sizeOf v, 0)
decreasing_by
  · simp_wf
    have hm := List.sizeOf_lt_of_mem x.2
    omega
  · simp_wf
    obtain ⟨⟨k, w⟩, hx⟩ := x
    have hm := List.sizeOf_lt_of_mem hx
    simp_all
    omega
  · simp_wf
    obtain ⟨⟨k, w⟩, hx⟩ := x
    have hm := List.sizeOf_lt_of_mem hx
    simp_all
    omega

/-- fiobj2cstr (lines 9017-9056), restricted to the value classes a FIOBJ
tree can hold; containers serialize themselves through fiobj2json into a
fresh string and fall back to a placeholder beyond the thread-buffer
limit. -/
def fiobj2cstrM (o : NumToS) (v : Fiobj) : List Nat :=
  match v with
  | Fiobj.fnull => [110, 117, 108, 108]
  | Fiobj.ftrue => [116, 114, 117, 101]
  | Fiobj.ffalse => [102, 97, 108, 115, 101]
  | Fiobj.num i => o.numS i
  | Fiobj.flt t => o.fltS t
  | Fiobj.str b => b
  | Fiobj.arr elems =>
    let j := fiobjFormat o strInit (Fiobj.arr elems) 0 false
    if strLen j ≥ FIOBJ2CSTR_BUFFER_LIMIT then [91, 46, 46, 46, 93]
    else contents j
  | Fiobj.hashObj pairs =>
    let j := fiobjFormat o strInit (Fiobj.hashObj pairs) 0 false
    if strLen j ≥ FIOBJ2CSTR_BUFFER_LIMIT then [123, 46, 46, 46, 125]
    else contents j

termination_by (sizeOf v, 1)
decreasing_by
  · exact Prod.Lex.right _ (by omega)
  · exact Prod.Lex.right _ (by omega)

end

/-- fiobj2json (lines 8850-8855) with `dest == FIOBJ_INVALID`: allocate a
fresh string and format into it. -/
def fiobj2json (o : NumToS) (v : Fiobj) (beautify : Bool) : StrS :=
  fiobjFormat o strInit v 0 beautify

/- ************************************************************************
   Pure companions and concrete inputs used by the claim statements.
   ************************************************************************ -/

/-- The null record `(fio_string_info_s){.data = NULL}` returned by
`write_b64dec` on an invalid group. -/
def nullInfo : SInfo := { capa := 0, len := 0, data := PtrV.null }

/-- Pure description of the Base64 text produced by `write_b64enc`
(a claim-side companion used to state interleavings): four alphabet bytes
per three input bytes, with '=' padding. -/
def encBytes (url : Bool) : List Nat → List Nat
  | t1 :: t2 :: t3 :: rest =>
    b64EncTable url ((t1 >>> 2) &&& 63) ::
    b64EncTable url (((t1 &&& 3) <<< 4) ||| ((t2 >>> 4) &&& 15)) ::
    b64EncTable url (((t2 &&& 15) <<< 2) ||| ((t3 >>> 6) &&& 3)) ::
    b64EncTable url (t3 &&& 63) :: encBytes url rest
  | [t1, t2] =>
    [b64EncTable url ((t1 >>> 2) &&& 63),
     b64EncTable url (((t1 &&& 3) <<< 4) ||| ((t2 >>> 4) &&& 15)),
     b64EncTable url ((t2 &&& 15) <<< 2), 61]
  | [t1] =>
    [b64EncTable url ((t1 >>> 2) &&& 63),
     b64EncTable url ((t1 &&& 3) <<< 4), 61, 61]
  | [] => []

/-- Split a Base64 text into its four-byte groups. -/
def chunks4 (l : List Nat) : List (List Nat) :=
  match l with
  | [] => []
  | a :: rest =>
    match rest with
    | b :: c :: d :: rest2 => [a, b, c, d] :: chunks4 rest2
    | _ => [a :: rest]

/-- Interleave whitespace runs at group boundaries: one run before each
group and one after the last (`ws` is consumed one block per boundary). -/
def wsInter (ws : List (List Nat)) (gs : List (List Nat)) : List Nat :=
  match gs with
  | [] => ws.headD []
  | g :: rest => ws.headD [] ++ g ++ wsInter ws.tail rest

/-- The failure condition of the decoder, written from the (amended) claim:
after the trailing strip, scan four-byte groups skipping whitespace runs at
group starts; the scan fails when a group byte (or a tail byte) is not in
the decoder's accepted set (the standard and URL-safe alphabets, ',' and
'='). -/
def specBadScan (rem : List Nat) (fuel : Nat) : Bool :=
  match fuel with
  | 0 => false
  | fuel + 1 =>
    if rem.length ≥ 4 then
      if isspace (rem.getD 0 0) then
        specBadScan (rem.dropWhile (fun c => isspace c)) fuel
      else if b64DecTable (rem.getD 0 0) = 0 ∨ b64DecTable (rem.getD 1 0) = 0 ∨
          b64DecTable (rem.getD 2 0) = 0 ∨ b64DecTable (rem.getD 3 0) = 0 then
        true
      else specBadScan (rem.drop 4) fuel
    else
      ((rem.dropWhile (fun c => isspace c)).any (fun c => b64DecTable c = 0))

/-- The decoder failure condition on a raw input (strip, then scan). -/
def specBadB64 (encoded : List Nat) : Bool :=
  let enc := (encoded.reverse.dropWhile (fun c => b64DecTable c = 0)).reverse
  specBadScan enc enc.length

/-- A chain of `n + 1` nested soft arrays (the innermost is empty). -/
def nestArr : Nat → Fiobj
  | 0 => Fiobj.arr []
  | n + 1 => Fiobj.arr [nestArr n]

/-- A trivial instantiation of the external number-to-string conversions
(counterexamples avoid numeric leaves, so any instantiation serves). -/
def numToS0 : NumToS := { numS := fun _ => [48], fltS := fun _ => [48] }

/-- A trivial instantiation of the number-consumption externals. -/
def numOracle0 : NumOracle := { atolAdv := fun _ => 0, atofAdv := fun _ => 0 }

/-- Pure companion of `bwriteList`: the effect of sequential byte stores on
the byte list behind the pointer (stores are taken mod 256, out-of-range
stores are dropped, as in `bwrite`). -/
def lstore (a : List Nat) (i : Nat) (l : List Nat) : List Nat :=
  match l with
  | [] => a
  | v :: rest => lstore (a.set i (v % 256)) (i + 1) rest

/-- Pure description of the bytes written by the group loop of
`write_b64dec`: three output bytes per four-byte group, as stored (mod
256). -/
def decGroups : List Nat → List Nat
  | t1 :: t2 :: t3 :: t4 :: rest =>
    ((b64BitVal t1 <<< 2) ||| (b64BitVal t2 >>> 4)) % 256 ::
    ((b64BitVal t2 <<< 4) ||| (b64BitVal t3 >>> 2)) % 256 ::
    ((b64BitVal t3 <<< 6) ||| b64BitVal t4) % 256 ::
    decGroups rest
  | _ => []

/-- Pure description of the bytes written by the group loop of
`write_b64enc`: four alphabet bytes per group of three reader bytes. -/
def encGroups (url : Bool) (reader : List Nat) : Nat → List Nat
  | 0 => []
  | g + 1 =>
    b64EncTable url ((reader.getD 0 0 >>> 2) &&& 63) ::
    b64EncTable url (((reader.getD 0 0 &&& 3) <<< 4) |||
      ((reader.getD 1 0 >>> 4) &&& 15)) ::
    b64EncTable url (((reader.getD 1 0 &&& 15) <<< 2) |||
      ((reader.getD 2 0 >>> 6) &&& 3)) ::
    b64EncTable url (reader.getD 2 0 &&& 63) ::
    encGroups url (reader.drop 3) g

/-- Pure description of the final (1- or 2-byte leftover) group written with
'=' padding by `write_b64enc`. -/
def encTail (url : Bool) (r : List Nat) : List Nat :=
  if r.length = 2 then
    [b64EncTable url ((r.getD 0 0 >>> 2) &&& 63),
     b64EncTable url (((r.getD 0 0 &&& 3) <<< 4) ||| ((r.getD 1 0 >>> 4) &&& 15)),
     b64EncTable url ((r.getD 1 0 &&& 15) <<< 2), 61]
  else if r.length = 1 then
    [b64EncTable url ((r.getD 0 0 >>> 2) &&& 63),
     b64EncTable url ((r.getD 0 0 &&& 3) <<< 4), 61, 61]
  else []

/-- The garbage bytes that the '=' padding decodes to; the final resize of
`write_b64dec` cuts them off. -/
def decPad (md : Nat) : List Nat :=
  if md = 1 then [0, 0] else if md = 2 then [0] else []

/-- A 16-slot map whose every slot stores the same full hash 5 under key 7
(ring fields arbitrary but `next` live): probing it for an absent key meets
16 full-hash collisions. -/
def CEmap : MapS :=
  { mapNull := false
    map := fun _ => { prev := 0, next := 0, hash := 5, key := 7, value := 0 }
    head := 0
    count := 16
    used_bits := 4
    has_collisions := 0
    under_attack := 0 }

/-- A 256-slot map holding the same full hash 1 (key 7) in the 97 slots
`(1 + 11 k) % 256`, `k ≤ 96` — the probe path of hash 1, since
`CUCKOO_STEPS % 256 = 11` and `11 * 163 % 256 = 1`. -/
def Wmap : MapS :=
  { mapNull := false
    map := fun i => if (i + 255) * 163 % 256 ≤ 96 then
        { prev := 0, next := 0, hash := 1, key := 7, value := 0 }
      else zeroEntry
    head := 1
    count := 97
    used_bits := 8
    has_collisions := 0
    under_attack := 0 }

/-- An empty four-slot map (fresh calloc state, head at the ring nil). -/
def C9M : MapS :=
  { mapNull := false
    map := fun _ => zeroEntry
    head := U32NIL
    count := 0
    used_bits := 2
    has_collisions := 0
    under_attack := 0 }

/-- A four-slot map in degraded mode (has_collisions bit 1 and under_attack
set) holding two live couplets (1, 10) and (2, 20) that share the full
hash 5, linked on the insertion ring head -> slot 1 -> slot 0. -/
def C9Mbad : MapS :=
  { mapNull := false
    map := fun i =>
      if i = 1 then { prev := 0, next := 0, hash := 5, key := 1, value := 10 }
      else if i = 0 then { prev := 1, next := 1, hash := 5, key := 2, value := 20 }
      else zeroEntry
    head := 1
    count := 2
    used_bits := 2
    has_collisions := 2
    under_attack := 1 }

/-- A 1024-slot map with 99 live entries on the ring slots 0..98: 97
"blocker" couplets whose hashes 513 + 267 k land, at 9 bits, exactly on the
probe path of the "victim" hash 1 in slot 97 (the 9-bit probe step is
CUCKOO_STEPS mod 512 = 267, and hashOffset h 9 mod 512 = h mod 512 for
small h), and a removee (key 3000, hash 98) in slot 98, whose 10-bit probe
lands on slot 98 directly.  Removing the removee leaves 98 entries - below
the 12.5 percent shrink threshold of the 10-bit table - but the shrink
rebuild at 9 bits fails: the victim's 97 probe slots are all taken by the
blockers. -/
def C4M : MapS :=
  { mapNull := false
    map := fun i =>
      if i ≤ 96 then
        { prev := (i + 98) % 99, next := i + 1, hash := 513 + 267 * i
          key := 1000 + i, value := i }
      else if i = 97 then
        { prev := 96, next := 98, hash := 1, key := 2000, value := 97 }
      else if i = 98 then
        { prev := 97, next := 0, hash := 98, key := 3000, value := 98 }
      else zeroEntry
    head := 0
    count := 99
    used_bits := 10
    has_collisions := 0
    under_attack := 0 }

/- ************************************************************************
   Theorems.  First: store operations never touch the scalar fields of a
   string, hence preserve its info triple, length and flags.
   ************************************************************************ -/

theorem bwrite_special (s : StrS) (p : PtrV) (i v : Nat) :
    (bwrite s p i v).special = s.special := by
  cases p <;> simp [bwrite] <;> split <;> rfl

theorem bwrite_capa (s : StrS) (p : PtrV) (i v : Nat) :
    (bwrite s p i v).capa = s.capa := by
  cases p <;> simp [bwrite] <;> split <;> rfl

theorem bwrite_len (s : StrS) (p : PtrV) (i v : Nat) :
    (bwrite s p i v).len = s.len := by
  cases p <;> simp [bwrite] <;> split <;> rfl

theorem bwrite_dealloc (s : StrS) (p : PtrV) (i v : Nat) :
    (bwrite s p i v).dealloc = s.dealloc := by
  cases p <;> simp [bwrite] <;> split <;> rfl

theorem bwrite_dataNull (s : StrS) (p : PtrV) (i v : Nat) :
    (bwrite s p i v).dataNull = s.dataNull := by
  cases p <;> simp [bwrite] <;> split <;> rfl

theorem bwrite_gen (s : StrS) (p : PtrV) (i v : Nat) :
    (bwrite s p i v).gen = s.gen := by
  cases p <;> simp [bwrite] <;> split <;> rfl

theorem bwrite_info (s : StrS) (p : PtrV) (i v : Nat) :
    (bwrite s p i v).info = s.info := by
  simp [StrS.info, StrS.isSmall, StrS.isFrozen, StrS.smallLen, bwrite_special,
    bwrite_capa, bwrite_len, bwrite_dataNull, bwrite_gen]

theorem bwrite_isFrozen (s : StrS) (p : PtrV) (i v : Nat) :
    (bwrite s p i v).isFrozen = s.isFrozen := by
  simp [StrS.isFrozen, bwrite_special]

theorem bwrite_strLen (s : StrS) (p : PtrV) (i v : Nat) :
    strLen (bwrite s p i v) = strLen s := by
  simp [strLen, StrS.isSmall, StrS.smallLen, bwrite_special, bwrite_dataNull,
    bwrite_len]

theorem bwriteList_info (p : PtrV) (l : List Nat) (s : StrS) (i : Nat) :
    (bwriteList s p i l).info = s.info := by
  induction l generalizing s i with
  | nil => rfl
  | cons v rest ih => simp [bwriteList, ih, bwrite_info]

theorem bwriteList_isFrozen (p : PtrV) (l : List Nat) (s : StrS) (i : Nat) :
    (bwriteList s p i l).isFrozen = s.isFrozen := by
  induction l generalizing s i with
  | nil => rfl
  | cons v rest ih => simp [bwriteList, ih, bwrite_isFrozen]

theorem bwriteList_strLen (p : PtrV) (l : List Nat) (s : StrS) (i : Nat) :
    strLen (bwriteList s p i l) = strLen s := by
  induction l generalizing s i with
  | nil => rfl
  | cons v rest ih => simp [bwriteList, ih, bwrite_strLen]

theorem info_ne_nullInfo (s : StrS) : s.info ≠ nullInfo := by
  simp only [StrS.info, nullInfo]
  split
  · intro h
    exact PtrV.noConfusion (congrArg SInfo.data h)
  · simp only [StrS.isSmall, Bool.or_eq_true, decide_eq_true_eq] at *
    intro h
    have hd := congrArg SInfo.data h
    simp only at hd
    split at hd
    · rename_i hn
      simp_all
    · exact PtrV.noConfusion hd

theorem frozen_info_eq (s : StrS) (h : s.isFrozen = true) :
    reserve s (a : Nat) = (s, s.info) ∧ resize s (b : Nat) = (s, s.info) := by
  constructor <;> simp [reserve, resize, h]

set_option maxHeartbeats 1000000 in
theorem escWrite_info (src : List Nat) (i : Nat) (s : StrS) (p : PtrV)
    (base at0 : Nat) : (escWrite src i s p base at0).1.info = s.info ∧
    (escWrite src i s p base at0).1.isFrozen = s.isFrozen := by
  induction i, s, p, base, at0 using escWrite.induct src
  case case1 =>
    rename_i hlt c hc ih
    rw [escWrite, dif_pos hlt]
    simp only []
    rw [if_pos hc]
    exact ih.imp (fun h => h.trans (bwrite_info ..))
      (fun h => h.trans (bwrite_isFrozen ..))
  case case2 =>
    rename_i hlt c hnot u1 u2 u3 cls hok s2 ih
    rw [escWrite, dif_pos hlt]
    simp only []
    rw [if_neg hnot, if_pos hok]
    exact ih.imp (fun h => h.trans (bwriteList_info ..))
      (fun h => h.trans (bwriteList_isFrozen ..))
  case case3 =>
    rename_i hlt c hnot u1 u2 u3 cls hok out ih
    rw [escWrite, dif_pos hlt]
    simp only []
    rw [if_neg hnot, if_neg hok]
    exact ih.imp (fun h => h.trans (bwriteList_info ..))
      (fun h => h.trans (bwriteList_isFrozen ..))
  case case4 =>
    rename_i hlt
    rw [escWrite, dif_neg hlt]
    exact ⟨rfl, rfl⟩

theorem unescLoop_info (src : List Nat) (fuel pos : Nat) (s : StrS) (p : PtrV)
    (base at0 : Nat) : (unescLoop src fuel pos s p base at0).1.info = s.info ∧
    (unescLoop src fuel pos s p base at0).1.isFrozen = s.isFrozen := by
  induction fuel generalizing pos s at0 with
  | zero => exact ⟨rfl, rfl⟩
  | succ fuel ih =>
    rw [unescLoop]
    simp only []
    split
    · split
      · split
        · split
          · exact ⟨by simp [bwrite_info, bwriteList_info],
                   by simp [bwrite_isFrozen, bwriteList_isFrozen]⟩
          · exact (ih _ _ _).imp
              (fun h => h.trans (by simp [bwriteList_info]))
              (fun h => h.trans (by simp [bwriteList_isFrozen]))
        · exact ⟨by simp [bwriteList_info], by simp [bwriteList_isFrozen]⟩
      · split
        · exact ⟨by simp [bwrite_info], by simp [bwrite_isFrozen]⟩
        · exact (ih _ _ _).imp
            (fun h => h.trans (by simp [bwriteList_info]))
            (fun h => h.trans (by simp [bwriteList_isFrozen]))
    · exact ⟨rfl, rfl⟩

theorem b64encLoop_info (url : Bool) (p : PtrV) (reader : List Nat) (g : Nat)
    (s : StrS) (wpos : Nat) : (b64encLoop url p reader g s wpos).1.info = s.info ∧
    (b64encLoop url p reader g s wpos).1.isFrozen = s.isFrozen := by
  induction g generalizing reader s wpos with
  | zero => exact ⟨rfl, rfl⟩
  | succ g ih =>
    rw [b64encLoop]
    refine (ih _ _ _).imp (fun h => h.trans ?_) (fun h => h.trans ?_) <;>
      simp [bwriteList_info, bwriteList_isFrozen]

theorem b64decLoop_info (p : PtrV) (fuel : Nat) (rem : List Nat)
    (s : StrS) (wpos written : Nat) :
    (b64decLoop s p fuel rem wpos written).1.info = s.info ∧
    (b64decLoop s p fuel rem wpos written).1.isFrozen = s.isFrozen := by
  induction fuel generalizing rem s wpos written with
  | zero => exact ⟨rfl, rfl⟩
  | succ fuel ih =>
    rw [b64decLoop]
    split
    · split
      · exact ih _ _ _ _
      · simp only []
        split
        · exact ⟨rfl, rfl⟩
        · refine (ih _ _ _ _).imp (fun h => h.trans ?_) (fun h => h.trans ?_) <;>
            simp [bwriteList_info, bwriteList_isFrozen]
    · exact ⟨rfl, rfl⟩

theorem resize_frozen (s : StrS) (n : Nat) (hf : s.isFrozen = true) :
    resize s n = (s, s.info) := by simp [resize, hf]

theorem reserve_frozen (s : StrS) (n : Nat) (hf : s.isFrozen = true) :
    reserve s n = (s, s.info) := by simp [reserve, hf]

theorem write_escape_frozen (s : StrS) (src : List Nat)
    (hf : s.isFrozen = true) : (write_escape s src).2 = s.info ∧
    (write_escape s src).1.info = s.info := by
  unfold write_escape
  simp only []
  split
  · constructor <;> simp [write, hf]
  · rw [reserve_frozen _ _ hf]
    simp only []
    split
    · have h1 := escWrite_info src (escScan src 0 0 0).2.pred
        (bwriteList s s.info.data s.info.len (src.take ((escScan src 0 0 0).2 - 1)))
        s.info.data s.info.len (escScan src 0 0 0).2.pred
      rw [resize_frozen]
      · constructor
        · exact h1.1.trans (bwriteList_info ..)
        · exact h1.1.trans (bwriteList_info ..)
      · exact h1.2.trans ((bwriteList_isFrozen ..).trans hf)
    · have h1 := escWrite_info src 0 s s.info.data s.info.len 0
      rw [resize_frozen]
      · exact ⟨h1.1, h1.1⟩
      · exact h1.2.trans hf

theorem write_unescape_frozen (s : StrS) (src : List Nat)
    (hf : s.isFrozen = true) : (write_unescape s src).2 = s.info ∧
    (write_unescape s src).1.info = s.info := by
  unfold write_unescape
  rw [reserve_frozen _ _ hf]
  simp only []
  have h1 := unescLoop_info src src.length 0 s s.info.data s.info.len 0
  rw [resize_frozen]
  · exact ⟨h1.1, h1.1⟩
  · exact h1.2.trans hf

theorem write_b64enc_frozen (s : StrS) (data : List Nat) (url : Bool)
    (hf : s.isFrozen = true) : (write_b64enc s data url).2 = s.info ∧
    (write_b64enc s data url).1.info = s.info := by
  unfold write_b64enc
  split
  · exact ⟨rfl, rfl⟩
  · simp only []
    rw [resize_frozen _ _ hf]
    simp only []
    have h1 := b64encLoop_info url s.info.data data (data.length / 3) s
      (strLen s)
    refine ⟨by trivial, ?_⟩
    split
    · exact (bwriteList_info ..).trans h1.1
    · split
      · exact (bwriteList_info ..).trans h1.1
      · exact h1.1

theorem write_b64dec_frozen (s : StrS) (encoded : List Nat) (oob : Nat → Nat)
    (hf : s.isFrozen = true) : (write_b64dec s encoded oob).1.info = s.info ∧
    ((write_b64dec s encoded oob).2 = s.info ∨
     (write_b64dec s encoded oob).2 = nullInfo) := by
  unfold write_b64dec
  split
  · exact ⟨rfl, Or.inl rfl⟩
  · simp only []
    rw [reserve_frozen _ _ hf]
    simp only []
    have h1 := b64decLoop_info s.info.data
      ((encoded.reverse.dropWhile (fun c => b64DecTable c = 0)).reverse).length
      ((encoded.reverse.dropWhile (fun c => b64DecTable c = 0)).reverse)
      s (strLen s) 0
    split
    · rename_i s1 heq
      have hfst := congrArg Prod.fst heq
      simp only [] at hfst
      have h2 : s1.info = s.info := by rw [← hfst]; exact h1.1
      exact ⟨h2, Or.inr rfl⟩
    · rename_i s1 rem1 wpos1 written1 heq
      have hfst := congrArg Prod.fst heq
      simp only [] at hfst
      have h2 : s1.info = s.info := by rw [← hfst]; exact h1.1
      have h2f : s1.isFrozen = true := by
        rw [← hfst]; exact h1.2.trans hf
      split
      · rename_i tailv s2 heq2
        have hfst2 := congrArg Prod.fst heq2
        simp only [] at hfst2
        have h3 : s2.info = s.info := by
          rw [← hfst2]
          repeat' split
          all_goals first | exact h2 | exact (bwriteList_info ..).trans h2
        exact ⟨h3, Or.inr rfl⟩
      · rename_i tailv s2 written2 heq2
        have hfst2 := congrArg Prod.fst heq2
        simp only [] at hfst2
        have h3 : s2.info = s.info := by
          rw [← hfst2]
          repeat' split
          all_goals first | exact h2 | exact (bwriteList_info ..).trans h2
        have h3f : s2.isFrozen = true := by
          rw [← hfst2]
          repeat' split
          all_goals first | exact h2f | exact (bwriteList_isFrozen ..).trans h2f
        rw [resize_frozen _ _ h3f]
        exact ⟨h3, Or.inl h3⟩

theorem write_frozen (s : StrS) (src : List Nat) (hf : s.isFrozen = true) :
    write s src = (s, s.info) := by
  unfold write
  rw [if_pos (Or.inr hf)]

theorem write_i_frozen (s : StrS) (num : Int) (g : Bool)
    (hf : s.isFrozen = true) : write_i s num g = (s, s.info) := by
  unfold write_i
  rw [if_pos hf]

theorem concat_frozen (dest src : StrS) (hf : dest.isFrozen = true) :
    concat dest src = (dest, dest.info) := by
  unfold concat
  rw [if_pos hf]

theorem replace_frozen (s : StrS) (sp : Int) (ol : Nat) (src : List Nat)
    (hf : s.isFrozen = true) : replace s sp ol src = (s, s.info) := by
  unfold replace
  simp only []
  rw [if_pos (Or.inl hf)]

theorem printf_frozen (s : StrS) (L : Int) (B : List Nat)
    (hf : s.isFrozen = true) : (printf s L B).2 = s.info ∧
    (printf s L B).1.info = s.info := by
  unfold printf vprintf
  split
  · exact ⟨rfl, rfl⟩
  · simp only []
    rw [resize_frozen _ _ hf]
    simp only []
    refine ⟨by trivial, ?_⟩
    split
    · exact bwriteList_info ..
    · rfl

/-- C5: the claim as stated is false — `write_b64dec` does not always return
the current info of a frozen string: on invalid Base64 input it returns the
null info `{ data := NULL, len := 0, capa := 0 }`, which differs from the
frozen string's info (whose data pointer is the small-string marker). -/
theorem C5_counterexample :
    (write_b64dec (freeze strInit) [33, 33, 33, 33, 65, 65, 65, 65]
      (fun _ => 0)).2 ≠ (freeze strInit).info := by decide

/-- C5 (amended): for a frozen string every mutator (resize, reserve, write,
write_i, printf, concat, replace, write_escape, write_unescape,
write_b64enc, write_b64dec) leaves `info` — data pointer, length and
reported capacity — unchanged; every mutator except `write_b64dec` returns
the current info, while `write_b64dec` returns either the current info or
the null info `{ data := NULL, len := 0, capa := 0 }` (its invalid-input
path, which is taken regardless of the freeze flag). -/
theorem C5_frozen_mutators (s : StrS) (hf : s.isFrozen = true) :
    (∀ n, resize s n = (s, s.info)) ∧
    (∀ n, reserve s n = (s, s.info)) ∧
    (∀ src, write s src = (s, s.info)) ∧
    (∀ num g, write_i s num g = (s, s.info)) ∧
    (∀ L B, (printf s L B).2 = s.info ∧ (printf s L B).1.info = s.info) ∧
    (∀ src, concat s src = (s, s.info)) ∧
    (∀ sp ol src, replace s sp ol src = (s, s.info)) ∧
    (∀ src, (write_escape s src).2 = s.info ∧
      (write_escape s src).1.info = s.info) ∧
    (∀ src, (write_unescape s src).2 = s.info ∧
      (write_unescape s src).1.info = s.info) ∧
    (∀ d url, (write_b64enc s d url).2 = s.info ∧
      (write_b64enc s d url).1.info = s.info) ∧
    (∀ e oob, (write_b64dec s e oob).1.info = s.info ∧
      ((write_b64dec s e oob).2 = s.info ∨
       (write_b64dec s e oob).2 = nullInfo)) :=
  ⟨fun n => resize_frozen s n hf,
   fun n => reserve_frozen s n hf,
   fun src => write_frozen s src hf,
   fun num g => write_i_frozen s num g hf,
   fun L B => printf_frozen s L B hf,
   fun src => concat_frozen s src hf,
   fun sp ol src => replace_frozen s sp ol src hf,
   fun src => write_escape_frozen s src hf,
   fun src => write_unescape_frozen s src hf,
   fun d url => write_b64enc_frozen s d url hf,
   fun e oob => write_b64dec_frozen s e oob hf⟩

/-- C5 witness: the amended theorem applied to the concrete frozen empty
string, with two components instantiated at concrete arguments. -/
theorem C5_frozen_mutators_witness :
    (freeze strInit).isFrozen = true ∧
    resize (freeze strInit) 10 = (freeze strInit, (freeze strInit).info) ∧
    write (freeze strInit) [65, 66] =
      (freeze strInit, (freeze strInit).info) :=
  ⟨by decide,
   (C5_frozen_mutators (freeze strInit) (by decide)).1 10,
   (C5_frozen_mutators (freeze strInit) (by decide)).2.2.1 [65, 66]⟩

/- ************************************************************************
   The store layer: `bwriteList` through a valid pointer acts on the byte
   list behind it as `lstore`, and `lstore` is in-place overwrite.
   ************************************************************************ -/

theorem bwriteList_append (p : PtrV) (l1 l2 : List Nat) (s : StrS) (i : Nat) :
    bwriteList s p i (l1 ++ l2) =
      bwriteList (bwriteList s p i l1) p (i + l1.length) l2 := by
  induction l1 generalizing s i with
  | nil => simp [bwriteList]
  | cons v rest ih =>
    show bwriteList (bwrite s p i v) p (i + 1) (rest ++ l2) = _
    rw [ih]
    show _ = bwriteList (bwriteList (bwrite s p i v) p (i + 1) rest) p _ l2
    congr 1
    simp
    omega

theorem bwriteList_small_eq (l : List Nat) (s : StrS) (i : Nat) :
    bwriteList s PtrV.small i l = { s with small := lstore s.small i l } := by
  induction l generalizing s i with
  | nil => rfl
  | cons v rest ih =>
    show bwriteList (bwrite s PtrV.small i v) PtrV.small (i + 1) rest = _
    rw [ih]
    rfl

theorem bwriteList_heap_eq (l : List Nat) (s : StrS) (i : Nat) :
    bwriteList s (PtrV.heap s.gen) i l = { s with buf := lstore s.buf i l } := by
  induction l generalizing s i with
  | nil => rfl
  | cons v rest ih =>
    show bwriteList (bwrite s (PtrV.heap s.gen) i v) (PtrV.heap s.gen) (i + 1)
      rest = _
    rw [bwrite, if_pos rfl]
    rw [ih { s with buf := s.buf.set i (v % 256) } (i + 1)]
    rfl

theorem lstore_length (l : List Nat) (a : List Nat) (i : Nat) :
    (lstore a i l).length = a.length := by
  induction l generalizing a i with
  | nil => rfl
  | cons v rest ih => rw [lstore, ih]; simp

theorem lstore_spec (l : List Nat) (a : List Nat) (i : Nat)
    (h : i + l.length ≤ a.length) :
    lstore a i l = a.take i ++ l.map (· % 256) ++ a.drop (i + l.length) := by
  induction l generalizing a i with
  | nil => simp [lstore]
  | cons v rest ih =>
    have hi : i < a.length := by simp at h; omega
    rw [lstore, ih _ _ (by simp at h ⊢; omega)]
    rw [List.set_eq_take_cons_drop _ hi]
    have hti : (a.take i).length = i := List.length_take_of_le (by omega)
    have h1 : List.take (i + 1) (List.take i a ++ v % 256 :: List.drop (i + 1) a)
        = List.take i a ++ [v % 256] := by
      rw [show i + 1 = (List.take i a).length + 1 by omega, List.take_append]
      rfl
    have h2 : List.drop (i + 1 + rest.length)
        (List.take i a ++ v % 256 :: List.drop (i + 1) a)
        = List.drop (i + 1 + rest.length) a := by
      rw [show i + 1 + rest.length = (List.take i a).length + (rest.length + 1)
        by omega, List.drop_append, List.drop_succ_cons, List.drop_drop]
      congr 1
      omega
    rw [h1, h2]
    simp only [List.map_cons, List.append_assoc, List.singleton_append,
      List.length_cons]
    congr 3
    omega

theorem b64encLoop_eq (url : Bool) (p : PtrV) (g : Nat) (reader : List Nat)
    (s : StrS) (wpos : Nat) :
    b64encLoop url p reader g s wpos =
      (bwriteList s p wpos (encGroups url reader g), reader.drop (3 * g),
       wpos + 4 * g) := by
  induction g generalizing reader s wpos with
  | zero => rfl
  | succ g ih =>
    rw [b64encLoop]
    rw [ih]
    rw [show encGroups url reader (g + 1)
        = [b64EncTable url ((reader.getD 0 0 >>> 2) &&& 63),
           b64EncTable url (((reader.getD 0 0 &&& 3) <<< 4) |||
             ((reader.getD 1 0 >>> 4) &&& 15)),
           b64EncTable url (((reader.getD 1 0 &&& 15) <<< 2) |||
             ((reader.getD 2 0 >>> 6) &&& 3)),
           b64EncTable url (reader.getD 2 0 &&& 63)]
          ++ encGroups url (reader.drop 3) g from rfl]
    rw [bwriteList_append]
    refine Prod.ext ?_ (Prod.ext ?_ ?_)
    · rfl
    · show (reader.drop 3).drop (3 * g) = reader.drop (3 * (g + 1))
      rw [List.drop_drop]
      congr 1
      omega
    · show wpos + 4 + 4 * g = wpos + 4 * (g + 1)
      omega

theorem encGroups_tail_eq (url : Bool) (b : List Nat) :
    encGroups url b (b.length / 3) ++ encTail url (b.drop (3 * (b.length / 3)))
      = encBytes url b := by
  induction b using encBytes.induct url with
  | case1 t1 t2 t3 rest ih =>
    have hl : (t1 :: t2 :: t3 :: rest).length / 3 = rest.length / 3 + 1 := by
      simp [Nat.add_div_right]
      omega
    rw [hl]
    rw [show encGroups url (t1 :: t2 :: t3 :: rest) (rest.length / 3 + 1)
        = b64EncTable url ((t1 >>> 2) &&& 63) ::
          b64EncTable url (((t1 &&& 3) <<< 4) ||| ((t2 >>> 4) &&& 15)) ::
          b64EncTable url (((t2 &&& 15) <<< 2) ||| ((t3 >>> 6) &&& 3)) ::
          b64EncTable url (t3 &&& 63) ::
          encGroups url rest (rest.length / 3) from rfl]
    rw [show (t1 :: t2 :: t3 :: rest).drop (3 * (rest.length / 3 + 1))
        = rest.drop (3 * (rest.length / 3)) by
      rw [show 3 * (rest.length / 3 + 1) = 3 * (rest.length / 3) + 3 by ring]
      rfl]
    rw [encBytes]
    simp only [List.cons_append]
    rw [ih]
  | case2 t1 t2 => simp [encGroups, encTail, encBytes]
  | case3 t1 => simp [encGroups, encTail, encBytes]
  | case4 => rfl

theorem or15_eq (x : Nat) : x ||| 15 = x / 16 * 16 + 15 := by
  have hm : x % 16 < 2 ^ 4 := Nat.mod_lt _ (by norm_num)
  have h15 : x % 16 ||| 15 = 15 := by
    have hb : x % 16 < 16 := Nat.mod_lt _ (by norm_num)
    revert hb
    generalize x % 16 = r
    revert r
    decide
  calc x ||| 15 = (2 ^ 4 * (x / 16) + x % 16) ||| 15 := by
        rw [show (2 : Nat) ^ 4 = 16 from rfl, Nat.div_add_mod]
    _ = ((2 ^ 4 * (x / 16)) ||| (x % 16)) ||| 15 := by
        rw [← Nat.mul_add_lt_is_or hm]
    _ = (2 ^ 4 * (x / 16)) ||| (x % 16 ||| 15) := Nat.or_assoc ..
    _ = (2 ^ 4 * (x / 16)) ||| 15 := by rw [h15]
    _ = 2 ^ 4 * (x / 16) + 15 := by rw [← Nat.mul_add_lt_is_or (by norm_num)]
    _ = x / 16 * 16 + 15 := by ring

theorem capa2words_ge (n : Nat) : n + 1 ≤ CAPA2WORDS n := by
  have h := or15_eq (n + 1)
  rw [CAPA2WORDS, h]
  omega

theorem resize_strInit_small (n : Nat) (h : n ≤ 46) :
    resize strInit n =
      ({ special := n * 4 + 1, capa := 0, len := 0,
         dealloc := DeallocK.nullPtr, dataNull := true, gen := 0, buf := [],
         small := List.replicate 47 0 },
       { capa := 46, len := n, data := PtrV.small }) := by
  have key : ∀ r < 47, ((1 &&& 2) ||| (r % 256 * 4) ||| 1) &&& 255 = r * 4 + 1
    := by decide
  rw [resize, if_neg (by decide), if_pos (by decide),
    if_pos (show n ≤ SMALL_CAPA from h)]
  simp only [smallLenSet, strInit]
  rw [key n (by omega)]
  rw [List.set_replicate_self]
  refine Prod.ext rfl ?_
  show _ = SInfo.mk 46 n PtrV.small
  have hlen : (n * 4 + 1) / 4 = n := by omega
  simp [SMALL_CAPA, hlen]

theorem reserve_strInit_small (n : Nat) (h : n ≤ 46) :
    reserve strInit n =
      (strInit, { capa := 46, len := 0, data := PtrV.small }) := by
  rw [reserve, if_neg (by decide), if_pos (by decide),
    if_pos (show n ≤ SMALL_CAPA from h)]
  rfl

theorem reserve_strInit_large (n : Nat) (h : 46 < n) :
    reserve strInit n =
      ({ special := 0, capa := CAPA2WORDS n, len := 0,
         dealloc := DeallocK.default, dataNull := false, gen := 1,
         buf := List.replicate (CAPA2WORDS n + 1) 0,
         small := List.replicate 47 0 },
       { capa := CAPA2WORDS n, len := 0, data := PtrV.heap 1 }) := by
  rw [reserve, if_neg (by decide), if_pos (by decide),
    if_neg (show ¬ n ≤ SMALL_CAPA by simp [SMALL_CAPA]; omega)]
  simp only []
  rw [if_neg (show ¬ strInit.smallLen ≠ 0 by simp [strInit, StrS.smallLen])]
  rfl

theorem resize_strInit_large (n : Nat) (h : 46 < n) :
    resize strInit n =
      ({ special := 0, capa := CAPA2WORDS n, len := n,
         dealloc := DeallocK.default, dataNull := false, gen := 1,
         buf := List.replicate (CAPA2WORDS n + 1) 0,
         small := List.replicate 47 0 },
       { capa := CAPA2WORDS n, len := n, data := PtrV.heap 1 }) := by
  have key : ((1 &&& 2) ||| (46 % 256 * 4) ||| 1) &&& 255 = 185 := by decide
  have hge : n + 1 ≤ CAPA2WORDS n := capa2words_ge n
  rw [resize, if_neg (by decide), if_pos (by decide),
    if_neg (show ¬ n ≤ SMALL_CAPA by simp [SMALL_CAPA]; omega)]
  simp only [smallLenSet, strInit, key]
  rw [reserve, if_neg (by decide), if_pos (by decide),
    if_neg (show ¬ n ≤ SMALL_CAPA by simp [SMALL_CAPA]; omega)]
  simp only []
  rw [if_pos (show StrS.smallLen _ ≠ 0 by decide)]
  rw [show ({ special := (1 &&& 2 ||| SMALL_CAPA % 256 * 4 ||| 1) &&& 255
              capa := 0
              len := 0
              dealloc := DeallocK.nullPtr
              dataNull := true
              gen := 0
              buf := []
              small := List.replicate 47 0 } : StrS).smallLen = 46 from rfl]
  rw [List.take_replicate, List.drop_replicate]
  rw [show (46 + 1) ⊓ 47 = 47 by decide]
  rw [List.append_replicate_replicate]
  rw [show 47 + (CAPA2WORDS n + 1 - (46 + 1)) = CAPA2WORDS n + 1 by omega]
  rw [List.set_replicate_self]

/- ************************************************************************
   Per-byte facts about the Base64 alphabets and tables.
   ************************************************************************ -/

theorem b64EncTable_lt (url : Bool) (x : Nat) : b64EncTable url x < 256 := by
  by_cases hx : x < 65
  · revert hx
    revert x
    cases url <;> decide
  · cases url <;>
      (rw [b64EncTable]
       simp only [if_true, if_false, Bool.false_eq_true]
       rw [List.getD_eq_default _ _ (by simp; omega)] <;> norm_num)

theorem bv_enc (url : Bool) : ∀ v, v < 64 → b64BitVal (b64EncTable url v) = v
  := by cases url <;> decide

theorem enc_byte_ok (url : Bool) :
    ∀ v, v < 64 → b64DecTable (b64EncTable url v) ≠ 0 ∧
      isspace (b64EncTable url v) = false := by
  cases url <;> decide

theorem orlt64 : ∀ a, a < 64 → ∀ b, b < 64 → a ||| b < 64 := by decide

theorem encArg1_lt (t : Nat) : (t >>> 2) &&& 63 < 64 :=
  Nat.lt_succ_of_le (Nat.and_le_right)

theorem encArg2_lt (t1 t2 : Nat) :
    ((t1 &&& 3) <<< 4) ||| ((t2 >>> 4) &&& 15) < 64 := by
  have h1 : t1 &&& 3 < 4 := Nat.lt_succ_of_le (Nat.and_le_right)
  have h2 : (t2 >>> 4) &&& 15 < 16 := Nat.lt_succ_of_le (Nat.and_le_right)
  refine orlt64 _ ?_ _ (by omega)
  rw [Nat.shiftLeft_eq]
  omega

theorem encArg3_lt (t2 t3 : Nat) :
    ((t2 &&& 15) <<< 2) ||| ((t3 >>> 6) &&& 3) < 64 := by
  have h1 : t2 &&& 15 < 16 := Nat.lt_succ_of_le (Nat.and_le_right)
  have h2 : (t3 >>> 6) &&& 3 < 4 := Nat.lt_succ_of_le (Nat.and_le_right)
  refine orlt64 _ ?_ _ (by omega)
  rw [Nat.shiftLeft_eq]
  omega

theorem encArg4_lt (t : Nat) : t &&& 63 < 64 :=
  Nat.lt_succ_of_le (Nat.and_le_right)

theorem encBytes_lt (url : Bool) (b : List Nat) :
    ∀ c ∈ encBytes url b, c < 256 := by
  induction b using encBytes.induct url with
  | case1 t1 t2 t3 rest ih =>
    intro c hc
    rw [encBytes] at hc
    simp only [List.mem_cons] at hc
    rcases hc with h | h | h | h | h
    · exact h ▸ b64EncTable_lt url _
    · exact h ▸ b64EncTable_lt url _
    · exact h ▸ b64EncTable_lt url _
    · exact h ▸ b64EncTable_lt url _
    · exact ih c h
  | case2 t1 t2 =>
    intro c hc
    rw [encBytes] at hc
    simp only [List.mem_cons, List.not_mem_nil, or_false] at hc
    rcases hc with h | h | h | h <;>
      first
        | exact h ▸ b64EncTable_lt url _
        | exact h ▸ (by norm_num)
  | case3 t1 =>
    intro c hc
    rw [encBytes] at hc
    simp only [List.mem_cons, List.not_mem_nil, or_false] at hc
    rcases hc with h | h | h | h <;>
      first
        | exact h ▸ b64EncTable_lt url _
        | exact h ▸ (by norm_num)
  | case4 => intro c hc; simp [encBytes] at hc

theorem encBytes_clean (url : Bool) (b : List Nat) :
    ∀ c ∈ encBytes url b, b64DecTable c ≠ 0 ∧ isspace c = false := by
  have h61 : b64DecTable 61 ≠ 0 ∧ isspace 61 = false := by decide
  induction b using encBytes.induct url with
  | case1 t1 t2 t3 rest ih =>
    intro c hc
    rw [encBytes] at hc
    simp only [List.mem_cons] at hc
    rcases hc with h | h | h | h | h
    · exact h ▸ enc_byte_ok url _ (encArg1_lt t1)
    · exact h ▸ enc_byte_ok url _ (encArg2_lt t1 t2)
    · exact h ▸ enc_byte_ok url _ (encArg3_lt t2 t3)
    · exact h ▸ enc_byte_ok url _ (encArg4_lt t3)
    · exact ih c h
  | case2 t1 t2 =>
    intro c hc
    rw [encBytes] at hc
    simp only [List.mem_cons, List.not_mem_nil, or_false] at hc
    rcases hc with h | h | h | h
    · exact h ▸ enc_byte_ok url _ (encArg1_lt t1)
    · exact h ▸ enc_byte_ok url _ (encArg2_lt t1 t2)
    · exact h ▸ enc_byte_ok url _ (by
        have : t2 &&& 15 < 16 := Nat.lt_succ_of_le (Nat.and_le_right)
        rw [Nat.shiftLeft_eq]
        omega)
    · exact h ▸ h61
  | case3 t1 =>
    intro c hc
    rw [encBytes] at hc
    simp only [List.mem_cons, List.not_mem_nil, or_false] at hc
    rcases hc with h | h | h | h
    · exact h ▸ enc_byte_ok url _ (encArg1_lt t1)
    · exact h ▸ enc_byte_ok url _ (by
        have : t1 &&& 3 < 4 := Nat.lt_succ_of_le (Nat.and_le_right)
        rw [Nat.shiftLeft_eq]
        omega)
    · exact h ▸ h61
    · exact h ▸ h61
  | case4 => intro c hc; simp [encBytes] at hc

theorem mapMod_eq_self (l : List Nat) (h : ∀ c ∈ l, c < 256) :
    l.map (· % 256) = l := by
  induction l with
  | nil => rfl
  | cons x rest ih =>
    simp only [List.map_cons]
    rw [Nat.mod_eq_of_lt (h x (by simp)), ih (fun c hc => h c (by simp [hc]))]

theorem encBytes_length (url : Bool) (b : List Nat) :
    (encBytes url b).length = 4 * ((b.length + 2) / 3) := by
  induction b using encBytes.induct url with
  | case1 t1 t2 t3 rest ih =>
    rw [encBytes]
    simp only [List.length_cons, ih]
    omega
  | case2 t1 t2 => simp [encBytes]
  | case3 t1 => simp [encBytes]
  | case4 => rfl

/- ************************************************************************
   Bitwise identities on byte-sized values, used for the Base64 round trip.
   ************************************************************************ -/

set_option maxRecDepth 100000

theorem bits_d1 : ∀ x, x < 256 → (x >>> 2) &&& 63 = x / 4 := by decide

theorem bits_d2 : ∀ x, x < 256 → x &&& 3 = x % 4 := by decide

theorem bits_d3 : ∀ x, x < 256 → (x >>> 4) &&& 15 = x / 16 := by decide

theorem bits_d4 : ∀ x, x < 256 → x &&& 15 = x % 16 := by decide

theorem bits_d5 : ∀ x, x < 256 → (x >>> 6) &&& 3 = x / 64 := by decide

theorem bits_d6 : ∀ x, x < 256 → x &&& 63 = x % 64 := by decide

theorem bits_e1 : ∀ a, a < 4 → ∀ b, b < 16 → (a <<< 4) ||| b = 16 * a + b := by
  decide

theorem bits_e2 : ∀ a, a < 16 → ∀ b, b < 4 → (a <<< 2) ||| b = 4 * a + b := by
  decide

theorem bits_f1 : ∀ a, a < 64 → ∀ b, b < 4 → (a <<< 2) ||| b = 4 * a + b := by
  decide

theorem bits_f2 : ∀ a, a < 64 → ∀ b, b < 16 → (a <<< 4) ||| b = 16 * a + b := by
  decide

theorem bits_f3 : ∀ a, a < 64 → ∀ b, b < 64 → (a <<< 6) ||| b = 64 * a + b := by
  decide

theorem decode_o1 (t1 t2 : Nat) (h1 : t1 < 256) (h2 : t2 < 256) :
    ((((t1 >>> 2) &&& 63) <<< 2) |||
      ((((t1 &&& 3) <<< 4) ||| ((t2 >>> 4) &&& 15)) >>> 4)) % 256 = t1 := by
  rw [bits_d1 t1 h1, bits_d2 t1 h1, bits_d3 t2 h2]
  rw [bits_e1 (t1 % 4) (by omega) (t2 / 16) (by omega)]
  have hs : (16 * (t1 % 4) + t2 / 16) >>> 4 = t1 % 4 := by
    rw [Nat.shiftRight_eq_div_pow]
    norm_num
    omega
  rw [hs, bits_f1 (t1 / 4) (by omega) (t1 % 4) (by omega)]
  omega

theorem decode_o2 (t1 t2 t3 : Nat) (h1 : t1 < 256) (h2 : t2 < 256)
    (h3 : t3 < 256) :
    (((((t1 &&& 3) <<< 4) ||| ((t2 >>> 4) &&& 15)) <<< 4) |||
      ((((t2 &&& 15) <<< 2) ||| ((t3 >>> 6) &&& 3)) >>> 2)) % 256 = t2 := by
  rw [bits_d2 t1 h1, bits_d3 t2 h2, bits_d4 t2 h2, bits_d5 t3 h3]
  rw [bits_e1 (t1 % 4) (by omega) (t2 / 16) (by omega)]
  rw [bits_e2 (t2 % 16) (by omega) (t3 / 64) (by omega)]
  have hs : (4 * (t2 % 16) + t3 / 64) >>> 2 = t2 % 16 := by
    rw [Nat.shiftRight_eq_div_pow]
    norm_num
    omega
  rw [hs, bits_f2 (16 * (t1 % 4) + t2 / 16) (by omega) (t2 % 16) (by omega)]
  omega

theorem decode_o3 (t2 t3 : Nat) (h2 : t2 < 256) (h3 : t3 < 256) :
    (((((t2 &&& 15) <<< 2) ||| ((t3 >>> 6) &&& 3)) <<< 6) |||
      (t3 &&& 63)) % 256 = t3 := by
  rw [bits_d4 t2 h2, bits_d5 t3 h3, bits_d6 t3 h3]
  rw [bits_e2 (t2 % 16) (by omega) (t3 / 64) (by omega)]
  rw [bits_f3 (4 * (t2 % 16) + t3 / 64) (by omega) (t3 % 64) (by omega)]
  omega

theorem decode_o2m2 (t1 t2 : Nat) (h1 : t1 < 256) (h2 : t2 < 256) :
    (((((t1 &&& 3) <<< 4) ||| ((t2 >>> 4) &&& 15)) <<< 4) |||
      (((t2 &&& 15) <<< 2) >>> 2)) % 256 = t2 := by
  rw [bits_d2 t1 h1, bits_d3 t2 h2, bits_d4 t2 h2]
  rw [bits_e1 (t1 % 4) (by omega) (t2 / 16) (by omega)]
  have hs : ((t2 % 16) <<< 2) >>> 2 = t2 % 16 := by
    rw [Nat.shiftLeft_eq, Nat.shiftRight_eq_div_pow]
    norm_num
  rw [hs, bits_f2 (16 * (t1 % 4) + t2 / 16) (by omega) (t2 % 16) (by omega)]
  omega

theorem decode_o3m2 (t2 : Nat) (h2 : t2 < 256) :
    ((((t2 &&& 15) <<< 2) <<< 6) ||| b64BitVal 61) % 256 = 0 := by
  rw [bits_d4 t2 h2, show b64BitVal 61 = 0 from rfl, Nat.or_zero]
  rw [Nat.shiftLeft_eq, Nat.shiftLeft_eq]
  norm_num
  omega

theorem decode_o1m1 (t1 : Nat) (h1 : t1 < 256) :
    ((((t1 >>> 2) &&& 63) <<< 2) ||| (((t1 &&& 3) <<< 4) >>> 4)) % 256 = t1
    := by
  rw [bits_d1 t1 h1, bits_d2 t1 h1]
  have hs : ((t1 % 4) <<< 4) >>> 4 = t1 % 4 := by
    rw [Nat.shiftLeft_eq, Nat.shiftRight_eq_div_pow]
    norm_num
  rw [hs, bits_f1 (t1 / 4) (by omega) (t1 % 4) (by omega)]
  omega

theorem decode_o2m1 (t1 : Nat) (h1 : t1 < 256) :
    ((((t1 &&& 3) <<< 4) <<< 4) ||| (b64BitVal 61 >>> 2)) % 256 = 0 := by
  rw [bits_d2 t1 h1, show b64BitVal 61 >>> 2 = 0 from rfl, Nat.or_zero]
  rw [Nat.shiftLeft_eq, Nat.shiftLeft_eq]
  norm_num
  omega

theorem dec_enc (url : Bool) (b : List Nat) (hb : ∀ x ∈ b, x < 256) :
    decGroups (encBytes url b) = b ++ decPad (b.length % 3) := by
  induction b using encBytes.induct url with
  | case1 t1 t2 t3 rest ih =>
    have hx1 : t1 < 256 := hb t1 (by simp)
    have hx2 : t2 < 256 := hb t2 (by simp)
    have hx3 : t3 < 256 := hb t3 (by simp)
    rw [encBytes, decGroups]
    rw [bv_enc url _ (encArg1_lt t1), bv_enc url _ (encArg2_lt t1 t2),
      bv_enc url _ (encArg3_lt t2 t3), bv_enc url _ (encArg4_lt t3)]
    rw [decode_o1 t1 t2 hx1 hx2, decode_o2 t1 t2 t3 hx1 hx2 hx3,
      decode_o3 t2 t3 hx2 hx3]
    rw [ih (fun x hx => hb x (by simp [hx]))]
    rw [show (t1 :: t2 :: t3 :: rest).length % 3 = rest.length % 3 by
      simp
      omega]
    rfl
  | case2 t1 t2 =>
    have hx1 : t1 < 256 := hb t1 (by simp)
    have hx2 : t2 < 256 := hb t2 (by simp)
    have hv3 : (t2 &&& 15) <<< 2 < 64 := by
      have : t2 &&& 15 < 16 := Nat.lt_succ_of_le (Nat.and_le_right)
      rw [Nat.shiftLeft_eq]
      omega
    rw [encBytes, decGroups]
    rw [bv_enc url _ (encArg1_lt t1), bv_enc url _ (encArg2_lt t1 t2),
      bv_enc url _ hv3]
    rw [decode_o1 t1 t2 hx1 hx2, decode_o2m2 t1 t2 hx1 hx2,
      decode_o3m2 t2 hx2]
    rfl
  | case3 t1 =>
    have hx1 : t1 < 256 := hb t1 (by simp)
    have hv2 : (t1 &&& 3) <<< 4 < 64 := by
      have : t1 &&& 3 < 4 := Nat.lt_succ_of_le (Nat.and_le_right)
      rw [Nat.shiftLeft_eq]
      omega
    rw [encBytes, decGroups]
    rw [bv_enc url _ (encArg1_lt t1), bv_enc url _ hv2]
    rw [decode_o1m1 t1 hx1, decode_o2m1 t1 hx1]
    rw [show ((b64BitVal 61 <<< 6) ||| b64BitVal 61) % 256 = 0 from rfl]
    rfl
  | case4 => rfl

theorem b64decLoop_nil (s : StrS) (p : PtrV) (fuel wpos written : Nat) :
    b64decLoop s p fuel [] wpos written = (s, some ([], wpos, written)) := by
  cases fuel with
  | zero => rfl
  | succ f => rw [b64decLoop]; rfl

theorem bwriteList_mapMod (p : PtrV) (l : List Nat) (s : StrS) (i : Nat) :
    bwriteList s p i (l.map (· % 256)) = bwriteList s p i l := by
  induction l generalizing s i with
  | nil => rfl
  | cons v rest ih =>
    simp only [List.map_cons]
    show bwriteList (bwrite s p i (v % 256)) p (i + 1) (rest.map (· % 256))
      = bwriteList (bwrite s p i v) p (i + 1) rest
    rw [ih]
    have hb : bwrite s p i (v % 256) = bwrite s p i v := by
      cases p <;> simp [bwrite, Nat.mod_mod]
    rw [hb]

theorem b64decLoop_groups (p : PtrV) :
    ∀ fuel (gs ws : List (List Nat)) (s : StrS) (wpos written : Nat),
      (∀ g ∈ gs, g.length = 4 ∧
        ∀ c ∈ g, b64DecTable c ≠ 0 ∧ isspace c = false) →
      (∀ r ∈ ws, ∀ c ∈ r, isspace c = true) →
      ws.length ≤ gs.length →
      (wsInter ws gs).length ≤ fuel →
      b64decLoop s p fuel (wsInter ws gs) wpos written =
        (bwriteList s p wpos (decGroups gs.flatten),
         some ([], wpos + 3 * gs.length, written + 3 * gs.length)) := by
  intro fuel
  induction fuel with
  | zero =>
    intro gs ws s wpos written hg hw hwl hfuel
    cases gs with
    | nil =>
      have hws : ws = [] := by simpa using hwl
      subst hws
      rw [show wsInter [] [] = [] from rfl, b64decLoop_nil]
      simp [decGroups, bwriteList]
    | cons g rest =>
      exfalso
      have hlen : g.length = 4 := (hg g (by simp)).1
      have h4 : 4 ≤ (wsInter ws (g :: rest)).length := by
        rw [wsInter]
        simp only [List.length_append, hlen]
        omega
      omega
  | succ f ih =>
    intro gs ws s wpos written hg hw hwl hfuel
    cases gs with
    | nil =>
      have hws : ws = [] := by simpa using hwl
      subst hws
      rw [show wsInter [] [] = [] from rfl, b64decLoop_nil]
      simp [decGroups, bwriteList]
    | cons g rest =>
      obtain ⟨hlen, hcl⟩ := hg g (by simp)
      obtain ⟨a, b, c, d, rfl⟩ : ∃ a b c d, g = [a, b, c, d] := by
        clear ih hg hw hwl hfuel hcl
        rcases g with _ | ⟨a, _ | ⟨b, _ | ⟨c, _ | ⟨d, _ | t⟩⟩⟩⟩ <;>
          first
            | exact ⟨_, _, _, _, rfl⟩
            | (exfalso; simp at hlen)
      have ha := hcl a (by simp)
      have hb := hcl b (by simp)
      have hc := hcl c (by simp)
      have hd := hcl d (by simp)
      rcases hr : ws.headD [] with _ | ⟨x, r1⟩
      · -- no leading whitespace run: decode the group
        have hrem : wsInter ws ([a, b, c, d] :: rest)
            = a :: b :: c :: d :: wsInter ws.tail rest := by
          rw [wsInter, hr]
          rfl
        rw [hrem, b64decLoop]
        rw [if_pos (by simp)]
        rw [if_neg (by simp [ha.2])]
        simp only [List.getD_cons_zero, List.getD_cons_succ]
        rw [if_neg (by simp [ha.1, hb.1, hc.1, hd.1])]
        rw [show (a :: b :: c :: d :: wsInter ws.tail rest).drop 4
            = wsInter ws.tail rest from rfl]
        rw [ih rest ws.tail _ _ _ (fun g2 hgm => hg g2 (by simp [hgm]))
          (fun r hrm => hw r (List.mem_of_mem_tail hrm))
          (by cases ws with
              | nil => simp
              | cons w ws2 => simp at hwl ⊢; omega)
          (by rw [hrem] at hfuel; simp at hfuel ⊢; omega)]
        rw [show decGroups (([a, b, c, d] :: rest).flatten)
            = ((b64BitVal a <<< 2) ||| (b64BitVal b >>> 4)) % 256 ::
              ((b64BitVal b <<< 4) ||| (b64BitVal c >>> 2)) % 256 ::
              ((b64BitVal c <<< 6) ||| b64BitVal d) % 256 ::
              decGroups rest.flatten from rfl]
        rw [show ((b64BitVal a <<< 2) ||| (b64BitVal b >>> 4)) % 256 ::
              ((b64BitVal b <<< 4) ||| (b64BitVal c >>> 2)) % 256 ::
              ((b64BitVal c <<< 6) ||| b64BitVal d) % 256 ::
              decGroups rest.flatten
            = [(b64BitVal a <<< 2) ||| (b64BitVal b >>> 4),
               (b64BitVal b <<< 4) ||| (b64BitVal c >>> 2),
               (b64BitVal c <<< 6) ||| b64BitVal d].map (· % 256)
              ++ decGroups rest.flatten from rfl]
        rw [bwriteList_append, bwriteList_mapMod]
        refine Prod.ext rfl ?_
        show some _ = some _
        congr 2 <;> simp <;> omega
      · -- leading whitespace run: one skip iteration
        have hws : ws ≠ [] := by
          intro hcon
          rw [hcon] at hr
          exact absurd hr (by simp)
        have hmem : (x :: r1) ∈ ws := by
          cases ws with
          | nil => exact absurd rfl hws
          | cons w ws2 =>
            simp at hr
            simp [hr]
        have hxr : ∀ e ∈ x :: r1, isspace e = true := hw _ hmem
        have hrem : wsInter ws ([a, b, c, d] :: rest)
            = (x :: r1) ++ ([a, b, c, d] ++ wsInter ws.tail rest) := by
          rw [wsInter, hr]
          simp
        rw [hrem, b64decLoop]
        rw [if_pos (by simp; omega)]
        rw [if_pos (by simp [hxr x (by simp)])]
        rw [List.dropWhile_append]
        rw [if_pos (by
          simp only [List.isEmpty_iff]
          exact List.dropWhile_eq_nil_iff.mpr (fun e he => hxr e he))]
        rw [show List.dropWhile (fun e => isspace e)
              ([a, b, c, d] ++ wsInter ws.tail rest)
            = [a, b, c, d] ++ wsInter ws.tail rest by
          rw [List.cons_append, List.dropWhile_cons, if_neg (by simp [ha.2])]]
        have hres : [a, b, c, d] ++ wsInter ws.tail rest
            = wsInter ([] :: ws.tail) ([a, b, c, d] :: rest) := by
          rw [wsInter]
          rfl
        rw [hres]
        refine ih ([a, b, c, d] :: rest) ([] :: ws.tail) s wpos written hg
          ?_ ?_ ?_
        · intro r hrm e he
          rcases List.mem_cons.mp hrm with h0 | h0
          · rw [h0] at he
            exact absurd he (by simp)
          · exact hw r (List.mem_of_mem_tail h0) e he
        · cases ws with
          | nil => exact absurd rfl hws
          | cons w ws2 => simp at hwl ⊢; omega
        · rw [← hres]
          rw [hrem] at hfuel
          simp at hfuel ⊢
          omega

theorem take_set_self (l : List Nat) (n : Nat) (a : Nat) :
    (l.set n a).take n = l.take n := by
  induction l generalizing n with
  | nil => rfl
  | cons x t ih =>
    cases n with
    | zero => rfl
    | succ m =>
      show (x :: t.set m a).take (m + 1) = (x :: t).take (m + 1)
      simp only [List.take_succ_cons]
      rw [ih]

theorem getD_mem_of_lt (l : List Nat) (n : Nat) (h : n < l.length) :
    l.getD n 0 ∈ l := by
  induction l generalizing n with
  | nil => simp at h
  | cons x t ih =>
    cases n with
    | zero => simp
    | succ m =>
      simp only [List.getD_cons_succ]
      exact List.mem_cons_of_mem x (ih m (by simp at h; omega))

theorem wsInter_nil (gs : List (List Nat)) : wsInter [] gs = gs.flatten := by
  induction gs with
  | nil => rfl
  | cons g rest ih =>
    rw [wsInter]
    show [] ++ g ++ wsInter [] rest = _
    rw [ih]
    simp [List.flatten_cons]

theorem decGroups_lt (l : List Nat) : ∀ c ∈ decGroups l, c < 256 := by
  induction l using decGroups.induct with
  | case1 t1 t2 t3 t4 rest ih =>
    intro c hc
    rw [decGroups] at hc
    simp only [List.mem_cons] at hc
    rcases hc with h | h | h | h
    · omega
    · omega
    · omega
    · exact ih c h
  | case2 r hne =>
    intro c hc
    have hd : decGroups r = [] := by
      rw [decGroups]
      exact hne
    rw [hd] at hc
    simp at hc

theorem chunks4_spec (l : List Nat) (h : 4 ∣ l.length) :
    (∀ g ∈ chunks4 l, g.length = 4 ∧ ∀ c ∈ g, c ∈ l) ∧
    (chunks4 l).flatten = l ∧ (chunks4 l).length = l.length / 4 := by
  induction l using chunks4.induct with
  | case1 => exact ⟨by simp [chunks4], by simp [chunks4], by simp [chunks4]⟩
  | case2 a b c d rest2 ih =>
    have hd : 4 ∣ rest2.length := by
      simp at h
      omega
    obtain ⟨ih1, ih2, ih3⟩ := ih hd
    refine ⟨?_, ?_, ?_⟩
    · intro g hg
      rw [chunks4] at hg
      rcases List.mem_cons.mp hg with h0 | h0
      · subst h0
        refine ⟨rfl, ?_⟩
        intro e he
        simp at he
        simp
        tauto
      · obtain ⟨hl4, hmem⟩ := ih1 g h0
        exact ⟨hl4, fun e he => by simp [hmem e he]⟩
    · rw [chunks4]
      simp only [List.flatten_cons, ih2]
      rfl
    · rw [chunks4]
      simp only [List.length_cons, ih3]
      omega
  | case3 a rest hne =>
    exfalso
    rcases rest with _ | ⟨b, _ | ⟨c, _ | ⟨d, t⟩⟩⟩
    · simp at h
    · simp at h
      omega
    · simp at h
      omega
    · exact hne b c d t rfl

theorem encT_ne61 (url : Bool) : ∀ v, v < 64 → b64EncTable url v ≠ 61 := by
  cases url <;> decide

theorem getD_cons4 (a b c d : Nat) (l : List Nat) (n : Nat) :
    (a :: b :: c :: d :: l).getD (n + 4) 0 = l.getD n 0 := by
  show (a :: b :: c :: d :: l).getD (n + 3 + 1) 0 = l.getD n 0
  rw [List.getD_cons_succ]
  show (b :: c :: d :: l).getD (n + 2 + 1) 0 = l.getD n 0
  rw [List.getD_cons_succ]
  show (c :: d :: l).getD (n + 1 + 1) 0 = l.getD n 0
  rw [List.getD_cons_succ, List.getD_cons_succ]

theorem encBytes_back (url : Bool) (b : List Nat) (hb : b ≠ []) :
    ((encBytes url b).getD ((encBytes url b).length - 1) 0 = 61
      ↔ b.length % 3 ≠ 0) ∧
    ((encBytes url b).getD ((encBytes url b).length - 2) 0 = 61
      ↔ b.length % 3 = 1) := by
  induction b using encBytes.induct url with
  | case1 t1 t2 t3 rest ih =>
    by_cases hrest : rest = []
    · subst hrest
      rw [encBytes, encBytes]
      constructor
      · simp only [List.length_cons, List.length_nil]
        constructor
        · intro h
          exact absurd h (encT_ne61 url _ (encArg4_lt t3))
        · intro h
          simp at h
      · simp only [List.length_cons, List.length_nil]
        constructor
        · intro h
          exact absurd h (encT_ne61 url _ (encArg3_lt t2 t3))
        · intro h
          simp at h
    · have hlen4 : 4 ≤ (encBytes url rest).length := by
        rw [encBytes_length]
        have : 1 ≤ rest.length := by
          cases rest with
          | nil => exact absurd rfl hrest
          | cons x t => simp
        omega
      rw [encBytes]
      have hshape : ∀ k, 1 ≤ k → k ≤ 2 →
          (b64EncTable url ((t1 >>> 2) &&& 63) ::
           b64EncTable url (((t1 &&& 3) <<< 4) ||| ((t2 >>> 4) &&& 15)) ::
           b64EncTable url (((t2 &&& 15) <<< 2) ||| ((t3 >>> 6) &&& 3)) ::
           b64EncTable url (t3 &&& 63) :: encBytes url rest).getD
            ((b64EncTable url ((t1 >>> 2) &&& 63) ::
              b64EncTable url (((t1 &&& 3) <<< 4) ||| ((t2 >>> 4) &&& 15)) ::
              b64EncTable url (((t2 &&& 15) <<< 2) ||| ((t3 >>> 6) &&& 3)) ::
              b64EncTable url (t3 &&& 63) :: encBytes url rest).length - k) 0
          = (encBytes url rest).getD ((encBytes url rest).length - k) 0 := by
        intro k hk1 hk2
        simp only [List.length_cons]
        rw [show (encBytes url rest).length + 1 + 1 + 1 + 1 - k
            = ((encBytes url rest).length - k) + 4 by omega]
        rw [getD_cons4]
      rw [hshape 1 (by omega) (by omega), hshape 2 (by omega) (by omega)]
      have hmod : (t1 :: t2 :: t3 :: rest).length % 3 = rest.length % 3 := by
        simp only [List.length_cons]
        omega
      rw [hmod]
      exact ih hrest
  | case2 t1 t2 =>
    rw [encBytes]
    constructor
    · simp
    · constructor
      · intro h
        simp only [List.length_cons, List.length_nil] at h
        exact absurd h (encT_ne61 url _ (by
          have : t2 &&& 15 < 16 := Nat.lt_succ_of_le (Nat.and_le_right)
          rw [Nat.shiftLeft_eq]
          omega))
      · intro h
        simp at h
  | case3 t1 =>
    rw [encBytes]
    constructor
    · simp
    · simp
  | case4 => exact absurd rfl hb

theorem strip_id (l : List Nat) (hne : l ≠ [])
    (hlast : b64DecTable (l.getD (l.length - 1) 0) ≠ 0) :
    (l.reverse.dropWhile (fun c => b64DecTable c = 0)).reverse = l := by
  rcases hrev : l.reverse with _ | ⟨x, t⟩
  · exact absurd (by simpa using congrArg List.reverse hrev) hne
  · have hl : l = t.reverse ++ [x] := by
      have h2 := congrArg List.reverse hrev
      simpa using h2
    have hx : l.getD (l.length - 1) 0 = x := by
      rw [hl]
      rw [List.getD_append_right _ _ _ _ (by simp)]
      simp
    rw [hx] at hlast
    have hcond : ¬((fun c => decide (b64DecTable c = 0)) x = true) := by
      simp [hlast]
    rw [List.dropWhile_cons, if_neg hcond, hl]
    simp

theorem wsInter_length_ge (ws : List (List Nat)) (g : List Nat)
    (rest : List (List Nat)) (hg : g.length = 4) :
    4 ≤ (wsInter ws (g :: rest)).length := by
  rw [wsInter]
  simp only [List.length_append, hg]
  omega

theorem wsInter_getD_back (k : Nat) (hk1 : 1 ≤ k) (hk4 : k ≤ 4) :
    ∀ (gs ws : List (List Nat)), gs ≠ [] →
      (∀ g ∈ gs, g.length = 4) →
      ws.length ≤ gs.length →
      (wsInter ws gs).getD ((wsInter ws gs).length - k) 0
        = gs.flatten.getD (gs.flatten.length - k) 0 := by
  intro gs
  induction gs with
  | nil => intro ws h; exact absurd rfl h
  | cons g rest ih =>
    intro ws hne hlen hwl
    have hg4 : g.length = 4 := hlen g (by simp)
    cases rest with
    | nil =>
      have hws0 : ws.tail = [] := by
        cases ws with
        | nil => rfl
        | cons w t =>
          simp at hwl
          simpa using hwl
      rw [wsInter, hws0]
      rw [show wsInter [] [] = [] from rfl, List.append_nil]
      have hidx : (ws.headD [] ++ g).length - k
          = (ws.headD []).length + (g.length - k) := by
        simp only [List.length_append]
        omega
      rw [hidx, List.getD_append_right _ _ _ _ (by omega)]
      rw [show (ws.headD []).length + (g.length - k) - (ws.headD []).length
          = g.length - k by omega]
      simp only [List.flatten_cons, List.flatten_nil, List.append_nil]
    | cons g2 rest2 =>
      have hT4 : 4 ≤ (wsInter ws.tail (g2 :: rest2)).length :=
        wsInter_length_ge _ _ _ (hlen g2 (by simp))
      have hF4 : 4 ≤ (g2 :: rest2).flatten.length := by
        simp only [List.flatten_cons, List.length_append,
          hlen g2 (by simp)]
        omega
      rw [wsInter]
      rw [List.append_assoc]
      have hidx : (ws.headD [] ++ (g ++ wsInter ws.tail (g2 :: rest2))).length
          - k = (ws.headD []).length +
            ((g ++ wsInter ws.tail (g2 :: rest2)).length - k) := by
        simp only [List.length_append]
        omega
      rw [hidx, List.getD_append_right _ _ _ _ (by omega)]
      rw [show (ws.headD []).length +
          ((g ++ wsInter ws.tail (g2 :: rest2)).length - k)
          - (ws.headD []).length
          = (g ++ wsInter ws.tail (g2 :: rest2)).length - k by omega]
      have hidx2 : (g ++ wsInter ws.tail (g2 :: rest2)).length - k
          = g.length + ((wsInter ws.tail (g2 :: rest2)).length - k) := by
        simp only [List.length_append]
        omega
      rw [hidx2, List.getD_append_right _ _ _ _ (by omega)]
      rw [show g.length + ((wsInter ws.tail (g2 :: rest2)).length - k)
          - g.length = (wsInter ws.tail (g2 :: rest2)).length - k by omega]
      rw [ih ws.tail (by simp) (fun g3 h3 => hlen g3 (by simp [h3]))
        (by cases ws with
            | nil => simp
            | cons w t => simp at hwl ⊢; omega)]
      have hidx3 : (g ++ (g2 :: rest2).flatten).length - k
          = g.length + ((g2 :: rest2).flatten.length - k) := by
        simp only [List.length_append]
        omega
      conv_rhs => rw [List.flatten_cons]
      rw [hidx3, List.getD_append_right _ _ _ _ (by omega)]
      rw [show g.length + ((g2 :: rest2).flatten.length - k) - g.length
          = (g2 :: rest2).flatten.length - k by omega]

theorem resize_small_upd (sm : List Nat) (n : Nat) (h : n ≤ 46) :
    resize { strInit with small := sm } n =
      ({ strInit with special := n * 4 + 1, small := sm.set n 0 },
       { capa := 46, len := n, data := PtrV.small }) := by
  have key : ∀ r < 47, ((1 &&& 2) ||| (r % 256 * 4) ||| 1) &&& 255 = r * 4 + 1
    := by decide
  rw [resize, if_neg (by simp [StrS.isFrozen, strInit]),
    if_pos (by simp [StrS.isSmall, strInit]),
    if_pos (show n ≤ SMALL_CAPA from h)]
  simp only [smallLenSet, strInit]
  rw [key n (by omega)]
  refine Prod.ext rfl ?_
  show _ = SInfo.mk 46 n PtrV.small
  have hlen : (n * 4 + 1) / 4 = n := by omega
  simp [SMALL_CAPA, hlen]

theorem resize_heap_upd (C : Nat) (B sm : List Nat) (n : Nat) (h : n < C) :
    resize { special := 0, capa := C, len := 0, dealloc := DeallocK.default,
             dataNull := false, gen := 1, buf := B, small := sm } n =
      ({ special := 0, capa := C, len := n, dealloc := DeallocK.default,
         dataNull := false, gen := 1, buf := B.set n 0, small := sm },
       { capa := C, len := n, data := PtrV.heap 1 }) := by
  rw [resize]
  rw [if_neg (by simp [StrS.isFrozen])]
  rw [if_neg (by simp [StrS.isSmall])]
  simp only []
  rw [if_neg (by simp; omega)]

theorem encGroups_length (url : Bool) :
    ∀ (g : Nat) (reader : List Nat), (encGroups url reader g).length = 4 * g
  := by
  intro g
  induction g with
  | zero => intro reader; rfl
  | succ g ih =>
    intro reader
    rw [encGroups]
    simp only [List.length_cons, ih]
    omega

theorem encWrites2_eq (url : Bool) (S : StrS) (p : PtrV) (b : List Nat)
    (h2 : (b.drop (3 * (b.length / 3))).length = 2) :
    bwriteList (bwriteList S p 0 (encGroups url b (b.length / 3))) p
        (0 + 4 * (b.length / 3))
        [b64EncTable url
           (((b.drop (3 * (b.length / 3))).getD 0 0 >>> 2) &&& 63),
         b64EncTable url
           ((((b.drop (3 * (b.length / 3))).getD 0 0 &&& 3) <<< 4) |||
            (((b.drop (3 * (b.length / 3))).getD 1 0 >>> 4) &&& 15)),
         b64EncTable url
           (((b.drop (3 * (b.length / 3))).getD 1 0 &&& 15) <<< 2), 61]
      = bwriteList S p 0 (encBytes url b) := by
  rw [← encGroups_tail_eq url b, bwriteList_append, encGroups_length]
  rw [encTail, if_pos h2]

theorem encWrites1_eq (url : Bool) (S : StrS) (p : PtrV) (b : List Nat)
    (h1 : (b.drop (3 * (b.length / 3))).length = 1) :
    bwriteList (bwriteList S p 0 (encGroups url b (b.length / 3))) p
        (0 + 4 * (b.length / 3))
        [b64EncTable url
           (((b.drop (3 * (b.length / 3))).getD 0 0 >>> 2) &&& 63),
         b64EncTable url
           (((b.drop (3 * (b.length / 3))).getD 0 0 &&& 3) <<< 4), 61, 61]
      = bwriteList S p 0 (encBytes url b) := by
  rw [← encGroups_tail_eq url b, bwriteList_append, encGroups_length]
  rw [encTail, if_neg (by omega), if_pos h1]

theorem encWrites0_eq (url : Bool) (S : StrS) (p : PtrV) (b : List Nat)
    (h0 : (b.drop (3 * (b.length / 3))).length = 0) :
    bwriteList S p 0 (encGroups url b (b.length / 3))
      = bwriteList S p 0 (encBytes url b) := by
  rw [← encGroups_tail_eq url b]
  rw [encTail, if_neg (by omega), if_neg (by omega), List.append_nil]

theorem contents_lstore_small (E : List Nat) (n : Nat) (hn : E.length = n)
    (hlen : n ≤ 46) (hlt : ∀ c ∈ E, c < 256) :
    contents { special := n * 4 + 1, capa := 0, len := 0,
               dealloc := DeallocK.nullPtr, dataNull := true, gen := 0,
               buf := [], small := lstore (List.replicate 47 0) 0 E }
      = E := by
  rw [contents, if_pos (by simp [StrS.isSmall])]
  simp only [StrS.smallLen]
  rw [show (n * 4 + 1) / 4 = n by omega]
  rw [lstore_spec _ _ _ (by simp; omega)]
  rw [mapMod_eq_self E hlt]
  simp only [List.take_zero, List.nil_append]
  exact List.take_left' hn

theorem contents_lstore_heap (E : List Nat) (n C l0 : Nat)
    (hn : E.length = n) (hC : n ≤ C) (hlt : ∀ c ∈ E, c < 256) :
    contents { special := 0, capa := C, len := n, dealloc := DeallocK.default,
               dataNull := false, gen := 1,
               buf := lstore (List.replicate (C + 1) 0) 0 E,
               small := List.replicate 47 0 } = E := by
  rw [contents, if_neg (by simp [StrS.isSmall])]
  simp only []
  rw [lstore_spec _ _ _ (by simp; omega)]
  rw [mapMod_eq_self E hlt]
  simp only [List.take_zero, List.nil_append]
  exact List.take_left' hn

theorem write_b64enc_strInit (url : Bool) (b : List Nat) :
    contents (write_b64enc strInit b url).1 = encBytes url b := by
  by_cases hb0 : b.length = 0
  · have hbe : b = [] := List.length_eq_zero.mp hb0
    subst hbe
    rw [write_b64enc, if_pos (show ([] : List Nat).length = 0 from rfl)]
    rfl
  · have hE : (encBytes url b).length
        = (b.length / 3 + if b.length % 3 ≠ 0 then 1 else 0) * 4 := by
      rw [encBytes_length]
      split <;> omega
    rw [write_b64enc, if_neg hb0]
    simp only []
    rw [show strLen strInit = 0 from rfl]
    rw [show b.length - b.length / 3 * 3 = b.length % 3 by omega]
    rw [Nat.zero_add]
    by_cases hsz : (b.length / 3 + if b.length % 3 ≠ 0 then 1 else 0) * 4 ≤ 46
    · rw [resize_strInit_small _ hsz]
      simp only []
      rw [b64encLoop_eq]
      simp only []
      by_cases h2 : b.length % 3 = 2
      · rw [if_pos h2]
        rw [encWrites2_eq url _ _ _ (by rw [List.length_drop]; omega)]
        rw [bwriteList_small_eq]
        simp only []
        exact contents_lstore_small _ _ (by rw [← hE]) hsz (encBytes_lt url b)
      · rw [if_neg h2]
        by_cases h1 : b.length % 3 = 1
        · rw [if_pos h1]
          rw [encWrites1_eq url _ _ _ (by rw [List.length_drop]; omega)]
          rw [bwriteList_small_eq]
          simp only []
          exact contents_lstore_small _ _ (by rw [← hE]) hsz
            (encBytes_lt url b)
        · rw [if_neg h1]
          rw [encWrites0_eq url _ _ _ (by rw [List.length_drop]; omega)]
          rw [bwriteList_small_eq]
          simp only []
          exact contents_lstore_small _ _ (by rw [← hE]) hsz
            (encBytes_lt url b)
    · have hge := capa2words_ge
        ((b.length / 3 + if b.length % 3 ≠ 0 then 1 else 0) * 4)
      rw [resize_strInit_large _ (by omega)]
      simp only []
      rw [b64encLoop_eq]
      simp only []
      by_cases h2 : b.length % 3 = 2
      · rw [if_pos h2]
        rw [encWrites2_eq url _ _ _ (by rw [List.length_drop]; omega)]
        rw [bwriteList_heap_eq]
        simp only []
        exact contents_lstore_heap _ _ _ 0 (by rw [← hE]) (by omega)
          (encBytes_lt url b)
      · rw [if_neg h2]
        by_cases h1 : b.length % 3 = 1
        · rw [if_pos h1]
          rw [encWrites1_eq url _ _ _ (by rw [List.length_drop]; omega)]
          rw [bwriteList_heap_eq]
          simp only []
          exact contents_lstore_heap _ _ _ 0 (by rw [← hE]) (by omega)
            (encBytes_lt url b)
        · rw [if_neg h1]
          rw [encWrites0_eq url _ _ _ (by rw [List.length_drop]; omega)]
          rw [bwriteList_heap_eq]
          simp only []
          exact contents_lstore_heap _ _ _ 0 (by rw [← hE]) (by omega)
            (encBytes_lt url b)

theorem contents_dec_small (DG : List Nat) (n : Nat) (hdg : DG.length ≤ 46)
    (hn : n ≤ DG.length) (hlt : ∀ c ∈ DG, c < 256) :
    contents { special := n * 4 + 1, capa := 0, len := 0,
               dealloc := DeallocK.nullPtr, dataNull := true, gen := 0,
               buf := [],
               small := (lstore (List.replicate 47 0) 0 DG).set n 0 }
      = DG.take n := by
  rw [contents, if_pos (by simp [StrS.isSmall])]
  simp only [StrS.smallLen]
  rw [show (n * 4 + 1) / 4 = n by omega]
  rw [take_set_self]
  rw [lstore_spec _ _ _ (by simp; omega)]
  rw [mapMod_eq_self DG hlt]
  simp only [List.take_zero, List.nil_append]
  rw [List.take_append_of_le_length hn]

theorem contents_dec_heap (DG : List Nat) (n C : Nat) (hdg : DG.length ≤ C)
    (hn : n ≤ DG.length) (hlt : ∀ c ∈ DG, c < 256) :
    contents { special := 0, capa := C, len := n,
               dealloc := DeallocK.default, dataNull := false, gen := 1,
               buf := (lstore (List.replicate (C + 1) 0) 0 DG).set n 0,
               small := List.replicate 47 0 }
      = DG.take n := by
  rw [contents, if_neg (by simp [StrS.isSmall])]
  simp only []
  rw [take_set_self]
  rw [lstore_spec _ _ _ (by simp; omega)]
  rw [mapMod_eq_self DG hlt]
  simp only [List.take_zero, List.nil_append]
  rw [List.take_append_of_le_length hn]

theorem flatten_le_wsInter_length (ws gs : List (List Nat)) :
    gs.flatten.length ≤ (wsInter ws gs).length := by
  induction gs generalizing ws with
  | nil => simp
  | cons g rest ih =>
    rw [wsInter, List.flatten_cons]
    simp only [List.length_append]
    have := ih ws.tail
    omega

theorem reserve_strInit_lit (n : Nat) (h : n ≤ 46) :
    reserve strInit n =
      ({ special := 1, capa := 0, len := 0, dealloc := DeallocK.nullPtr,
         dataNull := true, gen := 0, buf := [],
         small := List.replicate 47 0 },
       { capa := 46, len := 0, data := PtrV.small }) := by
  rw [reserve_strInit_small _ h]
  rfl

theorem resize_small_lit (sm : List Nat) (n : Nat) (h : n ≤ 46) :
    resize { special := 1, capa := 0, len := 0, dealloc := DeallocK.nullPtr,
             dataNull := true, gen := 0, buf := [], small := sm } n =
      ({ special := n * 4 + 1, capa := 0, len := 0,
         dealloc := DeallocK.nullPtr, dataNull := true, gen := 0, buf := [],
         small := sm.set n 0 },
       { capa := 46, len := n, data := PtrV.small }) := by
  have key : ∀ r < 47, ((1 &&& 2) ||| (r % 256 * 4) ||| 1) &&& 255 = r * 4 + 1
    := by decide
  rw [resize, if_neg (by simp [StrS.isFrozen]),
    if_pos (by simp [StrS.isSmall]),
    if_pos (show n ≤ SMALL_CAPA from h)]
  simp only [smallLenSet]
  rw [key n (by omega)]
  refine Prod.ext rfl ?_
  show _ = SInfo.mk 46 n PtrV.small
  have hlen : (n * 4 + 1) / 4 = n := by omega
  simp [SMALL_CAPA, hlen]

theorem dec_endgame (b DG : List Nat) (M : Nat)
    (hdglt : ∀ c ∈ DG, c < 256)
    (hble : b.length ≤ DG.length)
    (hMg : DG.length + 3 ≤ M)
    (htake : DG.take b.length = b) :
    contents (resize (bwriteList (reserve strInit M).1
      (reserve strInit M).2.data 0 DG) b.length).1 = b := by
  by_cases hsz : M ≤ 46
  · rw [reserve_strInit_lit _ hsz]
    simp only []
    rw [bwriteList_small_eq]
    simp only []
    rw [resize_small_lit _ _ (by omega)]
    simp only []
    rw [contents_dec_small _ _ (by omega) hble hdglt]
    exact htake
  · rw [reserve_strInit_large _ (by omega)]
    simp only []
    rw [bwriteList_heap_eq]
    simp only []
    rw [resize_heap_upd _ _ _ _ (by have := capa2words_ge M; omega)]
    simp only []
    rw [contents_dec_heap _ _ _ (by have := capa2words_ge M; omega) hble
      hdglt]
    exact htake

theorem write_b64dec_wsenc (url : Bool) (b : List Nat)
    (hb : ∀ x ∈ b, x < 256) (ws : List (List Nat))
    (hw : ∀ r ∈ ws, ∀ c ∈ r, isspace c = true)
    (hwl : ws.length ≤ (chunks4 (encBytes url b)).length) (oob : Nat → Nat) :
    contents (write_b64dec strInit
      (wsInter ws (chunks4 (encBytes url b))) oob).1 = b := by
  by_cases hb0 : b.length = 0
  · have hbe : b = [] := List.length_eq_zero.mp hb0
    subst hbe
    have hws : ws = [] := by
      rw [show chunks4 (encBytes url []) = [] from rfl] at hwl
      simpa using hwl
    subst hws
    rw [show wsInter [] (chunks4 (encBytes url [])) = [] from rfl]
    rw [write_b64dec, if_pos (show ([] : List Nat).length = 0 from rfl)]
    rfl
  · have hbne : b ≠ [] := fun h => hb0 (by rw [h]; rfl)
    have hElen : (encBytes url b).length = 4 * ((b.length + 2) / 3) :=
      encBytes_length url b
    have hEne : encBytes url b ≠ [] := by
      intro h
      rw [h] at hElen
      simp at hElen
      omega
    have hdvd : 4 ∣ (encBytes url b).length := ⟨(b.length + 2) / 3, hElen⟩
    obtain ⟨hch1, hflat, hcnt⟩ := chunks4_spec (encBytes url b) hdvd
    have hg4 : ∀ g ∈ chunks4 (encBytes url b), g.length = 4 :=
      fun g hg => (hch1 g hg).1
    have hG : ∀ g ∈ chunks4 (encBytes url b), g.length = 4 ∧
        ∀ c ∈ g, b64DecTable c ≠ 0 ∧ isspace c = false := by
      intro g hg
      exact ⟨(hch1 g hg).1,
        fun c hc => encBytes_clean url b c ((hch1 g hg).2 c hc)⟩
    have hgsne : chunks4 (encBytes url b) ≠ [] := by
      intro h
      rw [h] at hflat
      exact hEne hflat.symm
    have h4I : 4 ≤ (wsInter ws (chunks4 (encBytes url b))).length := by
      rcases hgs : chunks4 (encBytes url b) with _ | ⟨g0, r0⟩
      · exact absurd hgs hgsne
      · exact hgs ▸ wsInter_length_ge ws g0 r0 (hg4 g0 (by rw [hgs]; simp))
    have hflen : (encBytes url b).length
        ≤ (wsInter ws (chunks4 (encBytes url b))).length := by
      have h0 := flatten_le_wsInter_length ws (chunks4 (encBytes url b))
      rw [hflat] at h0
      exact h0
    have hback1 := wsInter_getD_back 1 (by omega) (by omega)
      (chunks4 (encBytes url b)) ws hgsne hg4 hwl
    have hback2 := wsInter_getD_back 2 (by omega) (by omega)
      (chunks4 (encBytes url b)) ws hgsne hg4 hwl
    rw [hflat] at hback1 hback2
    have hItbl : b64DecTable
        ((wsInter ws (chunks4 (encBytes url b))).getD
          ((wsInter ws (chunks4 (encBytes url b))).length - 1) 0) ≠ 0 := by
      rw [hback1]
      exact (encBytes_clean url b _ (getD_mem_of_lt _ _ (by omega))).1
    have hIne : wsInter ws (chunks4 (encBytes url b)) ≠ [] := by
      intro h
      rw [h] at h4I
      simp at h4I
    have hdg : decGroups (encBytes url b) = b ++ decPad (b.length % 3) :=
      dec_enc url b hb
    have hdglen : (decGroups (encBytes url b)).length
        = 3 * ((b.length + 2) / 3) := by
      rw [hdg]
      simp only [List.length_append, decPad]
      split
      · simp
        omega
      · split
        · simp
          omega
        · simp
          omega
    have hdglt : ∀ c ∈ decGroups (encBytes url b), c < 256 :=
      decGroups_lt (encBytes url b)
    have hble : b.length ≤ (decGroups (encBytes url b)).length := by
      rw [hdglen]
      omega
    have htake : (decGroups (encBytes url b)).take b.length = b := by
      rw [hdg]
      exact List.take_left b _
    have hEb := encBytes_back url b hbne
    rw [write_b64dec, if_neg (by omega)]
    simp only []
    rw [strip_id _ hIne hItbl]
    rw [show strLen strInit = 0 from rfl]
    simp only [Nat.zero_add]
    rw [b64decLoop_groups _ _ _ ws _ 0 0 hG hw hwl (le_refl _)]
    simp only [Nat.zero_add]
    rw [hflat]
    rw [List.dropWhile_nil]
    rw [if_neg (by decide), if_neg (by decide), if_neg (by decide)]
    simp only []
    have h1le : (1 : Nat) ≤ (wsInter ws (chunks4 (encBytes url b))).length
      := by omega
    have h2le : (2 : Nat) ≤ (wsInter ws (chunks4 (encBytes url b))).length
      := by omega
    simp only [if_pos h1le, if_pos h2le, hback1, hback2]
    by_cases hmd0 : b.length % 3 = 0
    · rw [if_neg (fun hcon => (hEb.1.mp hcon) hmd0)]
      rw [show ((3 * (chunks4 (encBytes url b)).length : Nat) : Int).toNat
          = b.length by rw [hcnt, hElen]; omega]
      exact dec_endgame b _ _ hdglt hble (by rw [hdglen]; omega) htake
    · rw [if_pos (hEb.1.mpr hmd0)]
      by_cases hmd1 : b.length % 3 = 1
      · rw [if_pos (hEb.2.mpr hmd1)]
        rw [if_neg (show ¬(((3 * (chunks4 (encBytes url b)).length : Nat) :
            Int) - 1 - 1 < 0) by rw [hcnt, hElen]; omega)]
        rw [show (((3 * (chunks4 (encBytes url b)).length : Nat) : Int)
            - 1 - 1).toNat = b.length by rw [hcnt, hElen]; omega]
        exact dec_endgame b _ _ hdglt hble (by rw [hdglen]; omega) htake
      · rw [if_neg (fun hcon => absurd (hEb.2.mp hcon) hmd1)]
        rw [if_neg (show ¬(((3 * (chunks4 (encBytes url b)).length : Nat) :
            Int) - 1 < 0) by rw [hcnt, hElen]; omega)]
        rw [show (((3 * (chunks4 (encBytes url b)).length : Nat) : Int)
            - 1).toNat = b.length by rw [hcnt, hElen]; omega]
        exact dec_endgame b _ _ hdglt hble (by rw [hdglen]; omega) htake

/-- C6: for every byte sequence b, appending the Base64 encoding of b (with
either alphabet) to an empty string and then decoding that encoded text with
write_b64dec into another empty string yields exactly b; `oob` is the
(irrelevant) content of the memory preceding the decoder's input buffer. -/
theorem C6_b64_roundtrip (url : Bool) (b : List Nat)
    (hb : ∀ x ∈ b, x < 256) (oob : Nat → Nat) :
    contents (write_b64dec strInit
      (contents (write_b64enc strInit b url).1) oob).1 = b := by
  rw [write_b64enc_strInit]
  have h := write_b64dec_wsenc url b hb [] (by simp) (by simp) oob
  rw [wsInter_nil,
    (chunks4_spec _ ⟨(b.length + 2) / 3, encBytes_length url b⟩).2.1] at h
  exact h

/-- C6 witness: the round trip at the concrete input "hi!". -/
theorem C6_b64_roundtrip_witness :
    (∀ x ∈ [104, 105, 33], x < 256) ∧
    contents (write_b64dec strInit
      (contents (write_b64enc strInit [104, 105, 33] false).1)
      (fun _ => 0)).1 = [104, 105, 33] :=
  ⟨by decide, C6_b64_roundtrip false [104, 105, 33] (by decide) (fun _ => 0)⟩

/-- C7: the claim as stated is false in two ways.  Whitespace interleaved
inside a four-byte group makes the decoder fail: "Y Q==" (a whitespace
inside the valid padded encoding "YQ==" of the byte 97) returns the null
info and decodes nothing.  And without '=' padding the tail path uses the
wrong shift ('>> 6' instead of '>> 4'): "/w" (the encoding of the byte 255
with its padding stripped) decodes to [252, 0] instead of [255]. -/
theorem C7_counterexample :
    ((write_b64dec strInit [89, 32, 81, 61, 61] (fun _ => 0)).2 = nullInfo ∧
     contents (write_b64dec strInit [89, 32, 81, 61, 61] (fun _ => 0)).1
       ≠ [97]) ∧
    contents (write_b64dec strInit [47, 119] (fun _ => 0)).1 ≠ [255] := by
  refine ⟨⟨?_, ?_⟩, ?_⟩ <;> decide

/-- C7 (amended): for every byte sequence b and every interleaving of
whitespace runs at the four-byte group boundaries of a padded Base64
encoding of b (standard or URL-safe), write_b64dec decodes the
whitespace-interleaved text back to exactly b. -/
theorem C7_ws_b64dec (url : Bool) (b : List Nat) (hb : ∀ x ∈ b, x < 256)
    (ws : List (List Nat)) (hw : ∀ r ∈ ws, ∀ c ∈ r, isspace c = true)
    (hwl : ws.length ≤ (chunks4 (encBytes url b)).length) (oob : Nat → Nat) :
    contents (write_b64dec strInit
      (wsInter ws (chunks4 (encBytes url b))) oob).1 = b :=
  write_b64dec_wsenc url b hb ws hw hwl oob

/-- C7 witness: "abcd" with a space run before each of its two groups. -/
theorem C7_ws_b64dec_witness :
    (∀ x ∈ [97, 98, 99, 100], x < 256) ∧
    (∀ r ∈ [[32], [9, 32]], ∀ c ∈ r, isspace c = true) ∧
    ([[32], [9, 32]] : List (List Nat)).length
      ≤ (chunks4 (encBytes false [97, 98, 99, 100])).length ∧
    contents (write_b64dec strInit
      (wsInter [[32], [9, 32]] (chunks4 (encBytes false [97, 98, 99, 100])))
      (fun _ => 0)).1 = [97, 98, 99, 100] :=
  ⟨by decide, by decide, by decide,
   C7_ws_b64dec false [97, 98, 99, 100] (by decide) [[32], [9, 32]]
     (by decide) (by decide) (fun _ => 0)⟩

theorem strLen_eq_info_len (s : StrS) : strLen s = s.info.len := by
  rw [strLen, StrS.info]
  split <;> rfl

theorem strLen_reserve (s : StrS) (n : Nat) :
    strLen (reserve s n).1 = strLen s := by
  rw [reserve]
  split
  · rfl
  · split
    · rename_i hsm
      rw [StrS.isSmall] at hsm
      simp only [Bool.or_eq_true, decide_eq_true_eq] at hsm
      split
      · rfl
      · simp [strLen, StrS.isSmall, StrS.smallLen, hsm]
    · rename_i hsm
      rw [StrS.isSmall] at hsm
      simp only [Bool.or_eq_true, decide_eq_true_eq, not_or] at hsm
      obtain ⟨h1, h2⟩ := hsm
      have h2f : s.dataNull = false := by
        rw [Bool.eq_false_iff]
        exact h2
      split
      · rfl
      · split
        · simp [strLen, StrS.isSmall, h1, h2f]
        · simp [strLen, StrS.isSmall, h1, h2f]

theorem resize_ne_nullInfo (s : StrS) (n : Nat) :
    (resize s n).2 ≠ nullInfo := by
  rw [resize]
  split
  · exact info_ne_nullInfo s
  · split
    · split
      · intro h
        exact PtrV.noConfusion (congrArg SInfo.data h)
      · intro h
        exact PtrV.noConfusion (congrArg SInfo.data h)
    · intro h
      exact PtrV.noConfusion (congrArg SInfo.data h)

theorem b64decLoop_strLen (p : PtrV) (fuel : Nat) (rem : List Nat)
    (s : StrS) (wpos written : Nat) :
    strLen (b64decLoop s p fuel rem wpos written).1 = strLen s := by
  rw [strLen_eq_info_len, strLen_eq_info_len,
    (b64decLoop_info p fuel rem s wpos written).1]

theorem b64decLoop_scan (p : PtrV) : ∀ fuel (rem : List Nat) (s : StrS)
    (wpos written : Nat), rem.length ≤ fuel →
    (match (b64decLoop s p fuel rem wpos written).2 with
     | none => specBadScan rem fuel = true
     | some (r1, _, _) =>
        specBadScan rem fuel
          = (r1.dropWhile (fun c => isspace c)).any
              (fun c => b64DecTable c = 0)
        ∧ r1.length < 4) := by
  intro fuel
  induction fuel with
  | zero =>
    intro rem s wpos written hle
    have hr : rem = [] := List.length_eq_zero.mp (by omega)
    subst hr
    rw [b64decLoop_nil]
    simp only []
    exact ⟨rfl, by omega⟩
  | succ f ih =>
    intro rem s wpos written hle
    rw [b64decLoop, specBadScan]
    by_cases h4 : rem.length ≥ 4
    · rw [if_pos h4, if_pos h4]
      by_cases hws0 : isspace (rem.getD 0 0)
      · rw [if_pos hws0, if_pos hws0]
        refine ih (rem.dropWhile (fun c => isspace c)) s wpos written ?_
        rcases rem with _ | ⟨x, t⟩
        · simp at h4
        · rw [List.dropWhile_cons,
            if_pos (by simpa using hws0)]
          have := (@List.dropWhile_sublist _ t (fun c => isspace c)).length_le
          simp at hle
          omega
      · rw [if_neg hws0, if_neg hws0]
        simp only []
        by_cases hbad : b64DecTable (rem.getD 0 0) = 0 ∨
            b64DecTable (rem.getD 1 0) = 0 ∨ b64DecTable (rem.getD 2 0) = 0 ∨
            b64DecTable (rem.getD 3 0) = 0
        · rw [if_pos hbad, if_pos hbad]
        · rw [if_neg hbad, if_neg hbad]
          refine ih (rem.drop 4) _ _ _ ?_
          simp only [List.length_drop]
          omega
    · rw [if_neg h4, if_neg h4]
      simp only []
      exact ⟨by trivial, by omega⟩

/-- C10: the claim as stated is false — ',' (byte 44) is neither a byte of
the standard or URL-safe Base64 alphabets, nor '=', nor whitespace, yet the
decoder accepts it (the lookup table also maps the legacy "+," alphabet),
so decoding ",AAA" succeeds instead of returning the null info. -/
theorem C10_counterexample :
    (write_b64dec strInit [44, 65, 65, 65] (fun _ => 0)).2 ≠ nullInfo := by
  decide

/-- C10 (amended): write_b64dec fails — returns the
`{ data := NULL, len := 0, capa := 0 }` info — exactly when, after stripping
the trailing run of bytes with a zero decode-table entry, some group byte
(or final 1-3 byte tail byte) scanned before whitespace-skipping has a zero
decode-table entry (the accepted set being the two Base64 alphabets plus
',' and '='); and on that failure path the destination string's logical
length is unchanged (resize is never invoked). -/
theorem C10_b64dec_invalid (s : StrS) (encoded : List Nat)
    (oob : Nat → Nat) :
    ((write_b64dec s encoded oob).2 = nullInfo
      ↔ specBadB64 encoded = true) ∧
    (specBadB64 encoded = true →
      strLen (write_b64dec s encoded oob).1 = strLen s) := by
  rw [write_b64dec, specBadB64]
  simp only []
  split
  · rename_i h0
    have he : encoded = [] := List.length_eq_zero.mp h0
    subst he
    constructor
    · constructor
      · intro h
        exact absurd h (info_ne_nullInfo s)
      · intro h
        exact absurd h (by decide)
    · intro h
      rfl
  · rename_i h0
    generalize hE : (encoded.reverse.dropWhile
      (fun c => b64DecTable c = 0)).reverse = enc
    generalize hst : reserve s (strLen s + enc.length / 4 * 3 + 3) = st
    have hstl : strLen st.1 = strLen s := by
      rw [← hst]
      exact strLen_reserve s _
    have hscan := b64decLoop_scan st.2.data enc.length enc st.1
      (strLen s) 0 (le_refl _)
    have hsl := b64decLoop_strLen st.2.data enc.length enc st.1 (strLen s) 0
    rcases hloop : b64decLoop st.1 st.2.data enc.length enc (strLen s) 0
      with ⟨s1, r⟩
    rw [hloop] at hscan hsl
    rcases r with _ | ⟨r1, w1, wr1⟩
    · simp only [] at hscan hsl
      simp only []
      exact ⟨iff_of_true rfl hscan, fun _ => hsl.trans hstl⟩
    · simp only [] at hscan hsl
      simp only []
      obtain ⟨hscan1, hr1len⟩ := hscan
      have hr2le := (@List.dropWhile_sublist _ r1
        (fun c => isspace c)).length_le
      rcases hr2 : r1.dropWhile (fun c => isspace c)
        with _ | ⟨t1, _ | ⟨t2, _ | ⟨t3, _ | ⟨t4, rest⟩⟩⟩⟩
      · rw [hr2] at hscan1
        rw [if_neg (show ¬(([] : List Nat).length = 1) by simp),
          if_neg (show ¬(([] : List Nat).length = 2) by simp),
          if_neg (show ¬(([] : List Nat).length = 3) by simp)]
        simp only []
        refine ⟨iff_of_false (resize_ne_nullInfo _ _) ?_, fun h => ?_⟩
        · rw [hscan1]
          simp
        · rw [hscan1] at h
          simp at h
      · rw [hr2] at hscan1
        rw [if_pos (show [t1].length = 1 from rfl)]
        simp only [List.getD_cons_zero, List.getD_cons_succ]
        by_cases ht1 : b64DecTable t1 = 0
        · rw [if_pos ht1]
          simp only []
          refine ⟨iff_of_true rfl ?_, fun _ => hsl.trans hstl⟩
          rw [hscan1]
          simp [ht1]
        · rw [if_neg ht1]
          simp only []
          refine ⟨iff_of_false (resize_ne_nullInfo _ _) ?_, fun h => ?_⟩
          · rw [hscan1]
            simp [ht1]
          · rw [hscan1] at h
            simp [ht1] at h
      · rw [hr2] at hscan1
        rw [if_neg (show ¬([t1, t2].length = 1) by simp),
          if_pos (show [t1, t2].length = 2 from rfl)]
        simp only [List.getD_cons_zero, List.getD_cons_succ]
        by_cases hbad : b64DecTable t1 = 0 ∨ b64DecTable t2 = 0
        · rw [if_pos hbad]
          simp only []
          refine ⟨iff_of_true rfl ?_, fun _ => hsl.trans hstl⟩
          rw [hscan1]
          simp only [List.any_cons, List.any_nil, Bool.or_false,
            Bool.or_eq_true, decide_eq_true_eq]
          exact hbad
        · rw [if_neg hbad]
          simp only []
          refine ⟨iff_of_false (resize_ne_nullInfo _ _) ?_, fun h => ?_⟩
          · rw [hscan1]
            simp only [List.any_cons, List.any_nil, Bool.or_false,
              Bool.or_eq_true, decide_eq_true_eq]
            exact hbad
          · rw [hscan1] at h
            simp only [List.any_cons, List.any_nil, Bool.or_false,
              Bool.or_eq_true, decide_eq_true_eq] at h
            exact absurd h hbad
      · rw [hr2] at hscan1
        rw [if_neg (show ¬([t1, t2, t3].length = 1) by simp),
          if_neg (show ¬([t1, t2, t3].length = 2) by simp),
          if_pos (show [t1, t2, t3].length = 3 from rfl)]
        simp only [List.getD_cons_zero, List.getD_cons_succ]
        by_cases hbad : b64DecTable t1 = 0 ∨ b64DecTable t2 = 0 ∨
            b64DecTable t3 = 0
        · rw [if_pos hbad]
          simp only []
          refine ⟨iff_of_true rfl ?_, fun _ => hsl.trans hstl⟩
          rw [hscan1]
          simp only [List.any_cons, List.any_nil, Bool.or_false,
            Bool.or_eq_true, decide_eq_true_eq]
          tauto
        · rw [if_neg hbad]
          simp only []
          refine ⟨iff_of_false (resize_ne_nullInfo _ _) ?_, fun h => ?_⟩
          · rw [hscan1]
            simp only [List.any_cons, List.any_nil, Bool.or_false,
              Bool.or_eq_true, decide_eq_true_eq]
            tauto
          · rw [hscan1] at h
            simp only [List.any_cons, List.any_nil, Bool.or_false,
              Bool.or_eq_true, decide_eq_true_eq] at h
            tauto
      · exfalso
        have hlen := congrArg List.length hr2
        simp at hlen
        omega

/-- C10 witness: a failing input (the '!' byte has a zero table entry) and
the concrete failure iff at it. -/
theorem C10_b64dec_invalid_witness :
    specBadB64 [33, 65, 65, 65] = true ∧
    ((write_b64dec strInit [33, 65, 65, 65] (fun _ => 0)).2 = nullInfo
      ↔ specBadB64 [33, 65, 65, 65] = true) ∧
    strLen (write_b64dec strInit [33, 65, 65, 65] (fun _ => 0)).1
      = strLen strInit :=
  ⟨by decide,
   (C10_b64dec_invalid strInit [33, 65, 65, 65] (fun _ => 0)).1,
   (C10_b64dec_invalid strInit [33, 65, 65, 65] (fun _ => 0)).2 (by decide)⟩

/- ************************************************************************
   The probe loop's attack counter and flag.
   ************************************************************************ -/

theorem seekLoop_attack_persist (key hash mask : Nat) :
    ∀ (rem : Nat) (m : MapS) (pos counter : Nat), m.under_attack = 1 →
      (seekLoop key hash mask m pos counter rem).1.under_attack = 1 := by
  intro rem
  induction rem with
  | zero => intro m pos counter h; exact h
  | succ rem ih =>
    intro m pos counter h
    rw [seekLoop]
    simp only []
    split
    · exact h
    · split
      · rw [if_pos (Or.inr (Or.inl (by omega)))]
        exact h
      · exact ih m _ counter h

theorem seekLoop_attack_cross (key hash mask : Nat) :
    ∀ (rem : Nat) (m : MapS) (pos counter : Nat),
      counter < MAX_FULL_COLLISIONS →
      (seekLoop key hash mask m pos counter rem).2.2 ≥ MAX_FULL_COLLISIONS →
      (seekLoop key hash mask m pos counter rem).1.under_attack = 1 := by
  intro rem
  induction rem with
  | zero =>
    intro m pos counter hlt hge
    rw [seekLoop] at hge
    simp only [] at hge
    exact absurd hge (by omega)
  | succ rem ih =>
    intro m pos counter hlt hge
    rw [seekLoop] at hge ⊢
    simp only [] at hge ⊢
    by_cases h1 : (m.map pos).hash = 0
    · rw [if_pos h1] at hge ⊢
      simp only [] at hge
      exact absurd hge (by omega)
    · rw [if_neg h1] at hge ⊢
      by_cases h2 : (m.map pos).hash = hash
      · rw [if_pos h2] at hge ⊢
        by_cases h3 : (m.map pos).next = U32NIL ∨ m.under_attack ≠ 0 ∨
            (m.map pos).key = key
        · rw [if_pos h3] at hge ⊢
          simp only [] at hge
          exact absurd hge (by omega)
        · rw [if_neg h3] at hge ⊢
          by_cases h4 : counter + 1 ≥ MAX_FULL_COLLISIONS
          · rw [if_pos h4] at hge ⊢
            exact seekLoop_attack_persist key hash mask rem _ _ _ rfl
          · rw [if_neg h4] at hge ⊢
            exact ih _ _ _ (by omega) hge
      · rw [if_neg h2] at hge ⊢
        exact ih _ _ _ hlt hge

theorem seekLoop_key_indep (hash mask : Nat) :
    ∀ (rem : Nat) (m : MapS) (pos counter : Nat), m.under_attack ≠ 0 →
      ∀ key1 key2, seekLoop key1 hash mask m pos counter rem
        = seekLoop key2 hash mask m pos counter rem := by
  intro rem
  induction rem with
  | zero => intro m pos counter ha key1 key2; rfl
  | succ rem ih =>
    intro m pos counter ha key1 key2
    rw [seekLoop, seekLoop]
    simp only []
    by_cases h1 : (m.map pos).hash = 0
    · rw [if_pos h1, if_pos h1]
    · rw [if_neg h1, if_neg h1]
      by_cases h2 : (m.map pos).hash = hash
      · rw [if_pos h2, if_pos h2]
        rw [if_pos (Or.inr (Or.inl ha)), if_pos (Or.inr (Or.inl ha))]
      · rw [if_neg h2, if_neg h2]
        exact ih m _ counter ha key1 key2

/-- C1: the claim as stated is false — the threshold is
FIO_MAP_MAX_FULL_COLLISIONS = 96, not 11.  Probing the 16-slot map `CEmap`
(every slot holding the same full hash with a different key) for an absent
key meets 16 ≥ 11 full-hash collisions with non-matching keys, yet the
map's under_attack flag stays 0. -/
theorem C1_counterexample :
    (findSeek CEmap 1 5).2.2 ≥ 11 ∧
    (findSeek CEmap 1 5).1.under_attack = 0 := by
  decide

/-- C1 (amended): along a single probe sequence, once at least 96 slots
with the searched full hash but non-matching keys have been encountered,
under_attack is set to 1; and when under_attack is nonzero, the probe is
key-independent, i.e. full-hash equality is treated as key equality. -/
theorem C1_attack_threshold (m : MapS) (key hash : Nat) :
    ((findSeek m key hash).2.2 ≥ MAX_FULL_COLLISIONS →
      (findSeek m key hash).1.under_attack = 1) ∧
    (m.under_attack ≠ 0 → ∀ key2,
      findSeek m key hash = findSeek m key2 hash) := by
  constructor
  · intro hge
    rw [findSeek] at hge ⊢
    simp only [] at hge ⊢
    by_cases hnull : m.mapNull = true
    · rw [if_pos hnull] at hge ⊢
      simp only [] at hge
      exact absurd hge (by simp [MAX_FULL_COLLISIONS])
    · rw [if_neg hnull] at hge ⊢
      exact seekLoop_attack_cross _ _ _ _ _ _ _
        (by simp [MAX_FULL_COLLISIONS]) hge
  · intro ha key2
    rw [findSeek, findSeek]
    simp only []
    by_cases hnull : m.mapNull = true
    · rw [if_pos hnull, if_pos hnull]
    · rw [if_neg hnull, if_neg hnull]
      exact seekLoop_key_indep _ _ _ m _ _ ha key key2

/-- C1 witness: probing `Wmap` (97 same-hash slots along the probe path of
hash 1) for an absent key drives the collision counter to 96 and the
amended theorem yields under_attack = 1. -/
theorem C1_attack_threshold_witness :
    (findSeek Wmap 3 1).2.2 ≥ MAX_FULL_COLLISIONS ∧
    (findSeek Wmap 3 1).1.under_attack = 1 :=
  ⟨by decide, (C1_attack_threshold Wmap 3 1).1 (by decide)⟩

/- ************************************************************************
   The JSON parser's depth cap.
   ************************************************************************ -/

theorem identify_depth (o : NumOracle) (p : JParser) (src : List Nat)
    (pos : Nat) (h : p.depth ≤ JSON_MAX_DEPTH) :
    (identify o p src pos).1.depth ≤ JSON_MAX_DEPTH := by
  rw [identify]
  dsimp only []
  by_cases h1 : src.getD pos 0 = 9 ∨ src.getD pos 0 = 10 ∨
      src.getD pos 0 = 13 ∨ src.getD pos 0 = 32
  · rw [if_pos h1]
    exact h
  · rw [if_neg h1]
    by_cases h2 : src.getD pos 0 = 44
    · rw [if_pos h2]
      repeat' split
      all_goals first
        | omega
        | (simp only []; omega)
    · rw [if_neg h2]
      by_cases h3 : src.getD pos 0 = 58
      · rw [if_pos h3]
        repeat' split
        all_goals first
          | omega
          | (simp only []; omega)
      · rw [if_neg h3]
        by_cases h4 : src.getD pos 0 = 34
        · rw [if_pos h4]
          repeat' split
          all_goals first
            | omega
            | (simp only []; omega)
        · rw [if_neg h4]
          by_cases h5 : src.getD pos 0 = 123
          · rw [if_pos h5]
            repeat' split
            all_goals first
              | omega
              | (simp only []; omega)
          · rw [if_neg h5]
            by_cases h6 : src.getD pos 0 = 125
            · rw [if_pos h6]
              repeat' split
              all_goals first
                | omega
                | (simp only []; omega)
            · rw [if_neg h6]
              by_cases h7 : src.getD pos 0 = 91
              · rw [if_pos h7]
                repeat' split
                all_goals first
                  | omega
                  | (simp only []; omega)
              · rw [if_neg h7]
                by_cases h8 : src.getD pos 0 = 93
                · rw [if_pos h8]
                  repeat' split
                  all_goals first
                    | omega
                    | (simp only []; omega)
                · rw [if_neg h8]
                  by_cases h9 : src.getD pos 0 = 78 ∨ src.getD pos 0 = 110
                  · rw [if_pos h9]
                    repeat' split
                    all_goals first
                      | omega
                      | (simp only []; omega)
                  · rw [if_neg h9]
                    by_cases h10 : src.getD pos 0 = 116
                    · rw [if_pos h10]
                      repeat' split
                      all_goals first
                        | omega
                        | (simp only []; omega)
                    · rw [if_neg h10]
                      by_cases h11 : src.getD pos 0 = 102
                      · rw [if_pos h11]
                        repeat' split
                        all_goals first
                          | omega
                          | (simp only []; omega)
                      · rw [if_neg h11]
                        by_cases h12 : src.getD pos 0 = 43 ∨
                            src.getD pos 0 = 45 ∨
                            (48 ≤ src.getD pos 0 ∧ src.getD pos 0 ≤ 57) ∨
                            src.getD pos 0 = 120 ∨ src.getD pos 0 = 46 ∨
                            src.getD pos 0 = 101 ∨ src.getD pos 0 = 69 ∨
                            src.getD pos 0 = 105 ∨ src.getD pos 0 = 73
                        · rw [if_pos h12]
                          repeat' split
                          all_goals first
                            | omega
                            | (simp only []; omega)
                        · rw [if_neg h12]
                          by_cases h13 : src.getD pos 0 = 35 ∨
                              src.getD pos 0 = 47
                          · rw [if_pos h13]
                            repeat' split
                            all_goals first
                              | omega
                              | (simp only []; omega)
                          · rw [if_neg h13]
                            exact h

/-- Every state reachable through the first parse loop keeps the depth
counter within JSON_MAX_DEPTH. -/
theorem jparseLoop1_depth (o : NumOracle) (src : List Nat) :
    ∀ fuel (p : JParser) (pos : Nat) (evs : List JEvent),
    p.depth ≤ JSON_MAX_DEPTH →
    ∀ r ∈ jparseLoop1 o p src pos fuel evs, r.1.depth ≤ JSON_MAX_DEPTH := by
  intro fuel
  induction fuel with
  | zero =>
    intro p pos evs h r hr
    simp [jparseLoop1] at hr
  | succ fuel ih =>
    intro p pos evs h r hr
    rw [jparseLoop1] at hr
    rcases hid : identify o p src pos with ⟨p1, e, posOpt⟩
    have hd := identify_depth o p src pos h
    rw [hid] at hd hr
    cases posOpt with
    | none =>
      simp only [Option.mem_def, Option.some_inj] at hr
      subst hr
      exact hd
    | some pos1 =>
      dsimp only [] at hr
      by_cases hc : p1.expect = 0 ∧ pos1 < src.length
      · rw [if_pos hc] at hr
        exact ih p1 pos1 (evs ++ e) hd r hr
      · rw [if_neg hc] at hr
        simp only [Option.mem_def, Option.some_inj] at hr
        subst hr
        exact hd

/-- Every state reachable through the second parse loop keeps the depth
counter within JSON_MAX_DEPTH. -/
theorem jparseLoop2_depth (o : NumOracle) (src : List Nat) :
    ∀ fuel (p : JParser) (pos : Nat) (evs : List JEvent),
    p.depth ≤ JSON_MAX_DEPTH →
    ∀ r ∈ jparseLoop2 o p src pos fuel evs, r.1.depth ≤ JSON_MAX_DEPTH := by
  intro fuel
  induction fuel with
  | zero =>
    intro p pos evs h r hr
    simp [jparseLoop2] at hr
  | succ fuel ih =>
    intro p pos evs h r hr
    rw [jparseLoop2] at hr
    by_cases hc : p.depth ≠ 0 ∧ pos < src.length
    · rw [if_pos hc] at hr
      rcases hid : identify o p src pos with ⟨p1, e, posOpt⟩
      have hd := identify_depth o p src pos h
      rw [hid] at hd hr
      cases posOpt with
      | none =>
        simp only [Option.mem_def, Option.some_inj] at hr
        subst hr
        exact hd
      | some pos1 =>
        exact ih p1 pos1 (evs ++ e) hd r hr
    · rw [if_neg hc] at hr
      simp only [Option.mem_def, Option.some_inj] at hr
      subst hr
      exact h

/-- C2: the parser's depth counter never exceeds JSON_MAX_DEPTH = 31 (not
32): starting at or below the cap, every result of fio_json_parse stays at
or below it, and a '\x7b' or '[' arriving when the depth already equals the
cap fires on_error and stops parsing at that byte (identify returns no
advance position). -/
theorem C2_depth_cap (o : NumOracle) (src : List Nat) (fuel : Nat) :
    (∀ p : JParser, p.depth ≤ JSON_MAX_DEPTH →
      ∀ r ∈ jsonParse o p src fuel, r.1.depth ≤ JSON_MAX_DEPTH) ∧
    (∀ (p : JParser) (pos : Nat), p.depth = JSON_MAX_DEPTH →
      (src.getD pos 0 = 91 ∨ src.getD pos 0 = 123) →
      (identify o p src pos).2.2 = none ∧
      JEvent.onError ∈ (identify o p src pos).2.1) := by
  constructor
  · intro p hp r hr
    rw [jsonParse] at hr
    rcases h1 : jparseLoop1 o p src 0 fuel [] with _ | ⟨p1, evs, pos1, ok1⟩
    · rw [h1] at hr
      simp at hr
    · rw [h1] at hr
      dsimp only [] at hr
      have hd1 := jparseLoop1_depth o src fuel p 0 [] hp (p1, evs, pos1, ok1)
        (Option.mem_def.mpr h1)
      dsimp only [] at hd1
      by_cases hok1 : ok1 = true
      · rw [if_neg (not_not_intro hok1)] at hr
        rcases h2 : jparseLoop2 o p1 src pos1 fuel evs with _ | ⟨p2, evs2, pos2, ok2⟩
        · rw [h2] at hr
          simp at hr
        · rw [h2] at hr
          dsimp only [] at hr
          have hd2 := jparseLoop2_depth o src fuel p1 pos1 evs hd1 (p2, evs2, pos2, ok2)
            (Option.mem_def.mpr h2)
          dsimp only [] at hd2
          by_cases hok2 : ok2 = true
          · rw [if_neg (not_not_intro hok2)] at hr
            by_cases hz : p2.depth = 0
            · rw [if_pos hz] at hr
              simp only [Option.mem_def, Option.some_inj] at hr
              subst hr
              exact hd2
            · rw [if_neg hz] at hr
              simp only [Option.mem_def, Option.some_inj] at hr
              subst hr
              exact hd2
          · rw [if_pos hok2] at hr
            simp only [Option.mem_def, Option.some_inj] at hr
            subst hr
            exact hd2
      · rw [if_pos hok1] at hr
        simp only [Option.mem_def, Option.some_inj] at hr
        subst hr
        exact hd1
  · intro p pos hdep hc
    rcases hc with h91 | h123
    · rw [identify]
      dsimp only []
      rw [h91]
      norm_num
      split
      · exact ⟨rfl, by simp⟩
      · exact ⟨rfl, by simp⟩
    · rw [identify]
      dsimp only []
      rw [h123]
      norm_num
      split
      · exact ⟨rfl, by simp⟩
      · exact ⟨rfl, by simp⟩

/-- C2 counterexample to the cap of 32: feeding 32 '[' bytes stops with
depth 31, an on_error event, and only 31 bytes consumed - the 32nd
container can never be opened, so "opened to a nesting depth of 32" is
false. -/
theorem C2_counterexample :
    (jsonParse numOracle0 jInit (List.replicate 32 91) 64).map
      (fun r => (r.1.depth, r.2.1.getLast?, r.2.2)) =
    some (31, some JEvent.onError, 31) := by decide

/-- C2 witness: the cap holds on a concrete parse, and a '[' at depth 31
errors without advancing. -/
theorem C2_depth_cap_witness :
    (∀ r ∈ jsonParse numOracle0 jInit [91, 93] 8, r.1.depth ≤ JSON_MAX_DEPTH) ∧
    ((identify numOracle0 { nesting := 0, depth := JSON_MAX_DEPTH, expect := 2 }
        [91] 0).2.2 = none ∧
      JEvent.onError ∈ (identify numOracle0
        { nesting := 0, depth := JSON_MAX_DEPTH, expect := 2 } [91] 0).2.1) :=
  ⟨(C2_depth_cap numOracle0 [91, 93] 8).1 jInit (by decide),
   (C2_depth_cap numOracle0 [91] 8).2
     { nesting := 0, depth := JSON_MAX_DEPTH, expect := 2 } 0 rfl (Or.inl rfl)⟩

/-- C3: at the nesting limit (level = FIOBJ_JSON_MAX_NESTING = 28) the
serializer writes the three-byte placeholder "[ ]" for an array and
"\x7b \x7d" for a hash - independent of the container's children, so the
recursion is bounded - rather than the five-byte "[...]"/"\x7b...\x7d" the
claim states. -/
theorem C3_placeholder (o : NumToS) (json : StrS) (elems : List Fiobj)
    (pairs : List (Fiobj × Fiobj)) (level : Nat) (beautify : Bool)
    (h : level = FIOBJ_JSON_MAX_NESTING) :
    fiobjFormat o json (Fiobj.arr elems) level beautify =
      (write json [91, 32, 93]).1 ∧
    fiobjFormat o json (Fiobj.hashObj pairs) level beautify =
      (write json [123, 32, 125]).1 := by
  subst h
  constructor
  · rw [fiobjFormat, if_pos rfl]
  · rw [fiobjFormat, if_pos rfl]

/-- C3 witness: the placeholder equations at level 28 on concrete inputs. -/
theorem C3_placeholder_witness :
    fiobjFormat numToS0 strInit (Fiobj.arr [Fiobj.ftrue]) 28 false =
      (write strInit [91, 32, 93]).1 ∧
    fiobjFormat numToS0 strInit (Fiobj.hashObj []) 28 false =
      (write strInit [123, 32, 125]).1 :=
  C3_placeholder numToS0 strInit [Fiobj.ftrue] [] 28 false rfl

/-- C3 counterexample to the "[...]"/"\x7b...\x7d" placeholders: a container
serialized at the nesting limit produces the bytes '[', ' ', ']'
(respectively '\x7b', ' ', '\x7d'), not "[...]". -/
theorem C3_counterexample :
    contents (fiobjFormat numToS0 strInit (Fiobj.arr [Fiobj.fnull])
      FIOBJ_JSON_MAX_NESTING false) = [91, 32, 93] ∧
    contents (fiobjFormat numToS0 strInit
      (Fiobj.hashObj [(Fiobj.fnull, Fiobj.fnull)])
      FIOBJ_JSON_MAX_NESTING false) = [123, 32, 125] := by
  constructor
  · rw [fiobjFormat, if_pos rfl]
    decide
  · rw [fiobjFormat, if_pos rfl]
    decide

/-- C8: push followed by pop does return the pushed element, but when push
lands on the set() slow path (end = capa) with start > 0, set() adds start
to the index after storing an invalid sentinel at the old end, leaving a
phantom zero element between the previous contents and the pushed value:
on a full capacity-6 array holding [1..6], shift (contents [2..6]) then
push 7 then pop yields out = 7 yet contents [2, 3, 4, 5, 6, 0], not the
prior [2, 3, 4, 5, 6]. -/
theorem C8_push_pop_bug :
    (let a0 : ArrS := { ary := [1, 2, 3, 4, 5, 6], capa := 6, start := 0, endI := 6 }
     let a1 := (shift a0).1
     let a2 := (push a1 7).1
     let r := pop a2
     arrContents a1 = [2, 3, 4, 5, 6] ∧ r.2.1 = 0 ∧ r.2.2 = 7 ∧
       arrContents r.1 = [2, 3, 4, 5, 6, 0]) := by decide

/-- Ring walks ignore the has_collisions and under_attack bookkeeping. -/
theorem ringList_fields (m : MapS) (hc ua : Nat) :
    ∀ fuel i, ringList { m with has_collisions := hc, under_attack := ua } fuel i =
      ringList m fuel i := by
  intro fuel
  induction fuel with
  | zero => intro i; rfl
  | succ fuel ih =>
    intro i
    rw [ringList, ringList]
    dsimp only []
    rw [ih]

/-- The logical content ignores the bookkeeping fields. -/
theorem mapContents_fields (m : MapS) (hc ua fuel : Nat) :
    mapContents { m with has_collisions := hc, under_attack := ua } fuel =
      mapContents m fuel := by
  rw [mapContents, mapContents]
  dsimp only []
  rw [ringList_fields]

/-- The probe loop only touches has_collisions and under_attack: the probe
table, ring head and count are unchanged. -/
theorem seekLoop_fields (key hash mask : Nat) :
    ∀ rem (m : MapS) (pos_key counter : Nat),
    ∃ hc ua, (seekLoop key hash mask m pos_key counter rem).1 =
      { m with has_collisions := hc, under_attack := ua } := by
  intro rem
  induction rem with
  | zero =>
    intro m pos_key counter
    exact ⟨m.has_collisions, m.under_attack, rfl⟩
  | succ rem ih =>
    intro m pos_key counter
    rw [seekLoop]
    dsimp only []
    by_cases h1 : (m.map pos_key).hash = 0
    · rw [if_pos h1]
      exact ⟨m.has_collisions, m.under_attack, rfl⟩
    · rw [if_neg h1]
      by_cases h2 : (m.map pos_key).hash = hash
      · rw [if_pos h2]
        by_cases h3 : (m.map pos_key).next = U32NIL ∨ m.under_attack ≠ 0 ∨
            (m.map pos_key).key = key
        · rw [if_pos h3]
          exact ⟨m.has_collisions, m.under_attack, rfl⟩
        · rw [if_neg h3]
          by_cases h4 : counter + 1 ≥ MAX_FULL_COLLISIONS
          · rw [if_pos h4]
            obtain ⟨hc, ua, he⟩ := ih
              { m with has_collisions := m.has_collisions ||| 1, under_attack := 1 }
              ((pos_key + CUCKOO_STEPS) &&& mask) (counter + 1)
            exact ⟨hc, ua, he⟩
          · rw [if_neg h4]
            obtain ⟨hc, ua, he⟩ := ih
              { m with has_collisions := m.has_collisions ||| 1 }
              ((pos_key + CUCKOO_STEPS) &&& mask) (counter + 1)
            exact ⟨hc, ua, he⟩
      · rw [if_neg h2]
        exact ih m ((pos_key + CUCKOO_STEPS) &&& mask) counter

/-- _find_map_pos's probe phase only touches the bookkeeping fields. -/
theorem findSeek_fields (m : MapS) (key hash : Nat) :
    ∃ hc ua, (findSeek m key hash).1 =
      { m with has_collisions := hc, under_attack := ua } := by
  rw [findSeek]
  dsimp only []
  by_cases hnull : m.mapNull
  · rw [if_pos hnull]
    exact ⟨m.has_collisions, m.under_attack, rfl⟩
  · rw [if_neg hnull]
    exact seekLoop_fields key (if hash = 0 then U64MAX else hash)
      (2 ^ m.used_bits - 1) _ m _ 0

/-- The invalid-hash substitution is idempotent across nested fixes. -/
theorem findSeek_fix (m : MapS) (key hash : Nat) :
    findSeek m key (if hash = 0 then U64MAX else hash) = findSeek m key hash := by
  by_cases h0 : hash = 0
  · rw [if_pos h0]
    subst h0
    rw [findSeek, findSeek]
    norm_num [U64MAX]
  · rw [if_neg h0]

/-- C9: on a map whose degraded-mode flag (has_collisions bit 1) is clear,
a remove whose probe misses - the seek returns NULL, an empty slot or a
tombstone - returns -1, stores the invalid sentinel 0 through `old` when
requested, and leaves the logical content (count, ring couplets) unchanged:
only the has_collisions / under_attack bookkeeping fields may change.  (With
bit 1 set the pre-seek same-size rebuild runs first and can alter content,
see the counterexample.) -/
theorem C9_miss_remove (m : MapS) (key hash : Nat) (withOld : Bool)
    (fuel fuel2 : Nat)
    (hcol : m.has_collisions &&& 2 = 0)
    (hmiss : (findSeek m key hash).2.1 = none ∨
      ∃ pos, (findSeek m key hash).2.1 = some pos ∧
        (((findSeek m key hash).1.map pos).hash = 0 ∨
         ((findSeek m key hash).1.map pos).next = U32NIL)) :
    mapRemove m key hash withOld fuel =
      some ((findSeek m key hash).1, -1, if withOld then some 0 else none) ∧
    mapContents (findSeek m key hash).1 fuel2 = mapContents m fuel2 := by
  have hfmp : findMapPos m key (if hash = 0 then U64MAX else hash) fuel =
      some (findSeek m key hash) := by
    rw [findMapPos]
    dsimp only []
    by_cases hnull : m.mapNull
    · rw [if_pos hnull]
      rw [findSeek]
      dsimp only []
      rw [if_pos hnull]
    · rw [if_neg hnull]
      rw [if_neg (not_not_intro hcol)]
      dsimp only []
      have : (if (if hash = 0 then U64MAX else hash) = 0 then U64MAX
          else if hash = 0 then U64MAX else hash) =
          (if hash = 0 then U64MAX else hash) := by
        by_cases h0 : hash = 0
        · rw [if_pos h0]
          norm_num [U64MAX]
        · rw [if_neg h0, if_neg h0]
      rw [Option.some_inj]
      calc findSeek m key (if (if hash = 0 then U64MAX else hash) = 0 then U64MAX
            else if hash = 0 then U64MAX else hash)
          = findSeek m key (if hash = 0 then U64MAX else hash) := by rw [this]
        _ = findSeek m key hash := findSeek_fix m key hash
  constructor
  · rcases hseek : findSeek m key hash with ⟨m1, posOpt, cnt⟩
    rw [hseek] at hfmp hmiss
    rw [mapRemove, removePhase1]
    dsimp only []
    rw [hfmp]
    dsimp only []
    rcases hmiss with hnone | ⟨pos, hpos, hmp⟩
    · dsimp only [] at hnone
      subst hnone
      dsimp only []
      rw [if_neg (by decide : ¬((-1 : Int) = 0))]
    · dsimp only [] at hpos
      subst hpos
      dsimp only []
      rw [if_pos hmp]
      dsimp only []
      rw [if_neg (by decide : ¬((-1 : Int) = 0))]
  · obtain ⟨hc, ua, he⟩ := findSeek_fields m key hash
    rw [he]
    exact mapContents_fields m hc ua fuel2

/-- C9 witness: removing from the empty four-slot map misses at an empty
slot, returns -1 with the sentinel, and preserves the (empty) content. -/
theorem C9_miss_remove_witness :
    (mapRemove C9M 1 5 true 4 = some ((findSeek C9M 1 5).1, -1, some 0) ∧
     mapContents (findSeek C9M 1 5).1 4 = mapContents C9M 4) :=
  C9_miss_remove C9M 1 5 true 4 4 (by decide)
    (Or.inr ⟨1, by decide, Or.inl (by decide)⟩)

/-- C9 counterexample on a degraded map: removing the absent key 3 (hash 7)
from C9Mbad returns -1 and stores the sentinel, yet the logical content
collapses from [(1, 10), (2, 20)] to [(2, 20)]: the pre-seek same-size
rebuild re-inserts both couplets, and with under_attack set the second
insertion (same full hash 5) lands on the first one's slot and overwrites
it. -/
theorem C9_counterexample :
    mapContents C9Mbad 8 = some [(1, 10), (2, 20)] ∧
    (mapRemove C9Mbad 3 7 true 8).map (fun r => (r.2.1, r.2.2)) =
      some (-1, some 0) ∧
    (mapRemove C9Mbad 3 7 true 8).bind (fun r => mapContents r.1 8) =
      some [(2, 20)] := by decide

/-- Linking a node never changes used_bits. -/
theorem linkNode_used_bits (m : MapS) (n : Nat) :
    (linkNode m n).used_bits = m.used_bits := by
  rw [linkNode]
  by_cases h : m.head = U32NIL
  · rw [if_pos h]
  · rw [if_neg h]

/-- The rebuild ring-walk: a result flagged 0 keeps the destination's
used_bits; a result flagged -1 is the untouched source map. -/
theorem remapLoop_spec (src : MapS) :
    ∀ fuel (dest : MapS) (i : Nat) (d : MapS) (r : Int),
    remapLoop src dest i fuel = some (d, r) →
    (r = 0 → d.used_bits = dest.used_bits) ∧ (r = -1 → d = src) := by
  intro fuel
  induction fuel with
  | zero => intro dest i d r h; simp [remapLoop] at h
  | succ fuel ih =>
    intro dest i d r h
    rw [remapLoop] at h
    dsimp only [] at h
    rcases hfs : findSeek dest (src.map i).key (src.map i).hash with ⟨d1, posOpt, cnt⟩
    rw [hfs] at h
    cases posOpt with
    | none =>
      dsimp only [] at h
      simp only [Option.some_inj, Prod.mk.injEq] at h
      obtain ⟨h1, h2⟩ := h
      subst h1
      constructor
      · intro h0
        rw [← h2] at h0
        exact absurd h0 (by decide)
      · intro _
        rfl
    | some pos =>
      dsimp only [] at h
      have hub : d1.used_bits = dest.used_bits := by
        obtain ⟨hc, ua, he⟩ := findSeek_fields dest (src.map i).key (src.map i).hash
        rw [hfs] at he
        dsimp only [] at he
        rw [he]
      by_cases hend : (src.map i).next = src.head
      · rw [if_pos hend] at h
        simp only [Option.some_inj, Prod.mk.injEq] at h
        obtain ⟨h1, h2⟩ := h
        constructor
        · intro _
          rw [← h1]
          simp only [linkNode_used_bits]
          exact hub
        · intro hm1
          rw [← h2] at hm1
          exact absurd hm1 (by decide)
      · rw [if_neg hend] at h
        have hrec := ih _ _ d r h
        constructor
        · intro h0
          have h4 := hrec.1 h0
          rw [h4]
          simp only [linkNode_used_bits]
          exact hub
        · exact hrec.2

/-- _remap2bits: success yields a table at the requested bit width; failure
returns the source unchanged. -/
theorem remap2bits_spec (m : MapS) (bits fuel : Nat) (d : MapS) (r : Int)
    (h : remap2bits m bits fuel = some (d, r)) :
    (r = 0 → d.used_bits = bits) ∧ (r = -1 → d = m) := by
  rw [remap2bits] at h
  by_cases hn : m.mapNull ∨ m.head = U32NIL
  · rw [if_pos hn] at h
    simp only [Option.some_inj, Prod.mk.injEq] at h
    obtain ⟨h1, h2⟩ := h
    constructor
    · intro _
      rw [← h1]
    · intro hm1
      rw [← h2] at hm1
      exact absurd hm1 (by decide)
  · rw [if_neg hn] at h
    exact remapLoop_spec m fuel _ m.head d r h

/-- C4: after the removal phase, no shrink is attempted unless used_bits is
at least 8 and the remaining count is below 12.5 percent of the probe
slots (the result is the phase-1 map itself); when the condition holds, a
rebuild at used_bits - 1 runs, and used_bits drops by one exactly if that
rebuild succeeds - a failed rebuild (flag -1) leaves the map unchanged, so
density alone does not guarantee the halving the claim states. -/
theorem C4_shrink (m : MapS) (key hash : Nat) (withOld : Bool) (fuel : Nat)
    (m3 : MapS) (ret : Int) (old : Option Nat)
    (hph : removePhase1 m key hash withOld fuel = some (m3, ret, old)) :
    (ret ≠ 0 → mapRemove m key hash withOld fuel = some (m3, ret, old)) ∧
    (ret = 0 → ¬(m3.used_bits ≥ 8 ∧ m3.count <<< 3 < 2 ^ m3.used_bits) →
      mapRemove m key hash withOld fuel = some (m3, 0, old)) ∧
    (ret = 0 → (m3.used_bits ≥ 8 ∧ m3.count <<< 3 < 2 ^ m3.used_bits) →
      ∀ res ∈ mapRemove m key hash withOld fuel,
        ∃ r, remap2bits m3 (m3.used_bits - 1) fuel = some (res.1, r) ∧
          res.2 = (0, old) ∧
          (r = 0 → res.1.used_bits = m3.used_bits - 1) ∧
          (r = -1 → res.1 = m3)) := by
  refine ⟨?_, ?_, ?_⟩
  · intro hne
    rw [mapRemove, hph]
    dsimp only []
    rw [if_neg hne]
  · intro h0 hcond
    subst h0
    rw [mapRemove, hph]
    dsimp only []
    rw [if_pos rfl]
    rw [removeShrink, if_neg hcond]
  · intro h0 hcond res hres
    subst h0
    rw [mapRemove, hph] at hres
    dsimp only [] at hres
    rw [if_pos rfl] at hres
    rcases hs : removeShrink m3 fuel with _ | m4
    · rw [hs] at hres
      simp at hres
    · rw [hs] at hres
      simp only [Option.mem_def, Option.some_inj] at hres
      subst hres
      rw [removeShrink, if_pos hcond] at hs
      rcases hrm : remap2bits m3 (m3.used_bits - 1) fuel with _ | ⟨m5, r⟩
      · rw [hrm] at hs
        simp at hs
      · rw [hrm] at hs
        dsimp only [] at hs
        simp only [Option.some_inj] at hs
        subst hs
        have hspec := remap2bits_spec m3 (m3.used_bits - 1) fuel m5 r hrm
        exact ⟨r, rfl, rfl, hspec.1, hspec.2⟩

/-- C4 witness: a miss-remove on the empty four-slot map takes the no-shrink
path verbatim. -/
theorem C4_shrink_witness :
    mapRemove C9M 1 5 true 4 = some ((findSeek C9M 1 5).1, -1, some 0) :=
  (C4_shrink C9M 1 5 true 4 (findSeek C9M 1 5).1 (-1) (some 0) rfl).1
    (by decide)

set_option maxHeartbeats 2000000 in
/-- C4 counterexample to "exactly when": removing the removee from C4M
succeeds (result 0, old value 98) and leaves 98 entries - used_bits is 10
(at least 8) and 98 * 8 = 784 < 1024, the claimed halving condition - yet
used_bits stays 10: the 9-bit rebuild fails because the victim entry's 97
probe slots are all occupied by blockers. -/
theorem C4_counterexample :
    (mapRemove C4M 3000 98 true 200).map
      (fun r => (r.1.used_bits, r.1.count, r.2.1, r.2.2)) =
      some (10, 98, 0, some 98) ∧
    (10 ≥ 8 ∧ 98 <<< 3 < 2 ^ 10) := by decide

end Facil
